import Mathlib

/-
Verification of the dataset session in src/src/dataset.rs (icechunk core).

The file shallow-embeds the Rust code: every definition in the `Icechunk`
namespace mirrors the function of the same name in dataset.rs, with async
streams rendered as lists, HashMaps as association lists, and Rust `unwrap`
panics as `Option.none` results.  Types that live outside the provided
sources (the structure and manifest tables, the Storage capability and the
shared data model in lib.rs) are modelled from the specification, and say so
in their doc comments.
-/

set_option autoImplicit false

namespace Icechunk

/-- Modelled from the spec: `NodeId` (lib.rs is not in the sources) is a
monotonically increasing integer; the session only compares, maximises and
increments it, so it is embedded as `Nat`. -/
abbrev NodeId := Nat

/-- Modelled from the spec: `ObjectId` (lib.rs is not in the sources) is an
opaque content identifier with decidable equality; embedded as `Nat`. -/
abbrev ObjectId := Nat

/-- Modelled from the spec: `Path` (lib.rs is not in the sources) is a
hierarchical name; the session treats it as an opaque map key with decidable
equality, so it is embedded as `Nat`. -/
abbrev Path := Nat

/-- Modelled from the spec: `ArrayIndices` (lib.rs is not in the sources) is
an integer tuple naming one chunk of an array. -/
abbrev ArrayIndices := List Nat

/-- Modelled from the spec: user attributes (lib.rs is not in the sources)
are an opaque value; embedded as `Nat`. -/
abbrev UserAttributes := Nat

/-- Modelled from the spec: chunk payloads (lib.rs is not in the sources) are
either inline bytes or a reference to an external blob. -/
inductive ChunkPayload where
  | Inline (data : List Nat)
  | Ref (id : ObjectId) (offset : Nat) (length : Nat)
deriving DecidableEq, Repr

/-- Modelled from the spec: `ChunkInfo` (lib.rs is not in the sources), the
canonical row shape of a manifest table. -/
structure ChunkInfo where
  node : NodeId
  coord : ArrayIndices
  payload : ChunkPayload
deriving DecidableEq, Repr

/-- Modelled from the spec: `TableRegion(start, end)` (lib.rs is not in the
sources), a half-open row range inside a manifest table. -/
abbrev TableRegion := Nat × Nat

/-- Modelled from the spec: `UserAttributesStructure` (lib.rs is not in the
sources); the session only produces and inspects the inline form. -/
inductive UserAttributesStructure where
  | Inline (atts : UserAttributes)
deriving DecidableEq, Repr

/-- Modelled from the spec: `Flags` (lib.rs is not in the sources) is an
empty marker value. -/
inductive Flags where
  | mk
deriving DecidableEq, Repr

/-- Modelled from the spec: `ManifestExtents` (lib.rs is not in the sources)
is an optional coordinate-space hint, always emitted empty by flush. -/
abbrev ManifestExtents := List ArrayIndices

/-- Modelled from the spec: `ManifestRef` (lib.rs is not in the sources)
names a half-open row range inside a manifest table. -/
structure ManifestRef where
  object_id : ObjectId
  location : TableRegion
  flags : Flags
  extents : ManifestExtents
deriving DecidableEq, Repr

/-- Modelled from the spec: zarr array metadata (lib.rs is not in the
sources).  The session copies and compares it but never inspects it, so one
representative field stands in for the full record. -/
structure ZarrArrayMetadata where
  shape : List Nat
deriving DecidableEq, Repr

/-- Modelled from the spec: `NodeData` (lib.rs is not in the sources): a node
is a group, or an array with metadata and manifest references. -/
inductive NodeData where
  | Group
  | Array (metadata : ZarrArrayMetadata) (manifests : List ManifestRef)
deriving DecidableEq, Repr

/-- Modelled from the spec: `NodeStructure` (lib.rs is not in the sources),
one row of a structure table. -/
structure NodeStructure where
  id : NodeId
  path : Path
  user_attributes : Option UserAttributesStructure
  node_data : NodeData
deriving DecidableEq, Repr

/-- Modelled from the spec: the error kinds of the data model (lib.rs is not
in the sources). -/
inductive AddNodeError where
  | AlreadyExists (path : Path)
deriving DecidableEq, Repr

/-- Modelled from the spec: mutation errors (lib.rs is not in the
sources). -/
inductive UpdateNodeError where
  | NotFound (path : Path)
  | NotAnArray (path : Path)
deriving DecidableEq, Repr

/-- Modelled from the spec: storage errors are opaque (storage.rs is not in
the sources). -/
inductive StorageError where
  | mk
deriving DecidableEq, Repr

/-! ### Association-list helpers

HashMaps of the Rust code are embedded as association lists with unique
keys; `insertA` keeps the slot of an existing key and appends new keys, and
`lookupA` returns the first binding. -/

/-- Insert or replace one binding in an association list. -/
def insertA {α β : Type} [DecidableEq α] : List (α × β) → α → β → List (α × β)
  | [], k, v => [(k, v)]
  | kv :: rest, k, v =>
    if kv.1 = k then (k, v) :: rest else kv :: insertA rest k v

/-- Look up the first binding of a key in an association list. -/
def lookupA {α β : Type} [DecidableEq α] : List (α × β) → α → Option β
  | [], _ => none
  | kv :: rest, k => if kv.1 = k then some kv.2 else lookupA rest k

/-- Concatenate a list of lists (order preserving). -/
def joinL {α : Type} : List (List α) → List α
  | [] => []
  | l :: ls => l ++ joinL ls

/-- Sequence a fallible map over a list, failing if any element fails; this
embeds a Rust iterator whose body may `unwrap`. -/
def mapOpt {α β : Type} (f : α → Option β) : List α → Option (List β)
  | [] => some []
  | a :: l =>
    match f a, mapOpt f l with
    | some b, some bs => some (b :: bs)
    | _, _ => none

/-- Find the first node with a given path. -/
def findByPath : List NodeStructure → Path → Option NodeStructure
  | [], _ => none
  | n :: rest, p => if n.path = p then some n else findByPath rest p

/-- Find the first chunk row with a given coordinate. -/
def findByCoord : List ChunkInfo → ArrayIndices → Option ChunkInfo
  | [], _ => none
  | c :: rest, coords => if c.coord = coords then some c else findByCoord rest coords

/-! ### Tables and storage (modelled from the spec) -/

/-- Modelled from the spec: the structure table (structure.rs is not in the
sources), an immutable catalog of nodes with path lookup and iteration. -/
structure StructureTable where
  nodes : List NodeStructure
deriving DecidableEq, Repr

/-- Modelled from the spec: `StructureTable::get_node` returns the node at a
path. -/
def StructureTable.get_node (t : StructureTable) (path : Path) : Option NodeStructure :=
  findByPath t.nodes path

/-- Modelled from the spec: `mk_structure_table` builds the immutable table
from a finite sequence of nodes. -/
def mk_structure_table (nodes : List NodeStructure) : StructureTable :=
  ⟨nodes⟩

/-- Modelled from the spec: the manifest table (manifest.rs is not in the
sources), an immutable sequence of chunk rows. -/
structure ManifestTable where
  rows : List ChunkInfo
deriving DecidableEq, Repr

/-- Modelled from the spec: `ManifestTable::iter(lo, hi)` enumerates the rows
of the half-open range `[lo, hi)` in stored order (whole table when a bound
is absent). -/
def ManifestTable.iter (t : ManifestTable) (lo : Option Nat) (hi : Option Nat) : List ChunkInfo :=
  (t.rows.take (hi.getD t.rows.length)).drop (lo.getD 0)

/-- Modelled from the spec: `ManifestTable::get_chunk_info(coord, location)`
looks a coordinate up within a row range. -/
def ManifestTable.get_chunk_info (t : ManifestTable) (coords : ArrayIndices)
    (location : TableRegion) : Option ChunkInfo :=
  findByCoord (t.iter (some location.1) (some location.2)) coords

/-- Modelled from the spec: `mk_manifests_table` materializes the row stream,
preserving its order. -/
def mk_manifests_table (chunks : List ChunkInfo) : ManifestTable :=
  ⟨chunks⟩

/-- Modelled from the spec: the Storage capability (storage.rs is not in the
sources): content-addressed fetch and write of the two table kinds.  The four
flags inject transient storage failures, which the spec says any operation
may raise. -/
structure Storage where
  structures : List (ObjectId × StructureTable)
  manifests : List (ObjectId × ManifestTable)
  fetch_structure_fails : Bool
  fetch_manifests_fails : Bool
  write_structure_fails : Bool
  write_manifests_fails : Bool
deriving DecidableEq, Repr

/-- Modelled from the spec: fetch a structure table by id. -/
def Storage.fetch_structure (s : Storage) (id : ObjectId) : Except StorageError StructureTable :=
  if s.fetch_structure_fails then .error .mk else
    match lookupA s.structures id with
    | some t => .ok t
    | none => .error .mk

/-- Modelled from the spec: fetch a manifest table by id. -/
def Storage.fetch_manifests (s : Storage) (id : ObjectId) : Except StorageError ManifestTable :=
  if s.fetch_manifests_fails then .error .mk else
    match lookupA s.manifests id with
    | some t => .ok t
    | none => .error .mk

/-- Modelled from the spec: write a structure table; on success the table
becomes fetchable under its id. -/
def Storage.write_structure (s : Storage) (id : ObjectId) (t : StructureTable) :
    Except StorageError Storage :=
  if s.write_structure_fails then .error .mk
  else .ok { s with structures := insertA s.structures id t }

/-- Modelled from the spec: write a manifest table; on success the table
becomes fetchable under its id. -/
def Storage.write_manifests (s : Storage) (id : ObjectId) (t : ManifestTable) :
    Except StorageError Storage :=
  if s.write_manifests_fails then .error .mk
  else .ok { s with manifests := insertA s.manifests id t }

/-! ### ChangeSet (dataset.rs lines 19-94) -/

/-- Modelled from the spec: the `ChangeSet` record itself is declared in
lib.rs; its fields are the five staging maps, embedded as association
lists. All the operations on it below are translated from dataset.rs. -/
structure ChangeSet where
  new_groups : List (Path × NodeId)
  new_arrays : List (Path × (NodeId × ZarrArrayMetadata))
  updated_arrays : List (Path × ZarrArrayMetadata)
  updated_attributes : List (Path × Option UserAttributes)
  set_chunks : List (Path × List (ArrayIndices × Option ChunkPayload))
deriving DecidableEq, Repr

/-- `ChangeSet::default()`: all five maps empty. -/
def ChangeSet.default : ChangeSet := ⟨[], [], [], [], []⟩

/-- dataset.rs `ChangeSet::add_group`. -/
def ChangeSet.add_group (cs : ChangeSet) (path : Path) (node_id : NodeId) : ChangeSet :=
  { cs with new_groups := insertA cs.new_groups path node_id }

/-- dataset.rs `ChangeSet::get_group`. -/
def ChangeSet.get_group (cs : ChangeSet) (path : Path) : Option NodeId :=
  lookupA cs.new_groups path

/-- dataset.rs `ChangeSet::add_array`. -/
def ChangeSet.add_array (cs : ChangeSet) (path : Path) (node_id : NodeId)
    (metadata : ZarrArrayMetadata) : ChangeSet :=
  { cs with new_arrays := insertA cs.new_arrays path (node_id, metadata) }

/-- dataset.rs `ChangeSet::get_array`. -/
def ChangeSet.get_array (cs : ChangeSet) (path : Path) : Option (NodeId × ZarrArrayMetadata) :=
  lookupA cs.new_arrays path

/-- dataset.rs `ChangeSet::update_array`. -/
def ChangeSet.update_array (cs : ChangeSet) (path : Path) (metadata : ZarrArrayMetadata) : ChangeSet :=
  { cs with updated_arrays := insertA cs.updated_arrays path metadata }

/-- dataset.rs `ChangeSet::get_updated_zarr_metadata`. -/
def ChangeSet.get_updated_zarr_metadata (cs : ChangeSet) (path : Path) : Option ZarrArrayMetadata :=
  lookupA cs.updated_arrays path

/-- dataset.rs `ChangeSet::update_user_attributes`. -/
def ChangeSet.update_user_attributes (cs : ChangeSet) (path : Path)
    (atts : Option UserAttributes) : ChangeSet :=
  { cs with updated_attributes := insertA cs.updated_attributes path atts }

/-- dataset.rs `ChangeSet::get_user_attributes`. -/
def ChangeSet.get_user_attributes (cs : ChangeSet) (path : Path) : Option (Option UserAttributes) :=
  lookupA cs.updated_attributes path

/-- dataset.rs `ChangeSet::set_chunk`: `entry(path).and_modify(insert).or_insert(singleton)`. -/
def ChangeSet.set_chunk (cs : ChangeSet) (path : Path) (coord : ArrayIndices)
    (data : Option ChunkPayload) : ChangeSet :=
  { cs with set_chunks :=
      insertA cs.set_chunks path (insertA ((lookupA cs.set_chunks path).getD []) coord data) }

/-- dataset.rs `ChangeSet::get_chunk_ref`: the outer option distinguishes
"no overlay entry" from "overlay records a deletion". -/
def ChangeSet.get_chunk_ref (cs : ChangeSet) (path : Path) (coords : ArrayIndices) :
    Option (Option ChunkPayload) :=
  (lookupA cs.set_chunks path).bind (fun h => lookupA h coords)

/-- dataset.rs `ChangeSet::array_chunks_iterator`: the overlay entries for
one array, empty when the path is absent. -/
def ChangeSet.array_chunks_iterator (cs : ChangeSet) (path : Path) :
    List (ArrayIndices × Option ChunkPayload) :=
  (lookupA cs.set_chunks path).getD []

/-- dataset.rs `ChangeSet::new_arrays_chunk_iterator`: `ChunkInfo` rows for
every overlay chunk of a session-created array, skipping tombstones. -/
def ChangeSet.new_arrays_chunk_iterator (cs : ChangeSet) : List ChunkInfo :=
  joinL (cs.new_arrays.map (fun pa =>
    (cs.array_chunks_iterator pa.1).filterMap (fun cp =>
      cp.2.map (fun p => { node := pa.2.1, coord := cp.1, payload := p }))))

/-- dataset.rs `ChangeSet::new_nodes`: new group keys then new array keys. -/
def ChangeSet.new_nodes (cs : ChangeSet) : List Path :=
  cs.new_groups.map Prod.fst ++ cs.new_arrays.map Prod.fst

/-! ### TableRegionTracker (dataset.rs lines 572-587) -/

/-- dataset.rs `TableRegionTracker`: a map from node id to its region and a
running row counter. -/
structure TableRegionTracker where
  regions : List (NodeId × TableRegion)
  counter : Nat
deriving DecidableEq, Repr

/-- `TableRegionTracker::default()`. -/
def TableRegionTracker.default : TableRegionTracker := ⟨[], 0⟩

/-- dataset.rs `TableRegionTracker::update`: extend the chunk's node region
to end after the current row, or open it at the current row; then advance the
counter. -/
def TableRegionTracker.update (t : TableRegionTracker) (chunk : ChunkInfo) : TableRegionTracker :=
  { regions :=
      match lookupA t.regions chunk.node with
      | some tr => insertA t.regions chunk.node (tr.1, t.counter + 1)
      | none => t.regions ++ [(chunk.node, (t.counter, t.counter + 1))],
    counter := t.counter + 1 }

/-- dataset.rs `TableRegionTracker::region`. -/
def TableRegionTracker.region (t : TableRegionTracker) (node : NodeId) : Option TableRegion :=
  lookupA t.regions node

/-- Run the tracker over a chunk stream in order (the `map` side effect in
`Dataset::flush`). -/
def TableRegionTracker.processChunks (t : TableRegionTracker) : List ChunkInfo → TableRegionTracker
  | [] => t
  | c :: rest => (t.update c).processChunks rest

/-! ### Dataset (dataset.rs lines 97-570)

Rust's `&mut self` methods returning `Result<T, E>` are embedded as functions
returning `Except E T × Dataset`, the second component being the post-call
session state (unchanged when the method returns an error).  Functions whose
Rust body can `unwrap` a storage error (panic) return `Option`, with `none`
standing for the panic. -/

/-- The `Dataset` record (declared in lib.rs, used by dataset.rs): base
snapshot id, storage handle, node-id cache, and staged change set. -/
structure Dataset where
  structure_id : Option ObjectId
  storage : Storage
  last_node_id : Option NodeId
  change_set : ChangeSet
deriving DecidableEq, Repr

/-- dataset.rs `Dataset::new`. -/
def Dataset.new (storage : Storage) (previous_version_structure_id : Option ObjectId) : Dataset :=
  { structure_id := previous_version_structure_id
    storage := storage
    last_node_id := none
    change_set := ChangeSet.default }

/-- dataset.rs `Dataset::create`. -/
def Dataset.create (storage : Storage) : Dataset :=
  Dataset.new storage none

/-- dataset.rs `Dataset::update`. -/
def Dataset.update (storage : Storage) (previous_version_structure_id : ObjectId) : Dataset :=
  Dataset.new storage (some previous_version_structure_id)

/-- dataset.rs `Dataset::compute_last_node_id`: 0 without a base; otherwise
the maximum node id of the fetched base structure, with fetch errors and the
empty table both collapsing to 0. -/
def Dataset.compute_last_node_id (ds : Dataset) : NodeId :=
  match ds.structure_id with
  | none => 0
  | some id =>
    match ds.storage.fetch_structure id with
    | .error _ => 0
    | .ok st =>
      match maxById st.nodes with
      | none => 0
      | some node => node.id
where
  /-- `iter().max_by_key(|s| s.id)`: the last node of maximal id. -/
  maxById : List NodeStructure → Option NodeStructure
    | [] => none
    | n :: rest =>
      match maxById rest with
      | none => some n
      | some m => if m.id < n.id then some n else some m

/-- dataset.rs `Dataset::reserve_node_id`: one past the cached (or freshly
computed) last id, updating the cache. -/
def Dataset.reserve_node_id (ds : Dataset) : NodeId × Dataset :=
  let last := ds.last_node_id.getD ds.compute_last_node_id
  let new := last + 1
  (new, { ds with last_node_id := some new })

/-- dataset.rs `Dataset::get_new_array`: synthesize the node for a
session-created array, applying metadata and attribute overlays; new arrays
carry no manifests. -/
def Dataset.get_new_array (ds : Dataset) (path : Path) : Option NodeStructure :=
  (ds.change_set.get_array path).map (fun im =>
    let meta := (ds.change_set.get_updated_zarr_metadata path).getD im.2
    let atts := ds.change_set.get_user_attributes path
    { id := im.1
      path := path
      user_attributes := (atts.bind id).map UserAttributesStructure.Inline
      node_data := .Array meta [] })

/-- dataset.rs `Dataset::get_new_group`. -/
def Dataset.get_new_group (ds : Dataset) (path : Path) : Option NodeStructure :=
  (ds.change_set.get_group path).map (fun nid =>
    let atts := ds.change_set.get_user_attributes path
    { id := nid
      path := path
      user_attributes := (atts.bind id).map UserAttributesStructure.Inline
      node_data := .Group })

/-- dataset.rs `Dataset::get_new_node`: arrays take precedence. -/
def Dataset.get_new_node (ds : Dataset) (path : Path) : Option NodeStructure :=
  match ds.get_new_array path with
  | some n => some n
  | none => ds.get_new_group path

/-- dataset.rs `Dataset::get_existing_node`: look the path up in the fetched
base structure and apply the attribute and metadata overlays; fetch errors
collapse to `none`. -/
def Dataset.get_existing_node (ds : Dataset) (path : Path) : Option NodeStructure :=
  match ds.structure_id with
  | none => none
  | some structure_id =>
    match ds.storage.fetch_structure structure_id with
    | .error _ => none
    | .ok st =>
      let session_atts :=
        (ds.change_set.get_user_attributes path).map
          (fun a => a.map UserAttributesStructure.Inline)
      match st.get_node path with
      | none => none
      | some res0 =>
        let res := { res0 with user_attributes := session_atts.getD res0.user_attributes }
        match ds.change_set.get_updated_zarr_metadata path with
        | some session_meta =>
          match res.node_data with
          | .Array _ manifests =>
            some { res with node_data := .Array session_meta manifests }
          | _ => some res
        | none => some res

/-- dataset.rs `Dataset::get_node`: overlay first, then the base. -/
def Dataset.get_node (ds : Dataset) (path : Path) : Option NodeStructure :=
  match ds.get_new_node path with
  | some n => some n
  | none => ds.get_existing_node path

/-- dataset.rs `Dataset::get_old_chunk`: walk the manifest references in
order and return the first hit; a fetch error returns `none` at once. -/
def Dataset.get_old_chunk (ds : Dataset) : List ManifestRef → ArrayIndices → Option ChunkPayload
  | [], _ => none
  | manifest :: rest, coords =>
    match ds.storage.fetch_manifests manifest.object_id with
    | .error _ => none
    | .ok manifest_structure =>
      match (manifest_structure.get_chunk_info coords manifest.location).map ChunkInfo.payload with
      | some payload => some payload
      | none => ds.get_old_chunk rest coords

/-- dataset.rs `Dataset::get_chunk_ref`: resolve the node, consult the
overlay, fall back to the manifests. -/
def Dataset.get_chunk_ref (ds : Dataset) (path : Path) (coords : ArrayIndices) :
    Option ChunkPayload :=
  match ds.get_node path with
  | none => none
  | some node =>
    match node.node_data with
    | .Group => none
    | .Array _ manifests =>
      match ds.change_set.get_chunk_ref path coords with
      | some session_chunk => session_chunk
      | none => ds.get_old_chunk manifests coords

/-- dataset.rs `Dataset::add_group`. -/
def Dataset.add_group (ds : Dataset) (path : Path) : Except AddNodeError Unit × Dataset :=
  match ds.get_node path with
  | none =>
    let idds := ds.reserve_node_id
    (.ok (), { idds.2 with change_set := idds.2.change_set.add_group path idds.1 })
  | some _ => (.error (.AlreadyExists path), ds)

/-- dataset.rs `Dataset::add_array`. -/
def Dataset.add_array (ds : Dataset) (path : Path) (metadata : ZarrArrayMetadata) :
    Except AddNodeError Unit × Dataset :=
  match ds.get_node path with
  | none =>
    let idds := ds.reserve_node_id
    (.ok (), { idds.2 with change_set := idds.2.change_set.add_array path idds.1 metadata })
  | some _ => (.error (.AlreadyExists path), ds)

/-- dataset.rs `Dataset::update_array`. -/
def Dataset.update_array (ds : Dataset) (path : Path) (metadata : ZarrArrayMetadata) :
    Except UpdateNodeError Unit × Dataset :=
  match ds.get_node path with
  | none => (.error (.NotFound path), ds)
  | some node =>
    match node.node_data with
    | .Array _ _ =>
      (.ok (), { ds with change_set := ds.change_set.update_array path metadata })
    | _ => (.error (.NotAnArray path), ds)

/-- dataset.rs `Dataset::set_user_attributes`. -/
def Dataset.set_user_attributes (ds : Dataset) (path : Path) (atts : Option UserAttributes) :
    Except UpdateNodeError Unit × Dataset :=
  match ds.get_node path with
  | none => (.error (.NotFound path), ds)
  | some _ =>
    (.ok (), { ds with change_set := ds.change_set.update_user_attributes path atts })

/-- dataset.rs `Dataset::set_chunk`. -/
def Dataset.set_chunk (ds : Dataset) (path : Path) (coord : ArrayIndices)
    (data : Option ChunkPayload) : Except UpdateNodeError Unit × Dataset :=
  match ds.get_node path with
  | none => (.error (.NotFound path), ds)
  | some node =>
    match node.node_data with
    | .Array _ _ =>
      (.ok (), { ds with change_set := ds.change_set.set_chunk path coord data })
    | _ => (.error (.NotAnArray path), ds)

/-- dataset.rs `Dataset::update_existing_chunks`: rewrite an old-chunk stream
through the overlay (replace payloads, drop tombstoned coordinates). -/
def Dataset.update_existing_chunks (ds : Dataset) (path : Path) (chunks : List ChunkInfo) :
    List ChunkInfo :=
  chunks.filterMap (fun chunk =>
    match ds.change_set.get_chunk_ref path chunk.coord with
    | none => some chunk
    | some new_payload => new_payload.map (fun pl => { chunk with payload := pl }))

/-- dataset.rs `Dataset::node_chunk_iterator`: for each manifest reference of
an array, emit the overlay chunks with payloads, then the referenced rows not
shadowed by the overlay; groups emit nothing.  `none` models the Rust panic
on a manifest fetch error. -/
def Dataset.node_chunk_iterator (ds : Dataset) (node : NodeStructure) : Option (List ChunkInfo) :=
  match node.node_data with
  | .Group => some []
  | .Array _ manifests =>
    (mapOpt (fun manifest_ref =>
      match ds.storage.fetch_manifests manifest_ref.object_id with
      | .error _ => none
      | .ok manifest =>
        let new_chunk_indices := (ds.change_set.array_chunks_iterator node.path).map Prod.fst
        let new_chunks := (ds.change_set.array_chunks_iterator node.path).filterMap (fun cp =>
          cp.2.map (fun payload => { node := node.id, coord := cp.1, payload := payload }))
        let old_chunks :=
          (manifest.iter (some manifest_ref.location.1) (some manifest_ref.location.2)).filter
            (fun c => decide (¬ c.coord ∈ new_chunk_indices))
        some (new_chunks ++ ds.update_existing_chunks node.path old_chunks)) manifests).map joinL

/-- dataset.rs `Dataset::updated_chunk_iterator`: all chunks of all
base-snapshot nodes, each node processed to completion; `none` models the
Rust panics on fetch errors. -/
def Dataset.updated_chunk_iterator (ds : Dataset) : Option (List ChunkInfo) :=
  match ds.structure_id with
  | none => some []
  | some structure_id =>
    match ds.storage.fetch_structure structure_id with
    | .error _ => none
    | .ok st => (mapOpt ds.node_chunk_iterator st.nodes).map joinL

/-- dataset.rs `Dataset::update_existing_node`: apply attribute and metadata
overlays to a base node and swap in the freshly assigned manifests. -/
def Dataset.update_existing_node (ds : Dataset) (node : NodeStructure)
    (new_manifests : Option (List ManifestRef)) : NodeStructure :=
  let session_atts :=
    (ds.change_set.get_user_attributes node.path).map
      (fun a => a.map UserAttributesStructure.Inline)
  let new_atts := session_atts.getD node.user_attributes
  match node.node_data with
  | .Group => { node with user_attributes := new_atts }
  | .Array old_zarr_meta _ =>
    let new_zarr_meta := (ds.change_set.get_updated_zarr_metadata node.path).getD old_zarr_meta
    { node with
        node_data := .Array new_zarr_meta (new_manifests.getD [])
        user_attributes := new_atts }

/-- dataset.rs `Dataset::updated_existing_nodes`: every base node, with a
single manifest reference pointing at its tracker region when one was
recorded (and non-empty); `none` models the Rust panic on a fetch error. -/
def Dataset.updated_existing_nodes (ds : Dataset) (manifest_id : ObjectId)
    (manifest_tracker : TableRegionTracker) : Option (List NodeStructure) :=
  match ds.structure_id with
  | none => some []
  | some id =>
    match ds.storage.fetch_structure id with
    | .error _ => none
    | .ok st =>
      some (st.nodes.map (fun node =>
        let region := manifest_tracker.region node.id
        let new_manifests := region.map (fun r =>
          if r.1 = r.2 then []
          else [{ object_id := manifest_id, location := r, flags := .mk, extents := [] }])
        ds.update_existing_node node new_manifests))

/-- dataset.rs `Dataset::new_nodes`: the session-created nodes, arrays
receiving their tracker region.  The Rust body unwraps `get_new_node`, which
cannot fail on the change set's own keys; the unwrap is embedded as
`filterMap`. -/
def Dataset.new_nodes (ds : Dataset) (manifest_id : ObjectId)
    (manifest_tracker : TableRegionTracker) : List NodeStructure :=
  ds.change_set.new_nodes.filterMap (fun path =>
    (ds.get_new_node path).map (fun node =>
      match node.node_data with
      | .Group => node
      | .Array meta _ =>
        let region := manifest_tracker.region node.id
        let new_manifests := region.map (fun r =>
          if r.1 = r.2 then []
          else [{ object_id := manifest_id, location := r, flags := .mk, extents := [] }])
        { node with node_data := .Array meta (new_manifests.getD []) }))

/-- dataset.rs `Dataset::updated_nodes`: existing nodes then new nodes. -/
def Dataset.updated_nodes (ds : Dataset) (manifest_id : ObjectId)
    (manifest_tracker : TableRegionTracker) : Option (List NodeStructure) :=
  (ds.updated_existing_nodes manifest_id manifest_tracker).map
    (fun ex => ex ++ ds.new_nodes manifest_id manifest_tracker)

/-- dataset.rs `FlushError`. -/
inductive FlushError where
  | NoChangesToFlush
  | StorageError (e : StorageError)
deriving DecidableEq, Repr

/-- dataset.rs `Dataset::flush`: build the combined chunk stream, feed it
through the region tracker, write the new manifest, emit and write the new
structure, then reset the session.  The fresh random `ObjectId`s are passed
as arguments; `none` models the Rust panics on base fetch errors; on a write
error the session (second component) is unchanged apart from the storage
side effects already performed. -/
def Dataset.flush (ds : Dataset) (new_manifest_id : ObjectId) (new_structure_id : ObjectId) :
    Option (Except FlushError ObjectId × Dataset) :=
  match ds.updated_chunk_iterator with
  | none => none
  | some existing_array_chunks =>
    let all_chunks := existing_array_chunks ++ ds.change_set.new_arrays_chunk_iterator
    let region_tracker := TableRegionTracker.default.processChunks all_chunks
    let new_manifest := mk_manifests_table all_chunks
    match ds.storage.write_manifests new_manifest_id new_manifest with
    | .error e => some (.error (.StorageError e), ds)
    | .ok storage1 =>
      let ds1 := { ds with storage := storage1 }
      match ds1.updated_nodes new_manifest_id region_tracker with
      | none => none
      | some all_nodes =>
        let new_structure := mk_structure_table all_nodes
        match storage1.write_structure new_structure_id new_structure with
        | .error e => some (.error (.StorageError e), ds1)
        | .ok storage2 =>
          some (.ok new_structure_id,
            { structure_id := some new_structure_id
              storage := storage2
              last_node_id := ds1.last_node_id
              change_set := ChangeSet.default })

end Icechunk

namespace Icechunk

/-! ### Association-list lemmas -/

theorem lookupA_insertA_self {α β : Type} [DecidableEq α] (l : List (α × β)) (k : α) (v : β) :
    lookupA (insertA l k v) k = some v := by
  induction l with
  | nil => simp [insertA, lookupA]
  | cons kv rest ih =>
    by_cases h : kv.1 = k
    · simp [insertA, lookupA, h]
    · simp [insertA, lookupA, h, ih]

theorem lookupA_insertA_ne {α β : Type} [DecidableEq α] (l : List (α × β)) (k k' : α) (v : β)
    (h : k' ≠ k) : lookupA (insertA l k v) k' = lookupA l k' := by
  have hne : ¬ k = k' := fun hh => h hh.symm
  induction l with
  | nil => simp [insertA, lookupA, hne]
  | cons kv rest ih =>
    by_cases hk : kv.1 = k
    · subst hk
      simp only [insertA, if_pos rfl, lookupA, if_neg hne]
    · simp only [insertA, if_neg hk, lookupA]
      by_cases hk' : kv.1 = k'
      · simp [hk']
      · simp [hk', ih]

theorem lookupA_append {α β : Type} [DecidableEq α] (l₁ l₂ : List (α × β)) (k : α) :
    lookupA (l₁ ++ l₂) k =
      match lookupA l₁ k with
      | some v => some v
      | none => lookupA l₂ k := by
  induction l₁ with
  | nil => simp [lookupA]
  | cons kv rest ih =>
    by_cases h : kv.1 = k
    · simp [lookupA, h]
    · simp [lookupA, h, ih]

theorem lookupA_eq_none_of_not_mem_keys {α β : Type} [DecidableEq α] (l : List (α × β)) (k : α)
    (h : k ∉ l.map Prod.fst) : lookupA l k = none := by
  induction l with
  | nil => rfl
  | cons kv rest ih =>
    simp only [List.map_cons, List.mem_cons] at h
    push_neg at h
    simp only [lookupA, if_neg (fun hh : kv.1 = k => h.1 hh.symm)]
    exact ih h.2

theorem mem_keys_of_lookupA_eq_some {α β : Type} [DecidableEq α] (l : List (α × β)) (k : α) (v : β)
    (h : lookupA l k = some v) : k ∈ l.map Prod.fst := by
  induction l with
  | nil => simp [lookupA] at h
  | cons kv rest ih =>
    simp only [lookupA] at h
    by_cases hk : kv.1 = k
    · simp [hk]
    · rw [if_neg hk] at h
      simp [ih h]

theorem mem_of_lookupA_eq_some {α β : Type} [DecidableEq α] (l : List (α × β)) (k : α) (v : β)
    (h : lookupA l k = some v) : (k, v) ∈ l := by
  induction l with
  | nil => simp [lookupA] at h
  | cons kv rest ih =>
    obtain ⟨k1, v1⟩ := kv
    simp only [lookupA] at h
    by_cases hk : k1 = k
    · rw [if_pos hk] at h
      simp only [Option.some.injEq] at h
      subst hk h
      exact List.mem_cons_self _ _
    · rw [if_neg hk] at h
      exact List.mem_cons_of_mem _ (ih h)

/-! ### Small facts about `joinL` and `mapOpt` -/

theorem joinL_append {α : Type} (l₁ l₂ : List (List α)) :
    joinL (l₁ ++ l₂) = joinL l₁ ++ joinL l₂ := by
  induction l₁ with
  | nil => rfl
  | cons l rest ih => simp [joinL, ih]

theorem mapOpt_cons_eq_some {α β : Type} (f : α → Option β) (a : α) (l : List α)
    (res : List β) (h : mapOpt f (a :: l) = some res) :
    ∃ b bs, f a = some b ∧ mapOpt f l = some bs ∧ res = b :: bs := by
  simp only [mapOpt] at h
  cases hfa : f a with
  | none => rw [hfa] at h; simp at h
  | some b =>
    rw [hfa] at h
    cases hrest : mapOpt f l with
    | none => rw [hrest] at h; simp at h
    | some bs =>
      rw [hrest] at h
      simp only [Option.some.injEq] at h
      exact ⟨b, bs, rfl, rfl, h.symm⟩

theorem mapOpt_mem_some {α β : Type} (f : α → Option β) (l : List α) (res : List β)
    (h : mapOpt f l = some res) : ∀ a ∈ l, ∃ b, f a = some b := by
  induction l generalizing res with
  | nil => intro a ha; exact absurd ha (List.not_mem_nil a)
  | cons x rest ih =>
    intro a ha
    obtain ⟨b, bs, hfx, hrest, _⟩ := mapOpt_cons_eq_some f x rest res h
    cases List.mem_cons.mp ha with
    | inl hax => subst hax; exact ⟨b, hfx⟩
    | inr har => exact ih bs hrest a har

end Icechunk

namespace Icechunk

/-- C6: if a storage write fails during flush the call returns
`FlushError::StorageError` and leaves the change set and `structure_id` of
the session untouched; on success the session's `structure_id` becomes the
returned (new structure) id and the change set is reset to empty. -/
theorem c6_flush_failure_atomicity (ds : Dataset) (mid sid : ObjectId)
    (r : Except FlushError ObjectId) (ds' : Dataset)
    (h : ds.flush mid sid = some (r, ds')) :
    (∀ e, r = .error e → (∃ se, e = .StorageError se) ∧
      ds'.change_set = ds.change_set ∧ ds'.structure_id = ds.structure_id) ∧
    (∀ oid, r = .ok oid → oid = sid ∧ ds'.structure_id = some sid ∧
      ds'.change_set = ChangeSet.default) := by
  unfold Dataset.flush at h
  split at h
  · exact absurd h (by simp)
  · dsimp only at h
    split at h
    · simp only [Option.some.injEq, Prod.mk.injEq] at h
      obtain ⟨hr, hd⟩ := h
      subst hd
      refine ⟨?_, ?_⟩
      · intro e he
        rw [← hr] at he
        cases he
        exact ⟨⟨_, rfl⟩, rfl, rfl⟩
      · intro oid ho
        rw [← hr] at ho
        cases ho
    · split at h
      · exact absurd h (by simp)
      · split at h
        · simp only [Option.some.injEq, Prod.mk.injEq] at h
          obtain ⟨hr, hd⟩ := h
          subst hd
          refine ⟨?_, ?_⟩
          · intro e he
            rw [← hr] at he
            cases he
            exact ⟨⟨_, rfl⟩, rfl, rfl⟩
          · intro oid ho
            rw [← hr] at ho
            cases ho
        · simp only [Option.some.injEq, Prod.mk.injEq] at h
          obtain ⟨hr, hd⟩ := h
          subst hd
          refine ⟨?_, ?_⟩
          · intro e he
            rw [← hr] at he
            cases he
          · intro oid ho
            rw [← hr] at ho
            cases ho
            exact ⟨rfl, rfl, rfl⟩

end Icechunk

namespace Icechunk

/-! ### Node-id allocation -/

/-- The ids returned by iterating `reserve_node_id` from a session state. -/
def reserveSeq : Dataset → Nat → List NodeId
  | _, 0 => []
  | ds, n + 1 => (ds.reserve_node_id).1 :: reserveSeq (ds.reserve_node_id).2 n

theorem reserveSeq_lt_of_cached (n : Nat) :
    ∀ (ds : Dataset) (v : NodeId), ds.last_node_id = some v →
      ∀ i ∈ reserveSeq ds n, v < i := by
  induction n with
  | zero => intro ds v _ i hi; exact absurd hi (List.not_mem_nil i)
  | succ n ih =>
    intro ds v hv i hi
    simp only [reserveSeq, Dataset.reserve_node_id, hv, Option.getD_some, List.mem_cons] at hi
    cases hi with
    | inl h => subst h; exact Nat.lt_succ_self v
    | inr h =>
      exact Nat.lt_of_succ_lt (ih _ (v + 1) rfl i (by simpa using h))

theorem reserveSeq_pairwise (n : Nat) (ds : Dataset) :
    (reserveSeq ds n).Pairwise (· < ·) := by
  induction n generalizing ds with
  | zero => exact List.Pairwise.nil
  | succ n ih =>
    simp only [reserveSeq, List.pairwise_cons]
    refine ⟨?_, ih _⟩
    intro i hi
    exact reserveSeq_lt_of_cached n _ (ds.reserve_node_id).1 rfl i hi

theorem reserveSeq_lt_of_fresh (n : Nat) (ds : Dataset) (h : ds.last_node_id = none) :
    ∀ i ∈ reserveSeq ds n, ds.compute_last_node_id < i := by
  cases n with
  | zero => intro i hi; exact absurd hi (List.not_mem_nil i)
  | succ n =>
    intro i hi
    simp only [reserveSeq, Dataset.reserve_node_id, h, Option.getD_none, List.mem_cons] at hi
    cases hi with
    | inl hh => subst hh; exact Nat.lt_succ_self _
    | inr hh =>
      exact Nat.lt_of_succ_lt
        (reserveSeq_lt_of_cached n _ (ds.compute_last_node_id + 1) rfl i (by simpa using hh))

theorem maxById_spec (l : List NodeStructure) :
    (l = [] ∧ Dataset.compute_last_node_id.maxById l = none) ∨
      ∃ m, Dataset.compute_last_node_id.maxById l = some m ∧ m ∈ l ∧ ∀ n ∈ l, n.id ≤ m.id := by
  induction l with
  | nil => exact Or.inl ⟨rfl, rfl⟩
  | cons x rest ih =>
    right
    cases ih with
    | inl h =>
      obtain ⟨h1, h2⟩ := h
      subst h1
      exact ⟨x, rfl, List.mem_cons_self _ _, by simp⟩
    | inr h =>
      obtain ⟨m, hm, hmem, hmax⟩ := h
      simp only [Dataset.compute_last_node_id.maxById, hm]
      by_cases hc : m.id < x.id
      · rw [if_pos hc]
        refine ⟨x, rfl, List.mem_cons_self _ _, ?_⟩
        intro n hn
        cases List.mem_cons.mp hn with
        | inl hh => subst hh; exact Nat.le_refl _
        | inr hh => exact Nat.le_of_lt (Nat.lt_of_le_of_lt (hmax n hh) hc)
      · rw [if_neg hc]
        refine ⟨m, rfl, List.mem_cons_of_mem _ hmem, ?_⟩
        intro n hn
        cases List.mem_cons.mp hn with
        | inl hh => subst hh; exact Nat.le_of_not_lt hc
        | inr hh => exact hmax n hh

theorem compute_last_node_id_ge (ds : Dataset) (sid : ObjectId) (st : StructureTable)
    (hsid : ds.structure_id = some sid) (hst : ds.storage.fetch_structure sid = .ok st) :
    ∀ nd ∈ st.nodes, nd.id ≤ ds.compute_last_node_id := by
  intro nd hnd
  unfold Dataset.compute_last_node_id
  rw [hsid]
  dsimp only
  rw [hst]
  dsimp only
  cases maxById_spec st.nodes with
  | inl h => rw [h.1] at hnd; exact absurd hnd (List.not_mem_nil nd)
  | inr h =>
    obtain ⟨m, hm, _, hmax⟩ := h
    rw [hm]
    exact hmax nd hnd

/-- C4: within a session the ids returned by successive `reserve_node_id`
calls are strictly increasing; each allocation is `last_node_id + 1`, with
the cache initialised on first allocation to the maximum base-structure id
(0 when there is no base); and when the base structure is fetchable every
returned id is strictly greater than every node id of the base snapshot. -/
theorem c4_reserve_node_id_monotonic (ds : Dataset) (h : ds.last_node_id = none) (n : Nat) :
    (reserveSeq ds n).Pairwise (· < ·) ∧
    ((ds.reserve_node_id).1 = ds.compute_last_node_id + 1 ∧
      (ds.reserve_node_id).2.last_node_id = some (ds.compute_last_node_id + 1)) ∧
    (∀ ds₁ : Dataset, ∀ v : NodeId, ds₁.last_node_id = some v →
      (ds₁.reserve_node_id).1 = v + 1 ∧ (ds₁.reserve_node_id).2.last_node_id = some (v + 1)) ∧
    (∀ sid st, ds.structure_id = some sid → ds.storage.fetch_structure sid = .ok st →
      ((st.nodes = [] ∧ ds.compute_last_node_id = 0) ∨
        ∃ nd ∈ st.nodes, ds.compute_last_node_id = nd.id) ∧
      ∀ nd ∈ st.nodes, ∀ i ∈ reserveSeq ds n, nd.id < i) := by
  refine ⟨reserveSeq_pairwise n ds, ?_, ?_, ?_⟩
  · simp [Dataset.reserve_node_id, h]
  · intro ds₁ v hv
    simp [Dataset.reserve_node_id, hv]
  · intro sid st hsid hst
    constructor
    · unfold Dataset.compute_last_node_id
      rw [hsid]
      dsimp only
      rw [hst]
      dsimp only
      cases maxById_spec st.nodes with
      | inl hh => exact Or.inl ⟨hh.1, by rw [hh.2]⟩
      | inr hh =>
        obtain ⟨m, hm, hmem, _⟩ := hh
        exact Or.inr ⟨m, hmem, by rw [hm]⟩
    · intro nd hnd i hi
      exact Nat.lt_of_le_of_lt (compute_last_node_id_ge ds sid st hsid hst nd hnd)
        (reserveSeq_lt_of_fresh n ds h i hi)

/-- C4 witness: a concrete session over a two-node base. -/
theorem c4_witness :
    (Dataset.update ⟨[(5, ⟨[⟨1, 0, none, .Group⟩, ⟨2, 1, none, .Group⟩]⟩)], [],
        false, false, false, false⟩ 5).last_node_id = none ∧
    (reserveSeq (Dataset.update ⟨[(5, ⟨[⟨1, 0, none, .Group⟩, ⟨2, 1, none, .Group⟩]⟩)], [],
        false, false, false, false⟩ 5) 3).Pairwise (· < ·) :=
  ⟨rfl, (c4_reserve_node_id_monotonic _ rfl 3).1⟩

end Icechunk

namespace Icechunk

/-- Reading a node never consults the staged chunk map: replacing
`set_chunks` leaves `get_node` unchanged. -/
theorem get_node_set_chunks_eq (ds : Dataset)
    (sc : List (Path × List (ArrayIndices × Option ChunkPayload))) (p : Path) :
    Dataset.get_node { ds with change_set := { ds.change_set with set_chunks := sc } } p =
      ds.get_node p := rfl

/-- C5: after a successful `set_chunk(p, c, d)` the session's
`get_chunk_ref(p, c)` returns exactly `d` — the written payload for
`d = some x`, and `none` for a tombstone, regardless of the base
snapshot. -/
theorem c5_set_chunk_then_get_chunk_ref (ds : Dataset) (p : Path) (c : ArrayIndices)
    (d : Option ChunkPayload) (h : (ds.set_chunk p c d).1 = .ok ()) :
    (ds.set_chunk p c d).2.get_chunk_ref p c = d := by
  unfold Dataset.set_chunk at h ⊢
  cases hg : ds.get_node p with
  | none =>
    rw [hg] at h
    simp at h
  | some node =>
    cases node with
    | mk nid npath natts ndata =>
      cases ndata with
      | Group =>
        rw [hg] at h
        simp at h
      | Array meta mans =>
        rw [hg] at h
        dsimp only at h ⊢
        have hgn : Dataset.get_node
            { ds with change_set := ds.change_set.set_chunk p c d } p =
            some ⟨nid, npath, natts, .Array meta mans⟩ :=
          Eq.trans (by rfl) hg
        unfold Dataset.get_chunk_ref
        rw [hgn]
        dsimp only
        have hcr : (ds.change_set.set_chunk p c d).get_chunk_ref p c = some d := by
          unfold ChangeSet.get_chunk_ref ChangeSet.set_chunk
          dsimp only
          rw [lookupA_insertA_self]
          exact lookupA_insertA_self _ c d
        rw [hcr]

/-- C5 witness: writing then reading a concrete chunk on a session-created
array. -/
theorem c5_witness :
    (((Dataset.create ⟨[], [], false, false, false, false⟩).add_array 7
        ⟨[2]⟩).2.set_chunk 7 [0] (some (.Inline [3]))).1 = .ok () ∧
    (((Dataset.create ⟨[], [], false, false, false, false⟩).add_array 7
        ⟨[2]⟩).2.set_chunk 7 [0] (some (.Inline [3]))).2.get_chunk_ref 7 [0] =
      some (.Inline [3]) :=
  ⟨rfl, c5_set_chunk_then_get_chunk_ref _ 7 [0] (some (.Inline [3])) rfl⟩

/-- C10: with a base `structure_id` whose structure table cannot be fetched
(or is empty), `compute_last_node_id` is 0, the first `reserve_node_id`
returns 1 (which may collide with ids already present in the base), and the
storage error is swallowed: `add_group` and `add_array` succeed and record
the colliding id. -/
theorem c10_fetch_failure_resets_ids (ds : Dataset) (sid : ObjectId) (m : ZarrArrayMetadata)
    (hsid : ds.structure_id = some sid) (hl : ds.last_node_id = none)
    (hcs : ds.change_set = ChangeSet.default)
    (hfail : ds.storage.fetch_structure sid = .error .mk ∨
      ∃ st, ds.storage.fetch_structure sid = .ok st ∧ st.nodes = []) :
    ds.compute_last_node_id = 0 ∧
    (ds.reserve_node_id).1 = 1 ∧
    ∀ p, ds.get_node p = none ∧
      (ds.add_group p).1 = .ok () ∧
      (ds.add_group p).2.change_set.new_groups = [(p, 1)] ∧
      (ds.add_array p m).1 = .ok () ∧
      (ds.add_array p m).2.change_set.new_arrays = [(p, (1, m))] := by
  have hcompute : ds.compute_last_node_id = 0 := by
    unfold Dataset.compute_last_node_id
    rw [hsid]
    dsimp only
    cases hfail with
    | inl hf => rw [hf]
    | inr hf =>
      obtain ⟨st, hok, hempty⟩ := hf
      rw [hok]
      dsimp only
      rw [hempty]
      rfl
  have hres : (ds.reserve_node_id).1 = 1 := by
    simp [Dataset.reserve_node_id, hl, hcompute]
  have hget : ∀ p, ds.get_node p = none := by
    intro p
    have h1 : ds.get_new_node p = none := by
      unfold Dataset.get_new_node Dataset.get_new_array Dataset.get_new_group
        ChangeSet.get_array ChangeSet.get_group
      rw [hcs]
      rfl
    have h2 : ds.get_existing_node p = none := by
      unfold Dataset.get_existing_node
      rw [hsid]
      dsimp only
      cases hfail with
      | inl hf => rw [hf]
      | inr hf =>
        obtain ⟨st, hok, hempty⟩ := hf
        rw [hok]
        dsimp only
        unfold StructureTable.get_node
        rw [hempty]
        rfl
    unfold Dataset.get_node
    rw [h1, h2]
  refine ⟨hcompute, hres, ?_⟩
  intro p
  refine ⟨hget p, ?_, ?_, ?_, ?_⟩
  · unfold Dataset.add_group
    rw [hget p]
  · unfold Dataset.add_group
    rw [hget p]
    dsimp only [ChangeSet.add_group]
    have hsame : (ds.reserve_node_id).2.change_set = ds.change_set := rfl
    rw [hsame, hcs, hres]
    rfl
  · unfold Dataset.add_array
    rw [hget p]
  · unfold Dataset.add_array
    rw [hget p]
    dsimp only [ChangeSet.add_array]
    have hsame : (ds.reserve_node_id).2.change_set = ds.change_set := rfl
    rw [hsame, hcs, hres]
    rfl

/-- Concrete fixture for the node-id collision: the base snapshot at id 5
contains a node with id 1, but structure fetches fail transiently. -/
def c10ds : Dataset :=
  Dataset.update ⟨[(5, ⟨[⟨1, 9, none, .Group⟩]⟩)], [], true, false, false, false⟩ 5

/-- C10 witness: on `c10ds` the first reserved id is 1 even though the base
snapshot already contains a node with id 1, and `add_group` succeeds,
recording the colliding id. -/
theorem c10_witness :
    c10ds.compute_last_node_id = 0 ∧
    (c10ds.add_group 3).1 = .ok () ∧
    (c10ds.add_group 3).2.change_set.new_groups = [(3, 1)] ∧
    (1 : NodeId) ∈ ((lookupA c10ds.storage.structures 5).getD ⟨[]⟩).nodes.map NodeStructure.id :=
  ⟨(c10_fetch_failure_resets_ids c10ds 5 ⟨[]⟩ rfl rfl rfl (Or.inl rfl)).1,
   ((c10_fetch_failure_resets_ids c10ds 5 ⟨[]⟩ rfl rfl rfl (Or.inl rfl)).2.2 3).2.1,
   ((c10_fetch_failure_resets_ids c10ds 5 ⟨[]⟩ rfl rfl rfl (Or.inl rfl)).2.2 3).2.2.1,
   by decide⟩

end Icechunk

namespace Icechunk

/-! ### Behaviour of the five mutation entry points, case by case -/

theorem add_group_of_none (ds : Dataset) (p : Path) (hg : ds.get_node p = none) :
    ds.add_group p = (.ok (), { (ds.reserve_node_id).2 with
      change_set := (ds.reserve_node_id).2.change_set.add_group p (ds.reserve_node_id).1 }) := by
  unfold Dataset.add_group
  rw [hg]

theorem add_group_of_some (ds : Dataset) (p : Path) (node : NodeStructure)
    (hg : ds.get_node p = some node) :
    ds.add_group p = (.error (.AlreadyExists p), ds) := by
  unfold Dataset.add_group
  rw [hg]

theorem add_array_of_none (ds : Dataset) (p : Path) (m : ZarrArrayMetadata)
    (hg : ds.get_node p = none) :
    ds.add_array p m = (.ok (), { (ds.reserve_node_id).2 with
      change_set := (ds.reserve_node_id).2.change_set.add_array p (ds.reserve_node_id).1 m }) := by
  unfold Dataset.add_array
  rw [hg]

theorem add_array_of_some (ds : Dataset) (p : Path) (m : ZarrArrayMetadata)
    (node : NodeStructure) (hg : ds.get_node p = some node) :
    ds.add_array p m = (.error (.AlreadyExists p), ds) := by
  unfold Dataset.add_array
  rw [hg]

theorem update_array_of_none (ds : Dataset) (p : Path) (m : ZarrArrayMetadata)
    (hg : ds.get_node p = none) :
    ds.update_array p m = (.error (.NotFound p), ds) := by
  unfold Dataset.update_array
  rw [hg]

theorem update_array_of_group (ds : Dataset) (p : Path) (m : ZarrArrayMetadata)
    (node : NodeStructure) (hg : ds.get_node p = some node) (hnd : node.node_data = .Group) :
    ds.update_array p m = (.error (.NotAnArray p), ds) := by
  unfold Dataset.update_array
  rw [hg]
  dsimp only
  rw [hnd]

theorem update_array_of_array (ds : Dataset) (p : Path) (m meta : ZarrArrayMetadata)
    (node : NodeStructure) (mans : List ManifestRef)
    (hg : ds.get_node p = some node) (hnd : node.node_data = .Array meta mans) :
    ds.update_array p m = (.ok (), { ds with change_set := ds.change_set.update_array p m }) := by
  unfold Dataset.update_array
  rw [hg]
  dsimp only
  rw [hnd]

theorem set_chunk_of_none (ds : Dataset) (p : Path) (c : ArrayIndices) (d : Option ChunkPayload)
    (hg : ds.get_node p = none) :
    ds.set_chunk p c d = (.error (.NotFound p), ds) := by
  unfold Dataset.set_chunk
  rw [hg]

theorem set_chunk_of_group (ds : Dataset) (p : Path) (c : ArrayIndices) (d : Option ChunkPayload)
    (node : NodeStructure) (hg : ds.get_node p = some node) (hnd : node.node_data = .Group) :
    ds.set_chunk p c d = (.error (.NotAnArray p), ds) := by
  unfold Dataset.set_chunk
  rw [hg]
  dsimp only
  rw [hnd]

theorem set_chunk_of_array (ds : Dataset) (p : Path) (c : ArrayIndices) (d : Option ChunkPayload)
    (node : NodeStructure) (meta : ZarrArrayMetadata) (mans : List ManifestRef)
    (hg : ds.get_node p = some node) (hnd : node.node_data = .Array meta mans) :
    ds.set_chunk p c d = (.ok (), { ds with change_set := ds.change_set.set_chunk p c d }) := by
  unfold Dataset.set_chunk
  rw [hg]
  dsimp only
  rw [hnd]

theorem set_user_attributes_of_none (ds : Dataset) (p : Path) (a : Option UserAttributes)
    (hg : ds.get_node p = none) :
    ds.set_user_attributes p a = (.error (.NotFound p), ds) := by
  unfold Dataset.set_user_attributes
  rw [hg]

theorem set_user_attributes_of_some (ds : Dataset) (p : Path) (a : Option UserAttributes)
    (node : NodeStructure) (hg : ds.get_node p = some node) :
    ds.set_user_attributes p a =
      (.ok (), { ds with change_set := ds.change_set.update_user_attributes p a }) := by
  unfold Dataset.set_user_attributes
  rw [hg]

/-- C7: the five mutation entry points gate on `get_node`: `add_group` and
`add_array` fail with `AlreadyExists(p)` exactly when the path resolves and
otherwise record the new node under a freshly reserved id; `update_array`
and `set_chunk` fail with `NotFound(p)` on an absent path and
`NotAnArray(p)` on a group, succeeding on arrays; `set_user_attributes`
fails with `NotFound(p)` on an absent path and succeeds on both groups and
arrays; every error leaves the session (and hence the change set)
unchanged. -/
theorem c7_mutation_gating (ds : Dataset) (p : Path) (m : ZarrArrayMetadata)
    (c : ArrayIndices) (d : Option ChunkPayload) (a : Option UserAttributes) :
    ((ds.add_group p).1 = .error (.AlreadyExists p) ↔ (ds.get_node p).isSome = true) ∧
    ((ds.add_array p m).1 = .error (.AlreadyExists p) ↔ (ds.get_node p).isSome = true) ∧
    (ds.get_node p = none →
      (ds.add_group p).1 = .ok () ∧
      (ds.add_group p).2.change_set.new_groups =
        insertA ds.change_set.new_groups p (ds.reserve_node_id).1 ∧
      (ds.add_array p m).1 = .ok () ∧
      (ds.add_array p m).2.change_set.new_arrays =
        insertA ds.change_set.new_arrays p ((ds.reserve_node_id).1, m)) ∧
    (ds.get_node p = none →
      (ds.update_array p m).1 = .error (.NotFound p) ∧
      (ds.set_chunk p c d).1 = .error (.NotFound p) ∧
      (ds.set_user_attributes p a).1 = .error (.NotFound p)) ∧
    (∀ node, ds.get_node p = some node → node.node_data = .Group →
      (ds.update_array p m).1 = .error (.NotAnArray p) ∧
      (ds.set_chunk p c d).1 = .error (.NotAnArray p)) ∧
    (∀ node meta mans, ds.get_node p = some node → node.node_data = .Array meta mans →
      (ds.update_array p m).1 = .ok () ∧ (ds.set_chunk p c d).1 = .ok ()) ∧
    (∀ node, ds.get_node p = some node → (ds.set_user_attributes p a).1 = .ok ()) ∧
    ((ds.add_group p).1 ≠ .ok () → (ds.add_group p).2 = ds) ∧
    ((ds.add_array p m).1 ≠ .ok () → (ds.add_array p m).2 = ds) ∧
    ((ds.update_array p m).1 ≠ .ok () → (ds.update_array p m).2 = ds) ∧
    ((ds.set_chunk p c d).1 ≠ .ok () → (ds.set_chunk p c d).2 = ds) ∧
    ((ds.set_user_attributes p a).1 ≠ .ok () → (ds.set_user_attributes p a).2 = ds) := by
  cases hg : ds.get_node p with
  | none =>
    rw [add_group_of_none ds p hg, add_array_of_none ds p m hg, update_array_of_none ds p m hg,
      set_chunk_of_none ds p c d hg, set_user_attributes_of_none ds p a hg]
    refine ⟨by simp, by simp, ?_, ?_, ?_, ?_, ?_, by simp, by simp, by simp, by simp, by simp⟩
    · intro _
      refine ⟨rfl, ?_, rfl, ?_⟩
      · dsimp only [ChangeSet.add_group]
        exact congrArg (fun l => insertA l p (ds.reserve_node_id).1) rfl
      · dsimp only [ChangeSet.add_array]
        exact congrArg (fun l => insertA l p ((ds.reserve_node_id).1, m)) rfl
    · intro _
      exact ⟨rfl, rfl, rfl⟩
    · intro node hnode
      exact absurd hnode (by simp)
    · intro node meta mans hnode
      exact absurd hnode (by simp)
    · intro node hnode
      exact absurd hnode (by simp)
  | some node =>
    rw [add_group_of_some ds p node hg, add_array_of_some ds p m node hg,
      set_user_attributes_of_some ds p a node hg]
    cases hnd : node.node_data with
    | Group =>
      rw [update_array_of_group ds p m node hg hnd, set_chunk_of_group ds p c d node hg hnd]
      refine ⟨by simp, by simp, ?_, ?_, ?_, ?_, ?_, by simp, by simp, by simp, by simp, by simp⟩
      · intro hnone
        exact absurd hnone (by simp)
      · intro hnone
        exact absurd hnone (by simp)
      · intro _ _ _
        exact ⟨rfl, rfl⟩
      · intro node' meta mans hsome hnd'
        simp only [Option.some.injEq] at hsome
        subst hsome
        rw [hnd] at hnd'
        exact absurd hnd' (by simp)
      · intro _ _
        rfl
    | Array meta0 mans0 =>
      rw [update_array_of_array ds p m meta0 node mans0 hg hnd,
        set_chunk_of_array ds p c d node meta0 mans0 hg hnd]
      refine ⟨by simp, by simp, ?_, ?_, ?_, ?_, ?_, by simp, by simp, by simp, by simp, by simp⟩
      · intro hnone
        exact absurd hnone (by simp)
      · intro hnone
        exact absurd hnone (by simp)
      · intro node' hsome hnd'
        simp only [Option.some.injEq] at hsome
        subst hsome
        rw [hnd] at hnd'
        exact absurd hnd' (by simp)
      · intro _ _ _ _ _
        exact ⟨rfl, rfl⟩
      · intro _ _
        rfl

end Icechunk

namespace Icechunk

/-- C6 witness: a session whose storage rejects manifest writes. -/
theorem c6_witness :
    (∃ se, FlushError.StorageError StorageError.mk = FlushError.StorageError se) ∧
    (Dataset.create ⟨[], [], false, false, false, true⟩).change_set =
      (Dataset.create ⟨[], [], false, false, false, true⟩).change_set ∧
    (Dataset.create ⟨[], [], false, false, false, true⟩).structure_id =
      (Dataset.create ⟨[], [], false, false, false, true⟩).structure_id :=
  (c6_flush_failure_atomicity (Dataset.create ⟨[], [], false, false, false, true⟩) 10 11
    (.error (.StorageError .mk)) (Dataset.create ⟨[], [], false, false, false, true⟩) rfl).1
    (.StorageError .mk) rfl

/-- Concrete session holding one new group at path 0. -/
def c7ds : Dataset := ((Dataset.create ⟨[], [], false, false, false, false⟩).add_group 0).2

/-- C7 witness: concrete gating outcomes on `c7ds`. -/
theorem c7_witness :
    (c7ds.add_group 0).1 = .error (.AlreadyExists 0) ∧
    (c7ds.update_array 0 ⟨[]⟩).1 = .error (.NotAnArray 0) ∧
    (c7ds.update_array 1 ⟨[]⟩).1 = .error (.NotFound 1) ∧
    (c7ds.set_user_attributes 0 (some 5)).1 = .ok () :=
  ⟨(c7_mutation_gating c7ds 0 ⟨[]⟩ [] none none).1.mpr rfl,
   ((c7_mutation_gating c7ds 0 ⟨[]⟩ [] none none).2.2.2.2.1 ⟨1, 0, none, .Group⟩ rfl rfl).1,
   ((c7_mutation_gating c7ds 1 ⟨[]⟩ [] none none).2.2.2.1 rfl).1,
   (c7_mutation_gating c7ds 0 ⟨[]⟩ [] none (some 5)).2.2.2.2.2.2.1 ⟨1, 0, none, .Group⟩ rfl⟩

/-! ### Characterizations of the read path -/

theorem get_new_array_eq (ds : Dataset) (p : Path) :
    ds.get_new_array p = (lookupA ds.change_set.new_arrays p).map (fun im =>
      { id := im.1, path := p,
        user_attributes :=
          ((lookupA ds.change_set.updated_attributes p).bind id).map UserAttributesStructure.Inline,
        node_data :=
          .Array ((lookupA ds.change_set.updated_arrays p).getD im.2) [] }) := rfl

theorem get_new_group_eq (ds : Dataset) (p : Path) :
    ds.get_new_group p = (lookupA ds.change_set.new_groups p).map (fun nid =>
      { id := nid, path := p,
        user_attributes :=
          ((lookupA ds.change_set.updated_attributes p).bind id).map UserAttributesStructure.Inline,
        node_data := .Group }) := rfl

theorem get_node_eq (ds : Dataset) (p : Path) :
    ds.get_node p =
      match ds.get_new_array p with
      | some n => some n
      | none =>
        match ds.get_new_group p with
        | some n => some n
        | none => ds.get_existing_node p := by
  unfold Dataset.get_node Dataset.get_new_node
  cases ds.get_new_array p with
  | some n => rfl
  | none =>
    cases ds.get_new_group p with
    | some n => rfl
    | none => rfl

/-- The overlay merge performed by `get_existing_node` once the base node is
found. -/
def overlayNode (cs : ChangeSet) (p : Path) (res0 : NodeStructure) : NodeStructure :=
  let session_atts :=
    (lookupA cs.updated_attributes p).map (fun a => a.map UserAttributesStructure.Inline)
  let res := { res0 with user_attributes := session_atts.getD res0.user_attributes }
  match lookupA cs.updated_arrays p with
  | some sm =>
    match res.node_data with
    | .Array _ manifests => { res with node_data := .Array sm manifests }
    | _ => res
  | none => res

theorem get_existing_node_some (ds : Dataset) (p : Path) (sid : ObjectId)
    (st : StructureTable) (res0 : NodeStructure)
    (hsid : ds.structure_id = some sid)
    (hfs : ds.storage.fetch_structure sid = .ok st)
    (hsg : st.get_node p = some res0) :
    ds.get_existing_node p = some (overlayNode ds.change_set p res0) := by
  unfold Dataset.get_existing_node ChangeSet.get_user_attributes ChangeSet.get_updated_zarr_metadata
  rw [hsid]
  dsimp only
  rw [hfs]
  dsimp only
  rw [hsg]
  dsimp only
  unfold overlayNode
  cases lookupA ds.change_set.updated_arrays p with
  | none => rfl
  | some sm =>
    dsimp only
    cases hres : res0.node_data with
    | Group => rfl
    | Array meta manifests => rfl

theorem get_existing_node_none (ds : Dataset) (p : Path) (sid : ObjectId)
    (st : StructureTable)
    (hsid : ds.structure_id = some sid)
    (hfs : ds.storage.fetch_structure sid = .ok st)
    (hsg : st.get_node p = none) :
    ds.get_existing_node p = none := by
  unfold Dataset.get_existing_node
  rw [hsid]
  dsimp only
  rw [hfs]
  dsimp only
  rw [hsg]

end Icechunk

namespace Icechunk

/-- C8: a successful `update_array(p, m)` changes only the metadata of the
node seen by `get_node(p)`: its id, path, user attributes and manifest
references are exactly those seen before the update. -/
theorem c8_update_array_preserves_node (ds : Dataset) (p : Path) (m meta : ZarrArrayMetadata)
    (node : NodeStructure) (mans : List ManifestRef)
    (hg : ds.get_node p = some node) (hnd : node.node_data = .Array meta mans) :
    (ds.update_array p m).1 = .ok () ∧
    (ds.update_array p m).2.get_node p = some { node with node_data := .Array m mans } := by
  rw [update_array_of_array ds p m meta node mans hg hnd]
  refine ⟨rfl, ?_⟩
  dsimp only
  cases hna : lookupA ds.change_set.new_arrays p with
  | some im =>
    have hpre : ds.get_node p = some
        { id := im.1, path := p,
          user_attributes :=
            ((lookupA ds.change_set.updated_attributes p).bind id).map
              UserAttributesStructure.Inline,
          node_data := .Array ((lookupA ds.change_set.updated_arrays p).getD im.2) [] } := by
      rw [get_node_eq, get_new_array_eq, hna]
      rfl
    rw [hpre] at hg
    simp only [Option.some.injEq] at hg
    subst hg
    dsimp only at hnd
    injection hnd with h1 h2
    subst h1
    subst h2
    have hpost : Dataset.get_node { ds with change_set := ds.change_set.update_array p m } p =
        some
          { id := im.1, path := p,
            user_attributes :=
              ((lookupA ds.change_set.updated_attributes p).bind id).map
                UserAttributesStructure.Inline,
            node_data := .Array m [] } := by
      rw [get_node_eq, get_new_array_eq]
      dsimp only [ChangeSet.update_array]
      rw [hna, lookupA_insertA_self]
      rfl
    rw [hpost]
  | none =>
    cases hng : lookupA ds.change_set.new_groups p with
    | some g =>
      have hpre : ds.get_node p = some
          { id := g, path := p,
            user_attributes :=
              ((lookupA ds.change_set.updated_attributes p).bind id).map
                UserAttributesStructure.Inline,
            node_data := .Group } := by
        rw [get_node_eq, get_new_array_eq, hna, get_new_group_eq, hng]
        rfl
      rw [hpre] at hg
      simp only [Option.some.injEq] at hg
      subst hg
      dsimp only at hnd
      exact absurd hnd (by simp)
    | none =>
      cases hsid : ds.structure_id with
      | none =>
        have hpre : ds.get_node p = none := by
          rw [get_node_eq, get_new_array_eq, hna, get_new_group_eq, hng]
          unfold Dataset.get_existing_node
          rw [hsid]
          rfl
        rw [hpre] at hg
        exact absurd hg (by simp)
      | some sid =>
        cases hfs : ds.storage.fetch_structure sid with
        | error e =>
          have hpre : ds.get_node p = none := by
            rw [get_node_eq, get_new_array_eq, hna, get_new_group_eq, hng]
            unfold Dataset.get_existing_node
            rw [hsid]
            dsimp only
            rw [hfs]
            rfl
          rw [hpre] at hg
          exact absurd hg (by simp)
        | ok st =>
          cases hsg : st.get_node p with
          | none =>
            have hpre : ds.get_node p = none := by
              rw [get_node_eq, get_new_array_eq, hna, get_new_group_eq, hng]
              exact get_existing_node_none ds p sid st hsid hfs hsg
            rw [hpre] at hg
            exact absurd hg (by simp)
          | some res0 =>
            have hpre : ds.get_node p = some (overlayNode ds.change_set p res0) := by
              rw [get_node_eq, get_new_array_eq, hna, get_new_group_eq, hng]
              exact get_existing_node_some ds p sid st res0 hsid hfs hsg
            have hpost :
                Dataset.get_node
                  { structure_id := some sid
                    storage := ds.storage
                    last_node_id := ds.last_node_id
                    change_set := ds.change_set.update_array p m } p =
                some (overlayNode (ds.change_set.update_array p m) p res0) := by
              rw [get_node_eq, get_new_array_eq, get_new_group_eq]
              dsimp only [ChangeSet.update_array]
              rw [hna, hng]
              exact get_existing_node_some _ p sid st res0 rfl hfs hsg
            rw [hpre] at hg
            simp only [Option.some.injEq] at hg
            subst hg
            rw [hpost]
            obtain ⟨rid, rpath, ratts, rdata⟩ := res0
            cases rdata with
            | Group =>
              exfalso
              unfold overlayNode at hnd
              cases hua : lookupA ds.change_set.updated_arrays p with
              | none =>
                rw [hua] at hnd
                simp at hnd
              | some sm =>
                rw [hua] at hnd
                simp at hnd
            | Array meta0 mans0 =>
              unfold overlayNode at hnd ⊢
              dsimp only [ChangeSet.update_array]
              rw [lookupA_insertA_self]
              cases hua : lookupA ds.change_set.updated_arrays p with
              | some sm =>
                rw [hua] at hnd
                dsimp only at hnd
                injection hnd with h1 h2
                subst h1
                subst h2
                rfl
              | none =>
                rw [hua] at hnd
                dsimp only at hnd
                injection hnd with h1 h2
                subst h1
                subst h2
                rfl

end Icechunk

namespace Icechunk

/-- Concrete base snapshot with one array node for the C8 witness. -/
def c8ds : Dataset :=
  Dataset.update ⟨[(50, ⟨[⟨7, 4, none, .Array ⟨[2]⟩ [⟨70, (0, 1), .mk, []⟩]⟩]⟩)], [],
    false, false, false, false⟩ 50

/-- C8 witness: updating the metadata of the base array keeps its id and
manifest references. -/
theorem c8_witness :
    (c8ds.update_array 4 ⟨[5]⟩).1 = .ok () ∧
    (c8ds.update_array 4 ⟨[5]⟩).2.get_node 4 =
      some ⟨7, 4, none, .Array ⟨[5]⟩ [⟨70, (0, 1), .mk, []⟩]⟩ :=
  ⟨(c8_update_array_preserves_node c8ds 4 ⟨[5]⟩ ⟨[2]⟩
      ⟨7, 4, none, .Array ⟨[2]⟩ [⟨70, (0, 1), .mk, []⟩]⟩ [⟨70, (0, 1), .mk, []⟩] rfl rfl).1,
   (c8_update_array_preserves_node c8ds 4 ⟨[5]⟩ ⟨[2]⟩
      ⟨7, 4, none, .Array ⟨[2]⟩ [⟨70, (0, 1), .mk, []⟩]⟩ [⟨70, (0, 1), .mk, []⟩] rfl rfl).2⟩

end Icechunk

namespace Icechunk

/-! ### Region-tracker invariants -/

theorem mem_insertA {α β : Type} [DecidableEq α] (l : List (α × β)) (k : α) (v : β)
    (x : α × β) (hx : x ∈ insertA l k v) : x = (k, v) ∨ x ∈ l := by
  induction l with
  | nil => simpa [insertA] using hx
  | cons kv rest ih =>
    by_cases h : kv.1 = k
    · rw [insertA, if_pos h] at hx
      cases List.mem_cons.mp hx with
      | inl hh => exact Or.inl hh
      | inr hh => exact Or.inr (List.mem_cons_of_mem _ hh)
    · rw [insertA, if_neg h] at hx
      cases List.mem_cons.mp hx with
      | inl hh => exact Or.inr (hh ▸ List.mem_cons_self _ _)
      | inr hh =>
        cases ih hh with
        | inl hh' => exact Or.inl hh'
        | inr hh' => exact Or.inr (List.mem_cons_of_mem _ hh')

/-- Every region tracked so far is non-empty and ends within the row
counter. -/
def TableRegionTracker.Inv (t : TableRegionTracker) : Prop :=
  ∀ nr ∈ t.regions, nr.2.1 < nr.2.2 ∧ nr.2.2 ≤ t.counter

theorem trt_inv_update (t : TableRegionTracker) (c : ChunkInfo) (h : t.Inv) :
    (t.update c).Inv := by
  intro nr hnr
  unfold TableRegionTracker.update at hnr
  dsimp only at hnr
  cases hl : lookupA t.regions c.node with
  | some tr =>
    rw [hl] at hnr
    cases mem_insertA _ _ _ _ hnr with
    | inl hh =>
      subst hh
      have := h _ (mem_of_lookupA_eq_some _ _ _ hl)
      exact ⟨Nat.lt_succ_of_le (Nat.le_of_lt (Nat.lt_of_lt_of_le this.1 this.2)),
        Nat.le_refl _⟩
    | inr hh =>
      have := h _ hh
      exact ⟨this.1, Nat.le_succ_of_le this.2⟩
  | none =>
    rw [hl] at hnr
    cases List.mem_append.mp hnr with
    | inl hh =>
      have := h _ hh
      exact ⟨this.1, Nat.le_succ_of_le this.2⟩
    | inr hh =>
      simp only [List.mem_singleton] at hh
      subst hh
      exact ⟨Nat.lt_succ_self _, Nat.le_refl _⟩

theorem trt_inv_processChunks (l : List ChunkInfo) :
    ∀ (t : TableRegionTracker), t.Inv → (t.processChunks l).Inv := by
  induction l with
  | nil => intro t h; exact h
  | cons c rest ih =>
    intro t h
    exact ih _ (trt_inv_update t c h)

theorem trt_region_nonempty (l : List ChunkInfo) (n : NodeId) (r : TableRegion)
    (h : (TableRegionTracker.default.processChunks l).region n = some r) : r.1 < r.2 := by
  have hinv : (TableRegionTracker.default.processChunks l).Inv :=
    trt_inv_processChunks l TableRegionTracker.default (by intro nr hnr; cases hnr)
  exact (hinv _ (mem_of_lookupA_eq_some _ _ _ h)).1

end Icechunk

namespace Icechunk

/-- Successful flush, unfolded: the chunk stream, written tables, and final
session state. -/
theorem flush_ok_elim (ds : Dataset) (mid sid oid : ObjectId) (ds' : Dataset)
    (h : ds.flush mid sid = some (.ok oid, ds')) :
    ∃ ec allNodes storage1 storage2,
      ds.updated_chunk_iterator = some ec ∧
      oid = sid ∧
      ds.storage.write_manifests mid
        (mk_manifests_table (ec ++ ds.change_set.new_arrays_chunk_iterator)) = .ok storage1 ∧
      Dataset.updated_nodes { ds with storage := storage1 } mid
        (TableRegionTracker.default.processChunks
          (ec ++ ds.change_set.new_arrays_chunk_iterator)) = some allNodes ∧
      storage1.write_structure sid (mk_structure_table allNodes) = .ok storage2 ∧
      ds' = { structure_id := some sid, storage := storage2,
              last_node_id := ds.last_node_id, change_set := ChangeSet.default } := by
  unfold Dataset.flush at h
  cases hu : ds.updated_chunk_iterator with
  | none => rw [hu] at h; exact absurd h (by simp)
  | some ec =>
    rw [hu] at h
    dsimp only at h
    cases hwm : ds.storage.write_manifests mid
        (mk_manifests_table (ec ++ ds.change_set.new_arrays_chunk_iterator)) with
    | error e =>
      rw [hwm] at h
      dsimp only at h
      simp at h
    | ok storage1 =>
      rw [hwm] at h
      dsimp only at h
      cases hn : Dataset.updated_nodes { ds with storage := storage1 } mid
          (TableRegionTracker.default.processChunks
            (ec ++ ds.change_set.new_arrays_chunk_iterator)) with
      | none => rw [hn] at h; exact absurd h (by simp)
      | some allNodes =>
        rw [hn] at h
        dsimp only at h
        cases hws : storage1.write_structure sid (mk_structure_table allNodes) with
        | error e =>
          rw [hws] at h
          dsimp only at h
          simp at h
        | ok storage2 =>
          rw [hws] at h
          dsimp only at h
          simp only [Option.some.injEq, Prod.mk.injEq] at h
          obtain ⟨h1, h2⟩ := h
          refine ⟨ec, allNodes, storage1, storage2, rfl, ?_, hwm, hn, hws, h2.symm⟩
          injection h1 with h1'
          exact h1'.symm

/-- A successful `write_manifests` only touches the manifest map. -/
theorem write_manifests_ok_elim (s : Storage) (id : ObjectId) (t : ManifestTable)
    (s1 : Storage) (h : s.write_manifests id t = .ok s1) :
    s.write_manifests_fails = false ∧ s1 = { s with manifests := insertA s.manifests id t } := by
  unfold Storage.write_manifests at h
  by_cases hf : s.write_manifests_fails
  · rw [if_pos hf] at h
    cases h
  · rw [if_neg hf] at h
    refine ⟨by simpa using hf, ?_⟩
    injection h with h'
    exact h'.symm

/-- A successful `write_structure` only touches the structure map. -/
theorem write_structure_ok_elim (s : Storage) (id : ObjectId) (t : StructureTable)
    (s1 : Storage) (h : s.write_structure id t = .ok s1) :
    s.write_structure_fails = false ∧ s1 = { s with structures := insertA s.structures id t } := by
  unfold Storage.write_structure at h
  by_cases hf : s.write_structure_fails
  · rw [if_pos hf] at h
    cases h
  · rw [if_neg hf] at h
    refine ⟨by simpa using hf, ?_⟩
    injection h with h'
    exact h'.symm

/-- Writing manifests does not change how structures are fetched. -/
theorem fetch_structure_write_manifests (s : Storage) (id : ObjectId) (t : ManifestTable)
    (sid : ObjectId) :
    Storage.fetch_structure { s with manifests := insertA s.manifests id t } sid =
      s.fetch_structure sid := rfl

/-- Writing structures does not change how manifests are fetched. -/
theorem fetch_manifests_write_structure (s : Storage) (id : ObjectId) (t : StructureTable)
    (mid : ObjectId) :
    Storage.fetch_manifests { s with structures := insertA s.structures id t } mid =
      s.fetch_manifests mid := rfl

end Icechunk

namespace Icechunk

/-- The node list produced by `updated_nodes`: every base node rewritten by
`update_existing_node` with its tracker region, then the new nodes. -/
theorem updated_nodes_eq (ds : Dataset) (mid : ObjectId) (tracker : TableRegionTracker)
    (allNodes : List NodeStructure) (h : ds.updated_nodes mid tracker = some allNodes) :
    ∃ bns : List NodeStructure,
      ((ds.structure_id = none ∧ bns = []) ∨
        (∃ sid st, ds.structure_id = some sid ∧ ds.storage.fetch_structure sid = .ok st ∧
          bns = st.nodes)) ∧
      allNodes = bns.map (fun node =>
          ds.update_existing_node node ((tracker.region node.id).map (fun r =>
            if r.1 = r.2 then []
            else [{ object_id := mid, location := r, flags := Flags.mk, extents := [] }])))
        ++ ds.new_nodes mid tracker := by
  unfold Dataset.updated_nodes Dataset.updated_existing_nodes at h
  cases hsid : ds.structure_id with
  | none =>
    rw [hsid] at h
    dsimp only at h
    simp only [Option.map_some', Option.some.injEq] at h
    exact ⟨[], Or.inl ⟨rfl, rfl⟩, by simpa using h.symm⟩
  | some sid =>
    rw [hsid] at h
    dsimp only at h
    cases hfs : ds.storage.fetch_structure sid with
    | error e =>
      rw [hfs] at h
      exact absurd h (by simp)
    | ok st =>
      rw [hfs] at h
      dsimp only at h
      simp only [Option.map_some', Option.some.injEq] at h
      exact ⟨st.nodes, Or.inr ⟨sid, st, rfl, hfs, rfl⟩, h.symm⟩

/-- `update_existing_node` keeps the node id. -/
theorem update_existing_node_id (ds : Dataset) (node : NodeStructure)
    (nm : Option (List ManifestRef)) : (ds.update_existing_node node nm).id = node.id := by
  unfold Dataset.update_existing_node
  cases hnd : node.node_data <;> rfl

/-- When `update_existing_node` produces an array node, its manifests are
exactly the freshly assigned ones. -/
theorem update_existing_node_mans (ds : Dataset) (node : NodeStructure)
    (nm : Option (List ManifestRef)) (meta : ZarrArrayMetadata) (mans : List ManifestRef)
    (h : (ds.update_existing_node node nm).node_data = .Array meta mans) :
    mans = nm.getD [] := by
  unfold Dataset.update_existing_node at h
  cases hnd : node.node_data with
  | Group =>
    rw [hnd] at h
    dsimp only at h
    exact absurd h (by simp)
  | Array meta0 mans0 =>
    rw [hnd] at h
    dsimp only at h
    injection h with h1 h2
    exact h2.symm

/-- C9: in every structure table written by a successful flush, each array
node carries either no manifest reference (exactly when the region tracker
recorded no chunks for its id) or a single reference pointing at the
manifest id written by the same flush, with a non-empty half-open range and
empty extents. -/
theorem c9_structure_manifest_refs (ds : Dataset) (mid sid oid : ObjectId) (ds' : Dataset)
    (ec : List ChunkInfo) (st' : StructureTable)
    (hec : ds.updated_chunk_iterator = some ec)
    (h : ds.flush mid sid = some (.ok oid, ds'))
    (hst' : ds'.storage.fetch_structure oid = .ok st') :
    ∀ node ∈ st'.nodes, ∀ meta mans, node.node_data = .Array meta mans →
      ((TableRegionTracker.default.processChunks
          (ec ++ ds.change_set.new_arrays_chunk_iterator)).region node.id = none → mans = []) ∧
      (∀ r, (TableRegionTracker.default.processChunks
          (ec ++ ds.change_set.new_arrays_chunk_iterator)).region node.id = some r →
        mans = [{ object_id := mid, location := r, flags := Flags.mk, extents := [] }] ∧
          r.1 < r.2) := by
  obtain ⟨ec', allNodes, storage1, storage2, hec', hoid, hwm, hn, hws, hds'⟩ :=
    flush_ok_elim ds mid sid oid ds' h
  rw [hec] at hec'
  injection hec' with hec''
  subst hec''
  rw [hoid] at hst'
  obtain ⟨hwsf, hs2⟩ := write_structure_ok_elim _ _ _ _ hws
  have hst'' : st' = mk_structure_table allNodes := by
    rw [hds'] at hst'
    dsimp only at hst'
    rw [hs2] at hst'
    unfold Storage.fetch_structure at hst'
    by_cases hf : storage1.fetch_structure_fails
    · rw [show ({ storage1 with
          structures := insertA storage1.structures sid (mk_structure_table allNodes)
          } : Storage).fetch_structure_fails = storage1.fetch_structure_fails from rfl,
        hf, if_pos rfl] at hst'
      cases hst'
    · rw [show ({ storage1 with
          structures := insertA storage1.structures sid (mk_structure_table allNodes)
          } : Storage).fetch_structure_fails = storage1.fetch_structure_fails from rfl,
        if_neg hf] at hst'
      rw [show ({ storage1 with
          structures := insertA storage1.structures sid (mk_structure_table allNodes)
          } : Storage).structures = insertA storage1.structures sid (mk_structure_table allNodes)
          from rfl] at hst'
      rw [lookupA_insertA_self] at hst'
      injection hst' with hst''
      exact hst''.symm
  subst hst''
  obtain ⟨bns, _, hall⟩ := updated_nodes_eq _ mid _ allNodes hn
  intro node hnode meta mans hnd
  have hnode' : node ∈ allNodes := hnode
  rw [hall] at hnode'
  cases List.mem_append.mp hnode' with
  | inl hmem =>
    obtain ⟨node0, _, hnode0⟩ := List.mem_map.mp hmem
    have hid : node.id = node0.id := by
      rw [← hnode0]
      exact update_existing_node_id _ node0 _
    have hmans : mans = (((TableRegionTracker.default.processChunks
        (ec ++ ds.change_set.new_arrays_chunk_iterator)).region node0.id).map (fun r =>
          if r.1 = r.2 then []
          else [{ object_id := mid, location := r, flags := Flags.mk, extents := [] }])).getD [] := by
      apply update_existing_node_mans _ node0 _ meta
      rw [hnode0]
      exact hnd
    rw [hid]
    cases hreg : (TableRegionTracker.default.processChunks
        (ec ++ ds.change_set.new_arrays_chunk_iterator)).region node0.id with
    | none =>
      rw [hreg] at hmans
      simp only [Option.map_none', Option.getD_none] at hmans
      subst hmans
      exact ⟨fun _ => rfl, fun r hr => absurd hr (by simp)⟩
    | some r =>
      have hlt : r.1 < r.2 := trt_region_nonempty _ _ _ hreg
      rw [hreg] at hmans
      simp only [Option.map_some', Option.getD_some] at hmans
      rw [if_neg (Nat.ne_of_lt hlt)] at hmans
      subst hmans
      refine ⟨fun hno => absurd hno (by simp), ?_⟩
      intro r' hr'
      injection hr' with hr''
      subst hr''
      exact ⟨rfl, hlt⟩
  | inr hmem =>
    unfold Dataset.new_nodes at hmem
    obtain ⟨path, _, hnode1⟩ := List.mem_filterMap.mp hmem
    cases hg1 : Dataset.get_new_node { ds with storage := storage1 } path with
    | none =>
      rw [hg1] at hnode1
      cases hnode1
    | some node1 =>
      rw [hg1] at hnode1
      simp only [Option.map_some', Option.some.injEq] at hnode1
      cases hnd1 : node1.node_data with
      | Group =>
        rw [hnd1] at hnode1
        dsimp only at hnode1
        subst hnode1
        rw [hnd1] at hnd
        exact absurd hnd (by simp)
      | Array meta1 mans1 =>
        rw [hnd1] at hnode1
        dsimp only at hnode1
        subst hnode1
        dsimp only at hnd
        injection hnd with h1 h2
        subst h2
        dsimp only
        cases hreg : (TableRegionTracker.default.processChunks
            (ec ++ ds.change_set.new_arrays_chunk_iterator)).region node1.id with
        | none =>
          exact ⟨fun _ => rfl, fun r hr => absurd hr (by simp)⟩
        | some r =>
          have hlt : r.1 < r.2 := trt_region_nonempty _ _ _ hreg
          refine ⟨fun hno => absurd hno (by simp), ?_⟩
          intro r' hr'
          injection hr' with hr''
          subst hr''
          refine ⟨?_, hlt⟩
          simp only [Option.map_some', Option.getD_some]
          rw [if_neg (Nat.ne_of_lt hlt)]

end Icechunk

namespace Icechunk

/-- Concrete session: one new array with one chunk, for the C9 witness. -/
def c9s : Dataset :=
  ((((Dataset.create ⟨[], [], false, false, false, false⟩).add_array 4 ⟨[2]⟩).2).set_chunk 4 [0]
    (some (.Inline [3]))).2

/-- The session state after flushing `c9s`. -/
def c9post : Dataset :=
  match c9s.flush 60 61 with
  | some pr => pr.2
  | none => c9s

/-- The structure table written by flushing `c9s`. -/
def c9table : StructureTable := (lookupA c9post.storage.structures 61).getD ⟨[]⟩

/-- C9 witness: the single array node of the flushed table carries one
manifest reference over the non-empty region (0, 1). -/
theorem c9_witness :
    ([⟨60, (0, 1), Flags.mk, []⟩] : List ManifestRef) =
      [{ object_id := 60, location := (0, 1), flags := Flags.mk, extents := [] }] ∧
    (0 : Nat) < 1 :=
  (c9_structure_manifest_refs c9s 60 61 61 c9post [] c9table rfl rfl rfl
    ⟨1, 4, none, .Array ⟨[2]⟩ [⟨60, (0, 1), .mk, []⟩]⟩ (by decide) ⟨[2]⟩
    [⟨60, (0, 1), .mk, []⟩] rfl).2 (0, 1) rfl

end Icechunk

namespace Icechunk

/-! ### Grouped chunk streams and the regions the tracker assigns to them -/

theorem processChunks_append (l₁ l₂ : List ChunkInfo) :
    ∀ t : TableRegionTracker, t.processChunks (l₁ ++ l₂) = (t.processChunks l₁).processChunks l₂ := by
  induction l₁ with
  | nil => intro t; rfl
  | cons c rest ih =>
    intro t
    simp only [List.cons_append, TableRegionTracker.processChunks]
    exact ih _

theorem lookupA_append_right_self {α β : Type} [DecidableEq α] (base : List (α × β)) (k : α)
    (v : β) (h : lookupA base k = none) : lookupA (base ++ [(k, v)]) k = some v := by
  rw [lookupA_append, h]
  simp [lookupA]

theorem insertA_append_right {α β : Type} [DecidableEq α] (base : List (α × β)) (k : α)
    (v w : β) (h : lookupA base k = none) :
    insertA (base ++ [(k, v)]) k w = base ++ [(k, w)] := by
  induction base with
  | nil => simp [insertA]
  | cons kv rest ih =>
    simp only [lookupA] at h
    by_cases hk : kv.1 = k
    · rw [if_pos hk] at h
      cases h
    · rw [if_neg hk] at h
      simp only [List.cons_append, insertA, if_neg hk]
      exact congrArg (List.cons kv) (ih h)

theorem processChunks_block_aux (b : List ChunkInfo) (n : NodeId) :
    ∀ (base : List (NodeId × TableRegion)) (lo k : Nat),
      (∀ c ∈ b, c.node = n) → lookupA base n = none →
      TableRegionTracker.processChunks ⟨base ++ [(n, (lo, k))], k⟩ b =
        ⟨base ++ [(n, (lo, k + b.length))], k + b.length⟩ := by
  induction b with
  | nil =>
    intro base lo k _ _
    simp [TableRegionTracker.processChunks]
  | cons c rest ih =>
    intro base lo k hb hn
    have hcn : c.node = n := hb c (List.mem_cons_self _ _)
    unfold TableRegionTracker.processChunks TableRegionTracker.update
    dsimp only
    rw [hcn, lookupA_append_right_self base n (lo, k) hn]
    dsimp only
    rw [insertA_append_right base n (lo, k) (lo, k + 1) hn]
    rw [ih base lo (k + 1) (fun c' hc' => hb c' (List.mem_cons_of_mem _ hc')) hn]
    simp only [List.length_cons]
    rw [show k + 1 + rest.length = k + (rest.length + 1) from by omega]

theorem processChunks_block (b : List ChunkInfo) (n : NodeId) (t : TableRegionTracker)
    (hb : ∀ c ∈ b, c.node = n) (hn : lookupA t.regions n = none) (hne : b ≠ []) :
    t.processChunks b =
      ⟨t.regions ++ [(n, (t.counter, t.counter + b.length))], t.counter + b.length⟩ := by
  cases b with
  | nil => exact absurd rfl hne
  | cons c rest =>
    have hcn : c.node = n := hb c (List.mem_cons_self _ _)
    unfold TableRegionTracker.processChunks TableRegionTracker.update
    rw [hcn, hn]
    rw [processChunks_block_aux rest n t.regions t.counter (t.counter + 1)
      (fun c' hc' => hb c' (List.mem_cons_of_mem _ hc')) hn]
    simp only [List.length_cons]
    rw [show t.counter + 1 + rest.length = t.counter + (rest.length + 1) from by omega]

/-- The regions a grouped stream of per-node blocks induces, starting at row
`k`. -/
def blockRegions (k : Nat) : List (NodeId × List ChunkInfo) → List (NodeId × TableRegion)
  | [] => []
  | nb :: rest =>
    if nb.2 = [] then blockRegions k rest
    else (nb.1, (k, k + nb.2.length)) :: blockRegions (k + nb.2.length) rest

theorem processChunks_blocks (blocks : List (NodeId × List ChunkInfo)) :
    ∀ t : TableRegionTracker,
      ((blocks.map Prod.fst).Nodup) →
      (∀ nb ∈ blocks, ∀ c ∈ nb.2, c.node = nb.1) →
      (∀ n ∈ blocks.map Prod.fst, lookupA t.regions n = none) →
      t.processChunks (joinL (blocks.map Prod.snd)) =
        ⟨t.regions ++ blockRegions t.counter blocks,
         t.counter + (joinL (blocks.map Prod.snd)).length⟩ := by
  induction blocks with
  | nil =>
    intro t _ _ _
    simp [joinL, blockRegions, TableRegionTracker.processChunks]
  | cons nb rest ih =>
    intro t hnd hb hdisj
    simp only [List.map_cons, joinL] at *
    rw [processChunks_append]
    simp only [List.nodup_cons] at hnd
    by_cases hb2 : nb.2 = []
    · rw [hb2]
      simp only [TableRegionTracker.processChunks]
      rw [ih t hnd.2 (fun x hx => hb x (List.mem_cons_of_mem _ hx))
        (fun x hx => hdisj x (List.mem_cons_of_mem _ hx))]
      rw [blockRegions, if_pos hb2]
      simp
    · rw [processChunks_block nb.2 nb.1 t (hb nb (List.mem_cons_self _ _))
        (hdisj nb.1 (List.mem_cons_self _ _)) hb2]
      rw [ih _ hnd.2 (fun x hx => hb x (List.mem_cons_of_mem _ hx)) ?_]
      · rw [blockRegions, if_neg hb2]
        dsimp only
        simp only [List.length_append]
        rw [List.append_assoc]
        rw [show t.counter + nb.2.length + (joinL (List.map Prod.snd rest)).length =
          t.counter + (nb.2.length + (joinL (List.map Prod.snd rest)).length) from by omega]
        rfl
      · intro n hn
        dsimp only
        rw [lookupA_append, hdisj n (List.mem_cons_of_mem _ hn)]
        have hne : nb.1 ≠ n := fun hh => hnd.1 (hh ▸ hn)
        simp [lookupA, fun hh : nb.1 = n => hne hh]

end Icechunk

namespace Icechunk

theorem blockRegions_lookup_none (blocks : List (NodeId × List ChunkInfo)) :
    ∀ (k : Nat) (n : NodeId), (∀ b, (n, b) ∈ blocks → b = []) →
      lookupA (blockRegions k blocks) n = none := by
  induction blocks with
  | nil => intro k n _; rfl
  | cons nb rest ih =>
    intro k n h
    by_cases hb2 : nb.2 = []
    · rw [blockRegions, if_pos hb2]
      exact ih k n (fun b hb => h b (List.mem_cons_of_mem _ hb))
    · rw [blockRegions, if_neg hb2]
      have hne : nb.1 ≠ n := by
        intro hh
        exact hb2 (h nb.2 (by rw [← hh]; exact List.mem_cons_self _ _))
      simp only [lookupA, if_neg hne]
      exact ih _ n (fun b hb => h b (List.mem_cons_of_mem _ hb))

theorem blockRegions_slice (blocks : List (NodeId × List ChunkInfo)) :
    ∀ (pre : List ChunkInfo),
      ((blocks.map Prod.fst).Nodup) →
      ∀ n b, (n, b) ∈ blocks → b ≠ [] →
        ∃ lo, lookupA (blockRegions pre.length blocks) n = some (lo, lo + b.length) ∧
          ((pre ++ joinL (blocks.map Prod.snd)).take (lo + b.length)).drop lo = b := by
  induction blocks with
  | nil =>
    intro pre _ n b hmem
    exact absurd hmem (List.not_mem_nil _)
  | cons nb rest ih =>
    intro pre hnd n b hmem hbne
    simp only [List.map_cons, List.nodup_cons] at hnd
    cases List.mem_cons.mp hmem with
    | inl hh =>
      subst hh
      rw [blockRegions]
      dsimp only
      rw [if_neg hbne]
      refine ⟨pre.length, by simp [lookupA], ?_⟩
      simp only [List.map_cons, joinL]
      rw [show pre ++ (b ++ joinL (rest.map Prod.snd)) =
        (pre ++ b) ++ joinL (rest.map Prod.snd) from (List.append_assoc pre b _).symm]
      rw [show pre.length + b.length = (pre ++ b).length from (List.length_append pre b).symm]
      rw [List.take_left, List.drop_left]
    | inr hh =>
      have hne : nb.1 ≠ n := by
        intro heq
        exact hnd.1 (heq ▸ (List.mem_map.mpr ⟨(n, b), hh, rfl⟩))
      by_cases hb2 : nb.2 = []
      · rw [blockRegions, if_pos hb2]
        simp only [List.map_cons, joinL, hb2, List.nil_append]
        exact ih pre hnd.2 n b hh hbne
      · rw [blockRegions, if_neg hb2]
        simp only [lookupA, if_neg hne]
        have := ih (pre ++ nb.2) hnd.2 n b hh hbne
        rw [List.length_append] at this
        obtain ⟨lo, hlook, hslice⟩ := this
        refine ⟨lo, hlook, ?_⟩
        simp only [List.map_cons, joinL]
        rw [show pre ++ (nb.2 ++ joinL (rest.map Prod.snd)) =
          (pre ++ nb.2) ++ joinL (rest.map Prod.snd) from (List.append_assoc pre nb.2 _).symm]
        exact hslice

theorem mem_joinL {α : Type} (ls : List (List α)) (x : α) :
    x ∈ joinL ls ↔ ∃ l ∈ ls, x ∈ l := by
  induction ls with
  | nil => simp [joinL]
  | cons l rest ih =>
    simp only [joinL, List.mem_append, ih, List.mem_cons]
    constructor
    · intro h
      cases h with
      | inl hh => exact ⟨l, Or.inl rfl, hh⟩
      | inr hh =>
        obtain ⟨l', hl', hx⟩ := hh
        exact ⟨l', Or.inr hl', hx⟩
    · intro h
      obtain ⟨l', hl', hx⟩ := h
      cases hl' with
      | inl hh => exact Or.inl (hh ▸ hx)
      | inr hh => exact Or.inr ⟨l', hh, hx⟩

theorem filter_joinL {α : Type} (p : α → Bool) (ls : List (List α)) :
    (joinL ls).filter p = joinL (ls.map (fun l => l.filter p)) := by
  induction ls with
  | nil => rfl
  | cons l rest ih =>
    simp only [joinL, List.map_cons, List.filter_append, ih]

theorem mapOpt_length {α β : Type} (f : α → Option β) :
    ∀ (l : List α) (res : List β), mapOpt f l = some res → res.length = l.length := by
  intro l
  induction l with
  | nil =>
    intro res h
    simp only [mapOpt, Option.some.injEq] at h
    rw [← h]
    rfl
  | cons a rest ih =>
    intro res h
    obtain ⟨b, bs, _, hrest, hres⟩ := mapOpt_cons_eq_some f a rest res h
    subst hres
    simp only [List.length_cons, ih bs hrest]

theorem mapOpt_zip_mem {α β : Type} (f : α → Option β) :
    ∀ (l : List α) (res : List β), mapOpt f l = some res →
      ∀ pr ∈ l.zip res, f pr.1 = some pr.2 := by
  intro l
  induction l with
  | nil =>
    intro res _ pr hpr
    simp [List.zip] at hpr
  | cons a rest ih =>
    intro res h pr hpr
    obtain ⟨b, bs, hfa, hrest, hres⟩ := mapOpt_cons_eq_some f a rest res h
    subst hres
    simp only [List.zip_cons_cons, List.mem_cons] at hpr
    cases hpr with
    | inl hh => subst hh; exact hfa
    | inr hh => exact ih bs hrest pr hh

theorem mapOpt_mem_rev {α β : Type} (f : α → Option β) :
    ∀ (l : List α) (res : List β), mapOpt f l = some res →
      ∀ y ∈ res, ∃ x ∈ l, f x = some y := by
  intro l
  induction l with
  | nil =>
    intro res h y hy
    simp only [mapOpt, Option.some.injEq] at h
    subst h
    exact absurd hy (List.not_mem_nil y)
  | cons a rest ih =>
    intro res h y hy
    obtain ⟨b, bs, hfa, hrest, hres⟩ := mapOpt_cons_eq_some f a rest res h
    subst hres
    cases List.mem_cons.mp hy with
    | inl hh =>
      subst hh
      exact ⟨a, List.mem_cons_self _ _, hfa⟩
    | inr hh =>
      obtain ⟨x, hx, hfx⟩ := ih bs hrest y hh
      exact ⟨x, List.mem_cons_of_mem _ hx, hfx⟩

theorem zip_map_fst {α β : Type} :
    ∀ (l₁ : List α) (l₂ : List β), l₁.length = l₂.length →
      (l₁.zip l₂).map Prod.fst = l₁ := by
  intro l₁
  induction l₁ with
  | nil => intro l₂ _; rfl
  | cons a rest ih =>
    intro l₂ h
    cases l₂ with
    | nil => cases h
    | cons b bs =>
      simp only [List.zip_cons_cons, List.map_cons]
      rw [ih bs (by simpa using h)]

theorem zip_map_snd {α β : Type} :
    ∀ (l₁ : List α) (l₂ : List β), l₁.length = l₂.length →
      (l₁.zip l₂).map Prod.snd = l₂ := by
  intro l₁
  induction l₁ with
  | nil =>
    intro l₂ h
    cases l₂ with
    | nil => rfl
    | cons b bs => cases h
  | cons a rest ih =>
    intro l₂ h
    cases l₂ with
    | nil => cases h
    | cons b bs =>
      simp only [List.zip_cons_cons, List.map_cons]
      rw [ih bs (by simpa using h)]

end Icechunk

namespace Icechunk

/-! ### The per-array blocks of the flush chunk stream -/

/-- The overlay chunks of one array (payload-carrying entries only), tagged
with the array's node id; this is the `new_chunks` iterator of
`node_chunk_iterator` and the per-array block of
`new_arrays_chunk_iterator`. -/
def newChunksOf (cs : ChangeSet) (path : Path) (node_id : NodeId) : List ChunkInfo :=
  (cs.array_chunks_iterator path).filterMap (fun cp =>
    cp.2.map (fun payload => { node := node_id, coord := cp.1, payload := payload }))

/-- The chunks one manifest reference contributes during flush (the body of
the per-reference closure in `node_chunk_iterator`). -/
def refChunks (ds : Dataset) (path : Path) (node_id : NodeId) (manifest_ref : ManifestRef) :
    Option (List ChunkInfo) :=
  match ds.storage.fetch_manifests manifest_ref.object_id with
  | .error _ => none
  | .ok manifest =>
    let new_chunk_indices := (ds.change_set.array_chunks_iterator path).map Prod.fst
    let old_chunks :=
      (manifest.iter (some manifest_ref.location.1) (some manifest_ref.location.2)).filter
        (fun c => decide (¬ c.coord ∈ new_chunk_indices))
    some (newChunksOf ds.change_set path node_id ++ ds.update_existing_chunks path old_chunks)

theorem node_chunk_iterator_eq (ds : Dataset) (node : NodeStructure) :
    ds.node_chunk_iterator node =
      match node.node_data with
      | .Group => some []
      | .Array _ manifests => (mapOpt (refChunks ds node.path node.id) manifests).map joinL := by
  unfold Dataset.node_chunk_iterator refChunks newChunksOf
  cases node.node_data with
  | Group => rfl
  | Array meta manifests => rfl

/-- The rows a manifest reference names, empty when the manifest is not
fetchable. -/
def manifestRowsInRange (stor : Storage) (mref : ManifestRef) : List ChunkInfo :=
  match stor.fetch_manifests mref.object_id with
  | .error _ => []
  | .ok mt => mt.iter (some mref.location.1) (some mref.location.2)

/-- All rows referenced by an array node carry that node's id (true of every
table this system itself writes). -/
def nodeAlignedB (stor : Storage) (node : NodeStructure) : Bool :=
  match node.node_data with
  | .Group => true
  | .Array _ manifests =>
    manifests.all (fun mref =>
      (manifestRowsInRange stor mref).all (fun c => decide (c.node = node.id)))

theorem refChunks_eq_some (ds : Dataset) (path : Path) (nid : NodeId) (mref : ManifestRef)
    (blk : List ChunkInfo) (h : refChunks ds path nid mref = some blk) :
    ∃ mt, ds.storage.fetch_manifests mref.object_id = .ok mt ∧
      blk = newChunksOf ds.change_set path nid ++
        ds.update_existing_chunks path
          ((mt.iter (some mref.location.1) (some mref.location.2)).filter
            (fun c => decide (¬ c.coord ∈ (ds.change_set.array_chunks_iterator path).map Prod.fst))) := by
  unfold refChunks at h
  cases hf : ds.storage.fetch_manifests mref.object_id with
  | error e =>
    rw [hf] at h
    cases h
  | ok mt =>
    rw [hf] at h
    dsimp only at h
    injection h with h'
    exact ⟨mt, rfl, h'.symm⟩

theorem mem_newChunksOf (cs : ChangeSet) (path : Path) (nid : NodeId) (c : ChunkInfo)
    (hc : c ∈ newChunksOf cs path nid) :
    ∃ cp ∈ cs.array_chunks_iterator path, cp.2 = some c.payload ∧ c.node = nid ∧
      c.coord = cp.1 := by
  unfold newChunksOf at hc
  obtain ⟨cp, hcp, hmap⟩ := List.mem_filterMap.mp hc
  cases hp : cp.2 with
  | none => rw [hp] at hmap; cases hmap
  | some payload =>
    rw [hp] at hmap
    simp only [Option.map_some', Option.some.injEq] at hmap
    subst hmap
    exact ⟨cp, hcp, by rw [hp], rfl, rfl⟩

theorem mem_update_existing_chunks (ds : Dataset) (path : Path) (chunks : List ChunkInfo)
    (c : ChunkInfo) (hc : c ∈ ds.update_existing_chunks path chunks) :
    ∃ c0 ∈ chunks, c.node = c0.node ∧ c.coord = c0.coord := by
  unfold Dataset.update_existing_chunks at hc
  obtain ⟨c0, hc0, hmap⟩ := List.mem_filterMap.mp hc
  cases hcr : ds.change_set.get_chunk_ref path c0.coord with
  | none =>
    rw [hcr] at hmap
    injection hmap with h'
    subst h'
    exact ⟨c0, hc0, rfl, rfl⟩
  | some np =>
    rw [hcr] at hmap
    cases np with
    | none => cases hmap
    | some pl =>
      simp only [Option.map_some', Option.some.injEq] at hmap
      subst hmap
      exact ⟨c0, hc0, rfl, rfl⟩

theorem refChunks_nodes (ds : Dataset) (path : Path) (nid : NodeId) (mref : ManifestRef)
    (blk : List ChunkInfo) (h : refChunks ds path nid mref = some blk)
    (hal : ∀ c ∈ manifestRowsInRange ds.storage mref, c.node = nid) :
    ∀ c ∈ blk, c.node = nid := by
  obtain ⟨mt, hf, hblk⟩ := refChunks_eq_some ds path nid mref blk h
  subst hblk
  intro c hc
  cases List.mem_append.mp hc with
  | inl hmem =>
    obtain ⟨cp, _, _, hnode, _⟩ := mem_newChunksOf _ _ _ _ hmem
    exact hnode
  | inr hmem =>
    obtain ⟨c0, hc0, hnode, _⟩ := mem_update_existing_chunks _ _ _ _ hmem
    rw [hnode]
    apply hal
    unfold manifestRowsInRange
    rw [hf]
    exact (List.mem_filter.mp hc0).1

theorem node_chunk_iterator_nodes (ds : Dataset) (node : NodeStructure) (b : List ChunkInfo)
    (h : ds.node_chunk_iterator node = some b)
    (hal : nodeAlignedB ds.storage node = true) :
    ∀ c ∈ b, c.node = node.id := by
  rw [node_chunk_iterator_eq] at h
  unfold nodeAlignedB at hal
  cases hnd : node.node_data with
  | Group =>
    rw [hnd] at h
    injection h with h'
    subst h'
    intro c hc
    exact absurd hc (List.not_mem_nil c)
  | Array meta manifests =>
    rw [hnd] at h hal
    dsimp only at h hal
    cases hm : mapOpt (refChunks ds node.path node.id) manifests with
    | none => rw [hm] at h; cases h
    | some bs =>
      rw [hm] at h
      simp only [Option.map_some', Option.some.injEq] at h
      subst h
      intro c hc
      obtain ⟨blk, hblk, hcblk⟩ := (mem_joinL bs c).mp hc
      obtain ⟨mref, hmref, hrc⟩ := mapOpt_mem_rev _ manifests bs hm blk hblk
      refine refChunks_nodes ds node.path node.id mref blk hrc ?_ c hcblk
      intro c' hc'
      simp only [List.all_eq_true] at hal
      have := hal mref hmref
      simp only [List.all_eq_true, decide_eq_true_eq] at this
      exact this c' hc'

end Icechunk

namespace Icechunk

/-- The per-array blocks contributed by session-created arrays. -/
def newBlocks (cs : ChangeSet) : List (NodeId × List ChunkInfo) :=
  cs.new_arrays.map (fun pa => (pa.2.1, newChunksOf cs pa.1 pa.2.1))

theorem new_arrays_chunk_iterator_eq (cs : ChangeSet) :
    cs.new_arrays_chunk_iterator = joinL ((newBlocks cs).map Prod.snd) := by
  unfold ChangeSet.new_arrays_chunk_iterator newBlocks newChunksOf
  rw [List.map_map]
  rfl

theorem updated_chunk_iterator_elim (ds : Dataset) (ec : List ChunkInfo)
    (h : ds.updated_chunk_iterator = some ec) :
    ∃ bns bs, ((ds.structure_id = none ∧ bns = []) ∨
        (∃ sid st, ds.structure_id = some sid ∧ ds.storage.fetch_structure sid = .ok st ∧
          bns = st.nodes)) ∧
      mapOpt ds.node_chunk_iterator bns = some bs ∧ ec = joinL bs := by
  unfold Dataset.updated_chunk_iterator at h
  cases hsid : ds.structure_id with
  | none =>
    rw [hsid] at h
    injection h with h'
    exact ⟨[], [], Or.inl ⟨rfl, rfl⟩, rfl, h'.symm⟩
  | some sid =>
    rw [hsid] at h
    dsimp only at h
    cases hfs : ds.storage.fetch_structure sid with
    | error e =>
      rw [hfs] at h
      cases h
    | ok st =>
      rw [hfs] at h
      dsimp only at h
      cases hm : mapOpt ds.node_chunk_iterator st.nodes with
      | none => rw [hm] at h; cases h
      | some bs =>
        rw [hm] at h
        simp only [Option.map_some', Option.some.injEq] at h
        exact ⟨st.nodes, bs, Or.inr ⟨sid, st, rfl, hfs, rfl⟩, hm, h.symm⟩

/-- The blocks of the whole flush chunk stream: one per base node (in base
order), then one per session-created array. -/
def flushBlocks (ds : Dataset) (bns : List NodeStructure) (bs : List (List ChunkInfo)) :
    List (NodeId × List ChunkInfo) :=
  (bns.zip bs).map (fun nb => (nb.1.id, nb.2)) ++ newBlocks ds.change_set

theorem flushBlocks_fst (ds : Dataset) (bns : List NodeStructure) (bs : List (List ChunkInfo))
    (hlen : bns.length = bs.length) :
    (flushBlocks ds bns bs).map Prod.fst =
      bns.map NodeStructure.id ++ ds.change_set.new_arrays.map (fun pa => pa.2.1) := by
  unfold flushBlocks newBlocks
  rw [List.map_append, List.map_map, List.map_map]
  have h0 : (bns.zip bs).map (Prod.fst ∘ fun nb : NodeStructure × List ChunkInfo =>
      (nb.1.id, nb.2)) = ((bns.zip bs).map Prod.fst).map NodeStructure.id := by
    rw [List.map_map]
    rfl
  rw [h0, zip_map_fst bns bs hlen]
  rfl

theorem flushBlocks_snd (ds : Dataset) (bns : List NodeStructure) (bs : List (List ChunkInfo))
    (hlen : bns.length = bs.length) :
    joinL ((flushBlocks ds bns bs).map Prod.snd) =
      joinL bs ++ ds.change_set.new_arrays_chunk_iterator := by
  unfold flushBlocks
  rw [List.map_append, joinL_append, new_arrays_chunk_iterator_eq]
  have h1 : ((bns.zip bs).map (fun nb : NodeStructure × List ChunkInfo =>
      (nb.1.id, nb.2))).map Prod.snd = bs := by
    rw [List.map_map]
    have h0 : (bns.zip bs).map (Prod.snd ∘ fun nb : NodeStructure × List ChunkInfo =>
        (nb.1.id, nb.2)) = (bns.zip bs).map Prod.snd := rfl
    rw [h0, zip_map_snd bns bs hlen]
  rw [h1]

theorem flushBlocks_nodes (ds : Dataset) (bns : List NodeStructure) (bs : List (List ChunkInfo))
    (hbs : mapOpt ds.node_chunk_iterator bns = some bs)
    (hal : ∀ node ∈ bns, nodeAlignedB ds.storage node = true) :
    ∀ nb ∈ flushBlocks ds bns bs, ∀ c ∈ nb.2, c.node = nb.1 := by
  intro nb hnb c hc
  unfold flushBlocks at hnb
  cases List.mem_append.mp hnb with
  | inl h =>
    obtain ⟨ndb, hndb, hmap⟩ := List.mem_map.mp h
    obtain ⟨nd, blk⟩ := ndb
    subst hmap
    dsimp only at hc ⊢
    have hf := mapOpt_zip_mem _ bns bs hbs (nd, blk) hndb
    have hmem := (List.of_mem_zip hndb).1
    exact node_chunk_iterator_nodes ds nd blk hf (hal _ hmem) c hc
  | inr h =>
    unfold newBlocks at h
    obtain ⟨pa, hpa, hmap⟩ := List.mem_map.mp h
    subst hmap
    dsimp only at hc ⊢
    obtain ⟨cp, _, _, hnode, _⟩ := mem_newChunksOf _ _ _ _ hc
    exact hnode

end Icechunk

namespace Icechunk

/-- Running the tracker over the grouped flush stream yields exactly the
block regions. -/
theorem flush_tracker_eq (ds : Dataset) (bns : List NodeStructure) (bs : List (List ChunkInfo))
    (hbs : mapOpt ds.node_chunk_iterator bns = some bs)
    (hal : ∀ node ∈ bns, nodeAlignedB ds.storage node = true)
    (hnodup : (bns.map NodeStructure.id ++
      ds.change_set.new_arrays.map (fun pa => pa.2.1)).Nodup) :
    TableRegionTracker.default.processChunks
        (joinL bs ++ ds.change_set.new_arrays_chunk_iterator) =
      ⟨blockRegions 0 (flushBlocks ds bns bs),
        (joinL bs ++ ds.change_set.new_arrays_chunk_iterator).length⟩ := by
  have hlen : bns.length = bs.length := (mapOpt_length _ bns bs hbs).symm
  rw [← flushBlocks_snd ds bns bs hlen]
  rw [processChunks_blocks (flushBlocks ds bns bs) TableRegionTracker.default
    (by rw [flushBlocks_fst ds bns bs hlen]; exact hnodup)
    (flushBlocks_nodes ds bns bs hbs hal)
    (fun n _ => rfl)]
  simp [TableRegionTracker.default]

/-- Rows of nodes outside the stream filter to nothing. -/
theorem filter_blocks_not_mem (blocks : List (NodeId × List ChunkInfo)) (n : NodeId)
    (hnodes : ∀ nb ∈ blocks, ∀ c ∈ nb.2, c.node = nb.1)
    (hn : n ∉ blocks.map Prod.fst) :
    (joinL (blocks.map Prod.snd)).filter (fun c => decide (c.node = n)) = [] := by
  rw [List.filter_eq_nil]
  intro c hc
  obtain ⟨l, hl, hcl⟩ := (mem_joinL _ c).mp hc
  obtain ⟨nb, hnb, hmap⟩ := List.mem_map.mp hl
  simp only [decide_eq_true_eq]
  intro hcn
  apply hn
  rw [← hcn, hnodes nb hnb c (hmap ▸ hcl)]
  exact List.mem_map.mpr ⟨nb, hnb, rfl⟩

/-- The rows of a grouped stream carrying one node's id are exactly that
node's block. -/
theorem filter_blocks_eq (blocks : List (NodeId × List ChunkInfo)) :
    ∀ (n : NodeId) (b : List ChunkInfo), (n, b) ∈ blocks →
      ((blocks.map Prod.fst).Nodup) →
      (∀ nb ∈ blocks, ∀ c ∈ nb.2, c.node = nb.1) →
      (joinL (blocks.map Prod.snd)).filter (fun c => decide (c.node = n)) = b := by
  induction blocks with
  | nil =>
    intro n b hmem
    exact absurd hmem (List.not_mem_nil _)
  | cons nb rest ih =>
    intro n b hmem hnd hnodes
    simp only [List.map_cons, List.nodup_cons] at hnd
    simp only [List.map_cons, joinL, List.filter_append]
    cases List.mem_cons.mp hmem with
    | inl hh =>
      subst hh
      dsimp only
      have h1 : b.filter (fun c => decide (c.node = n)) = b := by
        rw [List.filter_eq_self]
        intro c hc
        simp only [decide_eq_true_eq]
        exact hnodes (n, b) (List.mem_cons_self _ _) c hc
      have h2 : (joinL (rest.map Prod.snd)).filter (fun c => decide (c.node = n)) = [] := by
        apply filter_blocks_not_mem rest n
          (fun x hx => hnodes x (List.mem_cons_of_mem _ hx))
        exact hnd.1
      rw [h1, h2, List.append_nil]
    | inr hh =>
      have hne : nb.1 ≠ n := by
        intro heq
        exact hnd.1 (heq ▸ List.mem_map.mpr ⟨(n, b), hh, rfl⟩)
      have h1 : nb.2.filter (fun c => decide (c.node = n)) = [] := by
        rw [List.filter_eq_nil]
        intro c hc
        simp only [decide_eq_true_eq]
        rw [hnodes nb (List.mem_cons_self _ _) c hc]
        exact hne
      rw [h1, List.nil_append]
      exact ih n b hh hnd.2 (fun x hx => hnodes x (List.mem_cons_of_mem _ hx))

/-- With unique keys, a pair's second component is determined. -/
theorem mem_unique_of_nodup_keys {α β : Type} (l : List (α × β)) (hnd : (l.map Prod.fst).Nodup)
    (k : α) (v w : β) (hv : (k, v) ∈ l) (hw : (k, w) ∈ l) : v = w := by
  induction l with
  | nil => exact absurd hv (List.not_mem_nil _)
  | cons kv rest ih =>
    simp only [List.map_cons, List.nodup_cons] at hnd
    cases List.mem_cons.mp hv with
    | inl h1 =>
      cases List.mem_cons.mp hw with
      | inl h2 =>
        rw [← h1] at h2
        injection h2 with _ h3
        exact h3.symm
      | inr h2 =>
        exfalso
        apply hnd.1
        rw [← h1]
        exact List.mem_map.mpr ⟨(k, w), h2, rfl⟩
    | inr h1 =>
      cases List.mem_cons.mp hw with
      | inl h2 =>
        exfalso
        apply hnd.1
        rw [← h2]
        exact List.mem_map.mpr ⟨(k, v), h1, rfl⟩
      | inr h2 => exact ih hnd.2 h1 h2

end Icechunk

namespace Icechunk

theorem update_existing_chunks_coords_sublist (ds : Dataset) (path : Path) :
    ∀ chunks : List ChunkInfo,
      ((ds.update_existing_chunks path chunks).map ChunkInfo.coord).Sublist
        (chunks.map ChunkInfo.coord) := by
  intro chunks
  induction chunks with
  | nil => exact List.Sublist.refl _
  | cons c rest ih =>
    unfold Dataset.update_existing_chunks at ih ⊢
    simp only [List.filterMap_cons]
    cases hcr : ds.change_set.get_chunk_ref path c.coord with
    | none =>
      simp only [List.map_cons]
      exact List.Sublist.cons₂ _ ih
    | some np =>
      cases np with
      | none =>
        simp only [Option.map_none']
        exact List.Sublist.cons _ ih
      | some pl =>
        simp only [Option.map_some', List.map_cons]
        exact List.Sublist.cons₂ _ ih

theorem filterMap_coords_sublist (nid : NodeId) :
    ∀ l : List (ArrayIndices × Option ChunkPayload),
      ((l.filterMap (fun cp => cp.2.map
        (fun payload => ({ node := nid, coord := cp.1, payload := payload } : ChunkInfo)))).map
          ChunkInfo.coord).Sublist (l.map Prod.fst) := by
  intro l
  induction l with
  | nil => exact List.Sublist.refl _
  | cons cp rest ih =>
    simp only [List.filterMap_cons]
    cases hp : cp.2 with
    | none =>
      simp only [Option.map_none', List.map_cons]
      exact List.Sublist.cons _ ih
    | some payload =>
      simp only [Option.map_some', List.map_cons]
      exact List.Sublist.cons₂ _ ih

theorem newChunksOf_coords_sublist (cs : ChangeSet) (path : Path) (nid : NodeId) :
    ((newChunksOf cs path nid).map ChunkInfo.coord).Sublist
      ((cs.array_chunks_iterator path).map Prod.fst) := by
  unfold newChunksOf
  exact filterMap_coords_sublist nid _

theorem refChunks_coords_nodup (ds : Dataset) (path : Path) (nid : NodeId) (mref : ManifestRef)
    (blk : List ChunkInfo) (h : refChunks ds path nid mref = some blk)
    (hrows : ((manifestRowsInRange ds.storage mref).map ChunkInfo.coord).Nodup)
    (hkeys : ((ds.change_set.array_chunks_iterator path).map Prod.fst).Nodup) :
    (blk.map ChunkInfo.coord).Nodup := by
  obtain ⟨mt, hf, hblk⟩ := refChunks_eq_some ds path nid mref blk h
  subst hblk
  have hrows' : ((mt.iter (some mref.location.1) (some mref.location.2)).map
      ChunkInfo.coord).Nodup := by
    unfold manifestRowsInRange at hrows
    rw [hf] at hrows
    exact hrows
  rw [List.map_append]
  refine List.Nodup.append ?_ ?_ ?_
  · exact (newChunksOf_coords_sublist ds.change_set path nid).nodup hkeys
  · refine List.Sublist.nodup ?_ hrows'
    refine List.Sublist.trans (update_existing_chunks_coords_sublist ds path _) ?_
    exact List.Sublist.map _ (List.filter_sublist _)
  · intro a ha hb
    have hak : a ∈ (ds.change_set.array_chunks_iterator path).map Prod.fst :=
      (newChunksOf_coords_sublist ds.change_set path nid).subset ha
    obtain ⟨c, hc, hca⟩ := List.mem_map.mp hb
    obtain ⟨c0, hc0, _, hcoord⟩ := mem_update_existing_chunks ds path _ c hc
    have hfil := List.mem_filter.mp hc0
    have : ¬ c0.coord ∈ (ds.change_set.array_chunks_iterator path).map Prod.fst := by
      simpa using hfil.2
    apply this
    rw [← hcoord, hca]
    exact hak

/-- A session-created array's block has pairwise-distinct coordinates. -/
theorem newChunksOf_coords_nodup (cs : ChangeSet) (path : Path) (nid : NodeId)
    (hkeys : ((cs.array_chunks_iterator path).map Prod.fst).Nodup) :
    ((newChunksOf cs path nid).map ChunkInfo.coord).Nodup :=
  (newChunksOf_coords_sublist cs path nid).nodup hkeys

/-- A base node's whole block has pairwise-distinct coordinates, provided it
carries at most one manifest reference whose referenced rows have distinct
coordinates. -/
theorem node_block_coords_nodup (ds : Dataset) (node : NodeStructure) (b : List ChunkInfo)
    (h : ds.node_chunk_iterator node = some b)
    (hle : ∀ meta mans, node.node_data = .Array meta mans → mans.length ≤ 1)
    (hrows : ∀ meta mans, node.node_data = .Array meta mans → ∀ mref ∈ mans,
      ((manifestRowsInRange ds.storage mref).map ChunkInfo.coord).Nodup)
    (hkeys : ((ds.change_set.array_chunks_iterator node.path).map Prod.fst).Nodup) :
    (b.map ChunkInfo.coord).Nodup := by
  rw [node_chunk_iterator_eq] at h
  cases hnd : node.node_data with
  | Group =>
    rw [hnd] at h
    injection h with h'
    subst h'
    exact List.Pairwise.nil
  | Array meta manifests =>
    rw [hnd] at h
    dsimp only at h
    cases manifests with
    | nil =>
      simp only [mapOpt, Option.map_some', Option.some.injEq] at h
      subst h
      exact List.Pairwise.nil
    | cons mref mrest =>
      cases mrest with
      | cons m2 mtail =>
        have := hle meta _ hnd
        simp at this
      | nil =>
        simp only [mapOpt] at h
        cases hrc : refChunks ds node.path node.id mref with
        | none => rw [hrc] at h; simp at h
        | some blk =>
          rw [hrc] at h
          dsimp only at h
          simp only [Option.map_some', Option.some.injEq] at h
          subst h
          simp only [joinL, List.append_nil]
          exact refChunks_coords_nodup ds node.path node.id mref blk hrc
            (hrows meta _ hnd mref (List.mem_cons_self _ _)) hkeys

/-- Pairwise distinct `(node, coord)` pairs for a grouped stream whose
blocks have distinct ids and per-block distinct coordinates. -/
theorem pairs_nodup_joinL (blocks : List (NodeId × List ChunkInfo))
    (hnd : (blocks.map Prod.fst).Nodup)
    (hnodes : ∀ nb ∈ blocks, ∀ c ∈ nb.2, c.node = nb.1)
    (hcoords : ∀ nb ∈ blocks, (nb.2.map ChunkInfo.coord).Nodup) :
    ((joinL (blocks.map Prod.snd)).map (fun c => (c.node, c.coord))).Nodup := by
  induction blocks with
  | nil => exact List.Pairwise.nil
  | cons nb rest ih =>
    simp only [List.map_cons, List.nodup_cons] at hnd
    simp only [List.map_cons, joinL, List.map_append]
    refine List.Nodup.append ?_ ?_ ?_
    · have h1 : ((nb.2.map (fun c => (c.node, c.coord))).map Prod.snd).Nodup := by
        rw [List.map_map]
        exact hcoords nb (List.mem_cons_self _ _)
      exact h1.of_map _
    · exact ih hnd.2 (fun x hx => hnodes x (List.mem_cons_of_mem _ hx))
        (fun x hx => hcoords x (List.mem_cons_of_mem _ hx))
    · intro pr hpr1 hpr2
      obtain ⟨c1, hc1, hpr1'⟩ := List.mem_map.mp hpr1
      obtain ⟨c2, hc2, hpr2'⟩ := List.mem_map.mp hpr2
      have h1 : pr.1 = nb.1 := by
        rw [← hpr1']
        exact hnodes nb (List.mem_cons_self _ _) c1 hc1
      obtain ⟨l, hl, hc2l⟩ := (mem_joinL _ c2).mp hc2
      obtain ⟨nb2, hnb2, hmap⟩ := List.mem_map.mp hl
      have h2 : pr.1 = nb2.1 := by
        rw [← hpr2']
        exact hnodes nb2 (List.mem_cons_of_mem _ hnb2) c2 (hmap ▸ hc2l)
      apply hnd.1
      rw [show nb.1 = nb2.1 from h1 ▸ h2]
      exact List.mem_map.mpr ⟨nb2, hnb2, rfl⟩

end Icechunk

namespace Icechunk

/-- An array node of the flushed structure table carrying exactly one
manifest reference got it from the region tracker: the reference points at
the fresh manifest id and at that node's tracked region. -/
theorem updated_nodes_single_ref (ds : Dataset) (mid : ObjectId) (tracker : TableRegionTracker)
    (allNodes : List NodeStructure) (h : ds.updated_nodes mid tracker = some allNodes)
    (node : NodeStructure) (hnode : node ∈ allNodes) (meta : ZarrArrayMetadata)
    (mref : ManifestRef) (hnd : node.node_data = .Array meta [mref]) :
    mref.object_id = mid ∧ tracker.region node.id = some mref.location := by
  obtain ⟨bns, _, hall⟩ := updated_nodes_eq ds mid tracker allNodes h
  rw [hall] at hnode
  cases List.mem_append.mp hnode with
  | inl hmem =>
    obtain ⟨node0, _, hnode0⟩ := List.mem_map.mp hmem
    have hid : node.id = node0.id := by
      rw [← hnode0]
      exact update_existing_node_id _ _ _
    have hmans : [mref] = ((tracker.region node0.id).map (fun r =>
        if r.1 = r.2 then []
        else [{ object_id := mid, location := r, flags := Flags.mk, extents := [] }])).getD [] := by
      apply update_existing_node_mans _ node0 _ meta
      rw [hnode0]
      exact hnd
    rw [hid]
    cases hreg : tracker.region node0.id with
    | none =>
      rw [hreg] at hmans
      simp at hmans
    | some r =>
      rw [hreg] at hmans
      simp only [Option.map_some', Option.getD_some] at hmans
      by_cases hrr : r.1 = r.2
      · rw [if_pos hrr] at hmans
        simp at hmans
      · rw [if_neg hrr] at hmans
        simp only [List.cons.injEq, and_true] at hmans
        rw [hmans]
        exact ⟨rfl, rfl⟩
  | inr hmem =>
    unfold Dataset.new_nodes at hmem
    obtain ⟨path, _, hnode1⟩ := List.mem_filterMap.mp hmem
    cases hg1 : ds.get_new_node path with
    | none =>
      rw [hg1] at hnode1
      cases hnode1
    | some node1 =>
      rw [hg1] at hnode1
      simp only [Option.map_some', Option.some.injEq] at hnode1
      cases hnd1 : node1.node_data with
      | Group =>
        rw [hnd1] at hnode1
        dsimp only at hnode1
        subst hnode1
        rw [hnd1] at hnd
        exact absurd hnd (by simp)
      | Array meta1 mans1 =>
        rw [hnd1] at hnode1
        dsimp only at hnode1
        subst hnode1
        dsimp only at hnd ⊢
        injection hnd with h1 h2
        cases hreg : tracker.region node1.id with
        | none =>
          rw [hreg] at h2
          simp at h2
        | some r =>
          rw [hreg] at h2
          simp only [Option.map_some', Option.getD_some] at h2
          by_cases hrr : r.1 = r.2
          · rw [if_pos hrr] at h2
            simp at h2
          · rw [if_neg hrr] at h2
            simp only [List.cons.injEq, and_true] at h2
            rw [← h2]
            exact ⟨rfl, rfl⟩

end Icechunk

namespace Icechunk

/-- The session state right after flush's manifest write succeeds. -/
def Dataset.afterManifestWrite (ds : Dataset) (mid : ObjectId) (ec : List ChunkInfo) : Dataset :=
  { ds with
    storage :=
      { ds.storage with
        manifests :=
          insertA ds.storage.manifests mid
            (mk_manifests_table (ec ++ ds.change_set.new_arrays_chunk_iterator)) } }

/-- Successful flush: the written structure and manifest tables, recovered
from the post-flush storage. -/
theorem flush_ok_main (ds : Dataset) (mid sid oid : ObjectId) (ds' : Dataset)
    (h : ds.flush mid sid = some (.ok oid, ds')) :
    ∃ ec allNodes,
      ds.updated_chunk_iterator = some ec ∧
      oid = sid ∧
      Dataset.updated_nodes (ds.afterManifestWrite mid ec) mid
        (TableRegionTracker.default.processChunks
          (ec ++ ds.change_set.new_arrays_chunk_iterator)) = some allNodes ∧
      (∀ st', ds'.storage.fetch_structure sid = .ok st' → st' = mk_structure_table allNodes) ∧
      (∀ mt', ds'.storage.fetch_manifests mid = .ok mt' →
        mt' = mk_manifests_table (ec ++ ds.change_set.new_arrays_chunk_iterator)) ∧
      ds'.structure_id = some sid ∧ ds'.change_set = ChangeSet.default := by
  obtain ⟨ec, allNodes, storage1, storage2, hec, hoid, hwm, hn, hws, hds'⟩ :=
    flush_ok_elim ds mid sid oid ds' h
  obtain ⟨hwmf, hs1⟩ := write_manifests_ok_elim _ _ _ _ hwm
  obtain ⟨hwsf, hs2⟩ := write_structure_ok_elim _ _ _ _ hws
  subst hs1
  refine ⟨ec, allNodes, hec, hoid, hn, ?_, ?_, by rw [hds'], by rw [hds']⟩
  · intro st' hst'
    rw [hds'] at hst'
    dsimp only at hst'
    rw [hs2] at hst'
    unfold Storage.fetch_structure at hst'
    dsimp only at hst'
    by_cases hf : ds.storage.fetch_structure_fails
    · rw [if_pos hf] at hst'
      cases hst'
    · rw [if_neg hf, lookupA_insertA_self] at hst'
      injection hst' with h'
      exact h'.symm
  · intro mt' hmt'
    rw [hds'] at hmt'
    dsimp only at hmt'
    rw [hs2] at hmt'
    unfold Storage.fetch_manifests at hmt'
    dsimp only at hmt'
    by_cases hf : ds.storage.fetch_manifests_fails
    · rw [if_pos hf] at hmt'
      cases hmt'
    · rw [if_neg hf, lookupA_insertA_self] at hmt'
      injection hmt' with h'
      exact h'.symm

/-- The base chunks of the flush stream are the concatenation of the
per-base-node blocks. -/
theorem updated_chunk_iterator_joinL (ds : Dataset) (bns : List NodeStructure)
    (bs : List (List ChunkInfo)) (ec : List ChunkInfo)
    (hbase : (ds.structure_id = none ∧ bns = []) ∨
      (∃ sid0 st, ds.structure_id = some sid0 ∧ ds.storage.fetch_structure sid0 = .ok st ∧
        bns = st.nodes))
    (hbs : mapOpt ds.node_chunk_iterator bns = some bs)
    (hec : ds.updated_chunk_iterator = some ec) : ec = joinL bs := by
  unfold Dataset.updated_chunk_iterator at hec
  cases hbase with
  | inl hb =>
    obtain ⟨hsid, hbns⟩ := hb
    rw [hsid] at hec
    injection hec with h'
    subst hbns
    simp only [mapOpt, Option.some.injEq] at hbs
    rw [← h', ← hbs]
    rfl
  | inr hb =>
    obtain ⟨sid0, st, hsid, hfs, hbns⟩ := hb
    rw [hsid] at hec
    dsimp only at hec
    rw [hfs] at hec
    dsimp only at hec
    subst hbns
    rw [hbs] at hec
    simp only [Option.map_some', Option.some.injEq] at hec
    exact hec.symm

/-- The overlay chunk map of one array has pairwise-distinct coordinates
when the change set is well-formed. -/
theorem array_chunks_keys_nodup (cs : ChangeSet) (path : Path)
    (hcs : ∀ ph ∈ cs.set_chunks, (ph.2.map Prod.fst).Nodup) :
    ((cs.array_chunks_iterator path).map Prod.fst).Nodup := by
  unfold ChangeSet.array_chunks_iterator
  cases hl : lookupA cs.set_chunks path with
  | none => exact List.Pairwise.nil
  | some hmap => exact hcs (path, hmap) (mem_of_lookupA_eq_some _ _ _ hl)

end Icechunk

namespace Icechunk

/-- C3 (amended): in the manifest table written by a successful flush the
rows of one array are contiguous and fill exactly the half-open range of the
node's manifest reference; and no two rows share `(node, coord)` provided —
as forced by the duplicate-emission counterexample — every base array
carries at most one manifest reference, referenced ranges have
pairwise-distinct coordinates, and the overlay's per-array chunk maps have
pairwise-distinct keys. -/
theorem c3_manifest_layout (ds : Dataset) (mid sid oid : ObjectId) (ds' : Dataset)
    (bns : List NodeStructure) (bs : List (List ChunkInfo))
    (st' : StructureTable) (mt' : ManifestTable)
    (hbase : (ds.structure_id = none ∧ bns = []) ∨
      (∃ sid0 st, ds.structure_id = some sid0 ∧ ds.storage.fetch_structure sid0 = .ok st ∧
        bns = st.nodes))
    (hbs : mapOpt ds.node_chunk_iterator bns = some bs)
    (h : ds.flush mid sid = some (.ok oid, ds'))
    (hst' : ds'.storage.fetch_structure oid = .ok st')
    (hmt' : ds'.storage.fetch_manifests mid = .ok mt')
    (hal : ∀ node ∈ bns, nodeAlignedB ds.storage node = true)
    (hnodup : (bns.map NodeStructure.id ++
      ds.change_set.new_arrays.map (fun pa => pa.2.1)).Nodup) :
    (∀ node ∈ st'.nodes, ∀ meta mref, node.node_data = .Array meta [mref] →
      mref.location.1 < mref.location.2 ∧
      mt'.rows.filter (fun c => decide (c.node = node.id)) =
        (mt'.rows.take mref.location.2).drop mref.location.1) ∧
    ((∀ node ∈ bns, ∀ meta mans, node.node_data = .Array meta mans → mans.length ≤ 1) →
     (∀ node ∈ bns, ∀ meta mans, node.node_data = .Array meta mans → ∀ mref ∈ mans,
       ((manifestRowsInRange ds.storage mref).map ChunkInfo.coord).Nodup) →
     (∀ ph ∈ ds.change_set.set_chunks, (ph.2.map Prod.fst).Nodup) →
     (mt'.rows.map (fun c => (c.node, c.coord))).Nodup) := by
  obtain ⟨ec, allNodes, hec, hoid, hn, hstf, hmtf, _, _⟩ := flush_ok_main ds mid sid oid ds' h
  subst hoid
  have hlen : bns.length = bs.length := (mapOpt_length _ bns bs hbs).symm
  have hecj : ec = joinL bs := updated_chunk_iterator_joinL ds bns bs ec hbase hbs hec
  have hrows : mt'.rows = joinL ((flushBlocks ds bns bs).map Prod.snd) := by
    rw [hmtf mt' hmt']
    unfold mk_manifests_table
    rw [hecj, flushBlocks_snd ds bns bs hlen]
  have hids : (flushBlocks ds bns bs).map Prod.fst =
      bns.map NodeStructure.id ++ ds.change_set.new_arrays.map (fun pa => pa.2.1) :=
    flushBlocks_fst ds bns bs hlen
  have hidsnd : ((flushBlocks ds bns bs).map Prod.fst).Nodup := by
    rw [hids]
    exact hnodup
  have hnodes : ∀ nb ∈ flushBlocks ds bns bs, ∀ c ∈ nb.2, c.node = nb.1 :=
    flushBlocks_nodes ds bns bs hbs hal
  have htr : TableRegionTracker.default.processChunks
      (ec ++ ds.change_set.new_arrays_chunk_iterator) =
      ⟨blockRegions 0 (flushBlocks ds bns bs),
        (joinL bs ++ ds.change_set.new_arrays_chunk_iterator).length⟩ := by
    rw [hecj]
    exact flush_tracker_eq ds bns bs hbs hal hnodup
  have hst'' : st' = mk_structure_table allNodes := hstf st' hst'
  constructor
  · intro node hnode meta mref hnd
    have hnode' : node ∈ allNodes := by
      rw [hst''] at hnode
      exact hnode
    obtain ⟨hobj, hreg⟩ := updated_nodes_single_ref _ mid _ allNodes hn node hnode' meta mref hnd
    rw [htr] at hreg
    unfold TableRegionTracker.region at hreg
    dsimp only at hreg
    by_cases hex : ∃ b, (node.id, b) ∈ flushBlocks ds bns bs ∧ b ≠ []
    · obtain ⟨b, hbmem, hbne⟩ := hex
      obtain ⟨lo, hlook, hslice⟩ :=
        blockRegions_slice (flushBlocks ds bns bs) [] hidsnd node.id b hbmem hbne
      simp only [List.length_nil, List.nil_append] at hlook hslice
      rw [hlook] at hreg
      injection hreg with hreg'
      have hloc : mref.location = (lo, lo + b.length) := hreg'.symm
      have hfil : mt'.rows.filter (fun c => decide (c.node = node.id)) = b := by
        rw [hrows]
        exact filter_blocks_eq (flushBlocks ds bns bs) node.id b hbmem hidsnd hnodes
      refine ⟨?_, ?_⟩
      · rw [hloc]
        dsimp only
        have : 0 < b.length := List.length_pos.mpr hbne
        omega
      · rw [hloc, hfil]
        dsimp only
        rw [hrows]
        exact hslice.symm
    · exfalso
      push_neg at hex
      rw [blockRegions_lookup_none (flushBlocks ds bns bs) 0 node.id hex] at hreg
      cases hreg
  · intro hle hrowsnd hcsnd
    rw [hrows]
    apply pairs_nodup_joinL (flushBlocks ds bns bs) hidsnd hnodes
    intro nb hnb
    unfold flushBlocks at hnb
    cases List.mem_append.mp hnb with
    | inl hmem =>
      obtain ⟨ndb, hndb, hmap⟩ := List.mem_map.mp hmem
      obtain ⟨nd, blk⟩ := ndb
      subst hmap
      dsimp only
      have hf := mapOpt_zip_mem _ bns bs hbs (nd, blk) hndb
      have hmem' := (List.of_mem_zip hndb).1
      exact node_block_coords_nodup ds nd blk hf
        (fun meta mans hnd => hle nd hmem' meta mans hnd)
        (fun meta mans hnd => hrowsnd nd hmem' meta mans hnd)
        (array_chunks_keys_nodup ds.change_set nd.path hcsnd)
    | inr hmem =>
      unfold newBlocks at hmem
      obtain ⟨pa, hpa, hmap⟩ := List.mem_map.mp hmem
      subst hmap
      dsimp only
      exact newChunksOf_coords_nodup ds.change_set pa.1 pa.2.1
        (array_chunks_keys_nodup ds.change_set pa.1 hcsnd)

end Icechunk

namespace Icechunk

/-- Base snapshot whose array carries two manifest references into the same
manifest. -/
def c3base : Storage :=
  ⟨[(50, ⟨[⟨7, 4, none, .Array ⟨[2]⟩ [⟨70, (0, 1), .mk, []⟩, ⟨70, (1, 2), .mk, []⟩]⟩]⟩)],
   [(70, ⟨[⟨7, [0], .Inline [1]⟩, ⟨7, [1], .Inline [2]⟩]⟩)], false, false, false, false⟩

/-- Session over `c3base` staging one chunk at a fresh coordinate. -/
def c3cs : Dataset := ((Dataset.update c3base 50).set_chunk 4 [5] (some (.Inline [9]))).2

/-- The session state after flushing `c3cs`. -/
def c3cpost : Dataset :=
  match c3cs.flush 60 61 with
  | some pr => pr.2
  | none => c3cs

/-- C3 counterexample: with two manifest references on one base array, the
flush succeeds but the manifest table it writes contains the pair
`(node 7, coord [5])` twice, refuting the claim for arrays with more than
one reference. -/
theorem c3_counterexample :
    (c3cs.flush 60 61).map Prod.fst = some (.ok 61) ∧
    ¬ ((((lookupA c3cpost.storage.manifests 60).getD ⟨[]⟩).rows.map
      (fun c => (c.node, c.coord))).Nodup) :=
  ⟨rfl, by decide⟩

/-- Base snapshot with a single-reference array for the C3 witness. -/
def c3wBase : Storage :=
  ⟨[(50, ⟨[⟨7, 4, none, .Array ⟨[2]⟩ [⟨70, (0, 1), .mk, []⟩]⟩]⟩)],
   [(70, ⟨[⟨7, [0], .Inline [1]⟩]⟩)], false, false, false, false⟩

/-- Session over `c3wBase` staging one chunk at a fresh coordinate. -/
def c3ws : Dataset := ((Dataset.update c3wBase 50).set_chunk 4 [5] (some (.Inline [9]))).2

/-- The session state after flushing `c3ws`. -/
def c3wpost : Dataset :=
  match c3ws.flush 60 61 with
  | some pr => pr.2
  | none => c3ws

/-- The base nodes of `c3ws`. -/
def c3wnodes : List NodeStructure := [⟨7, 4, none, .Array ⟨[2]⟩ [⟨70, (0, 1), .mk, []⟩]⟩]

/-- The per-node chunk blocks of `c3ws`. -/
def c3wbs : List (List ChunkInfo) := (mapOpt c3ws.node_chunk_iterator c3wnodes).getD []

/-- The structure table written by flushing `c3ws`. -/
def c3wst : StructureTable := (lookupA c3wpost.storage.structures 61).getD ⟨[]⟩

/-- The manifest table written by flushing `c3ws`. -/
def c3wmt : ManifestTable := (lookupA c3wpost.storage.manifests 60).getD ⟨[]⟩

/-- C3 witness: on the single-reference fixture, the flushed manifest has
pairwise-distinct `(node, coord)` pairs and the array's rows fill its
recorded region exactly. -/
theorem c3_witness :
    (c3wmt.rows.map (fun c => (c.node, c.coord))).Nodup ∧
    (0 : Nat) < 2 ∧
    c3wmt.rows.filter (fun c => decide (c.node = 7)) = (c3wmt.rows.take 2).drop 0 := by
  have hmain := c3_manifest_layout c3ws 60 61 61 c3wpost c3wnodes c3wbs c3wst c3wmt
    (Or.inr ⟨50, ⟨c3wnodes⟩, rfl, rfl, rfl⟩) rfl rfl rfl rfl (by decide) (by decide)
  have h1 := hmain.1 ⟨7, 4, none, .Array ⟨[2]⟩ [⟨60, (0, 2), .mk, []⟩]⟩ (by decide) ⟨[2]⟩
    ⟨60, (0, 2), .mk, []⟩ rfl
  have hle : ∀ node ∈ c3wnodes, ∀ meta mans, node.node_data = .Array meta mans →
      mans.length ≤ 1 := by
    intro node hn meta mans hd
    have hnode : node = ⟨7, 4, none, .Array ⟨[2]⟩ [⟨70, (0, 1), .mk, []⟩]⟩ := by
      simpa [c3wnodes] using hn
    subst hnode
    injection hd with h1 h2
    subst h2
    decide
  have hco : ∀ node ∈ c3wnodes, ∀ meta mans, node.node_data = .Array meta mans →
      ∀ mref ∈ mans, ((manifestRowsInRange c3ws.storage mref).map ChunkInfo.coord).Nodup := by
    intro node hn meta mans hd mref hm
    have hnode : node = ⟨7, 4, none, .Array ⟨[2]⟩ [⟨70, (0, 1), .mk, []⟩]⟩ := by
      simpa [c3wnodes] using hn
    subst hnode
    injection hd with h1 h2
    subst h2
    have hmref : mref = ⟨70, (0, 1), .mk, []⟩ := by simpa using hm
    subst hmref
    decide
  exact ⟨hmain.2 hle hco (by decide), h1.1, h1.2⟩

/-- Base snapshot whose array carries no manifest references. -/
def c2base : Storage :=
  ⟨[(50, ⟨[⟨7, 4, none, .Array ⟨[2]⟩ []⟩]⟩)], [], false, false, false, false⟩

/-- Session over `c2base` staging one chunk for the reference-free array. -/
def c2s : Dataset := ((Dataset.update c2base 50).set_chunk 4 [0] (some (.Inline [3]))).2

/-- The session state after flushing `c2s`. -/
def c2post : Dataset :=
  match c2s.flush 60 61 with
  | some pr => pr.2
  | none => c2s

/-- C2: on a base array that carries zero manifest references, an overlay
chunk at a coordinate absent from the old manifests is accepted and visible
before flush, yet flush succeeds while writing a manifest table with no row
for it — the chunk is silently lost, in both the flushed session and a fresh
session opened on the new snapshot. -/
theorem c2_zero_ref_chunk_dropped :
    c2s.get_chunk_ref 4 [0] = some (.Inline [3]) ∧
    (c2s.flush 60 61).map Prod.fst = some (.ok 61) ∧
    (lookupA c2post.storage.manifests 60).getD ⟨[]⟩ = ⟨[]⟩ ∧
    c2post.get_chunk_ref 4 [0] = none ∧
    (Dataset.update c2post.storage 61).get_chunk_ref 4 [0] = none :=
  ⟨rfl, rfl, rfl, rfl, rfl⟩

end Icechunk

namespace Icechunk

/-! ### Roundtrip: reading through a freshly opened session -/

/-- A node with its manifest references erased: what a reader sees of a node
apart from where its chunks are stored. -/
def stripNode (n : NodeStructure) : NodeStructure :=
  match n.node_data with
  | .Group => n
  | .Array meta _ => { n with node_data := .Array meta [] }

theorem findByPath_path (l : List NodeStructure) (p : Path) (n : NodeStructure)
    (h : findByPath l p = some n) : n.path = p := by
  induction l with
  | nil => cases h
  | cons m rest ih =>
    unfold findByPath at h
    by_cases hm : m.path = p
    · rw [if_pos hm] at h
      injection h with h'
      rw [← h']
      exact hm
    · rw [if_neg hm] at h
      exact ih h

theorem findByPath_append (l₁ l₂ : List NodeStructure) (p : Path) :
    findByPath (l₁ ++ l₂) p =
      match findByPath l₁ p with
      | some n => some n
      | none => findByPath l₂ p := by
  induction l₁ with
  | nil => rfl
  | cons m rest ih =>
    by_cases hm : m.path = p
    · simp only [List.cons_append, findByPath, if_pos hm]
    · simp only [List.cons_append, findByPath, if_neg hm]
      exact ih

theorem findByPath_map (f : NodeStructure → NodeStructure)
    (hf : ∀ n, (f n).path = n.path) (l : List NodeStructure) (p : Path) :
    findByPath (l.map f) p = (findByPath l p).map f := by
  induction l with
  | nil => rfl
  | cons m rest ih =>
    by_cases hm : m.path = p
    · simp only [List.map_cons, findByPath, hf m, if_pos hm, Option.map_some']
    · simp only [List.map_cons, findByPath, hf m, if_neg hm]
      exact ih

theorem findByPath_eq_none (l : List NodeStructure) (p : Path) :
    findByPath l p = none ↔ ∀ n ∈ l, n.path ≠ p := by
  induction l with
  | nil => simp [findByPath]
  | cons m rest ih =>
    by_cases hm : m.path = p
    · simp only [findByPath, if_pos hm]
      simp only [List.mem_cons]
      constructor
      · intro h
        cases h
      · intro h
        exact absurd hm (h m (Or.inl rfl))
    · simp only [findByPath, if_neg hm, ih, List.mem_cons]
      constructor
      · intro h n hn
        cases hn with
        | inl hh => rw [hh]; exact hm
        | inr hh => exact h n hh
      · intro h n hn
        exact h n (Or.inr hn)

theorem findByPath_filterMap (g : Path → Option NodeStructure)
    (hg : ∀ q n, g q = some n → n.path = q) :
    ∀ (keys : List Path) (p : Path), (∀ n, g p = some n → p ∈ keys) →
      findByPath (keys.filterMap g) p = g p := by
  intro keys
  induction keys with
  | nil =>
    intro p hp
    cases hgp : g p with
    | none => rfl
    | some n => exact absurd (hp n hgp) (List.not_mem_nil p)
  | cons q rest ih =>
    intro p hp
    rw [List.filterMap_cons]
    cases hgq : g q with
    | none =>
      refine ih p (fun n hgp => ?_)
      cases List.mem_cons.mp (hp n hgp) with
      | inl hh => rw [hh] at hgp; rw [hgp] at hgq; cases hgq
      | inr hh => exact hh
    | some n =>
      unfold findByPath
      rw [hg q n hgq]
      by_cases hqp : q = p
      · rw [if_pos hqp]
        subst hqp
        exact hgq.symm
      · rw [if_neg hqp]
        refine ih p (fun m hgp => ?_)
        cases List.mem_cons.mp (hp m hgp) with
        | inl hh => exact absurd hh.symm hqp
        | inr hh => exact hh

theorem findByCoord_append (l₁ l₂ : List ChunkInfo) (c : ArrayIndices) :
    findByCoord (l₁ ++ l₂) c =
      match findByCoord l₁ c with
      | some r => some r
      | none => findByCoord l₂ c := by
  induction l₁ with
  | nil => rfl
  | cons r rest ih =>
    by_cases hr : r.coord = c
    · simp only [List.cons_append, findByCoord, if_pos hr]
    · simp only [List.cons_append, findByCoord, if_neg hr]
      exact ih

theorem findByCoord_eq_none (l : List ChunkInfo) (c : ArrayIndices) :
    findByCoord l c = none ↔ ∀ r ∈ l, r.coord ≠ c := by
  induction l with
  | nil => simp [findByCoord]
  | cons r rest ih =>
    by_cases hr : r.coord = c
    · simp only [findByCoord, if_pos hr]
      simp only [List.mem_cons]
      constructor
      · intro h
        cases h
      · intro h
        exact absurd hr (h r (Or.inl rfl))
    · simp only [findByCoord, if_neg hr, ih, List.mem_cons]
      constructor
      · intro h n hn
        cases hn with
        | inl hh => rw [hh]; exact hr
        | inr hh => exact h n hh
      · intro h n hn
        exact h n (Or.inr hn)

theorem lookupA_mem_keys {α β : Type} [DecidableEq α] (l : List (α × β)) (k : α)
    (h : k ∈ l.map Prod.fst) : ∃ v, lookupA l k = some v := by
  induction l with
  | nil => exact absurd h (List.not_mem_nil k)
  | cons kv rest ih =>
    by_cases hk : kv.1 = k
    · exact ⟨kv.2, by simp [lookupA, hk]⟩
    · simp only [List.map_cons, List.mem_cons] at h
      cases h with
      | inl hh => exact absurd hh.symm hk
      | inr hh =>
        obtain ⟨v, hv⟩ := ih hh
        exact ⟨v, by simp only [lookupA, if_neg hk]; exact hv⟩

end Icechunk

namespace Icechunk

/-- A session just opened on a snapshot reads nodes straight off the fetched
structure table: its change set is empty, so no overlay applies. -/
theorem fresh_get_node (stor : Storage) (sid : ObjectId) (st : StructureTable)
    (hfs : stor.fetch_structure sid = .ok st) (p : Path) :
    (Dataset.update stor sid).get_node p = findByPath st.nodes p := by
  rw [get_node_eq]
  have hga : (Dataset.update stor sid).get_new_array p = none := rfl
  have hgg : (Dataset.update stor sid).get_new_group p = none := rfl
  rw [hga, hgg]
  unfold Dataset.get_existing_node
  dsimp only [Dataset.update, Dataset.new]
  rw [hfs]
  dsimp only
  cases hfp : st.get_node p with
  | none => exact hfp.symm
  | some res0 => exact hfp.symm

/-- A session just opened on a snapshot resolves chunks through the fetched
node and its manifests alone. -/
theorem fresh_get_chunk_ref (stor : Storage) (sid : ObjectId) (st : StructureTable)
    (hfs : stor.fetch_structure sid = .ok st) (p : Path) (c : ArrayIndices) :
    (Dataset.update stor sid).get_chunk_ref p c =
      match findByPath st.nodes p with
      | none => none
      | some node =>
        match node.node_data with
        | .Group => none
        | .Array _ mans => (Dataset.update stor sid).get_old_chunk mans c := by
  unfold Dataset.get_chunk_ref
  rw [fresh_get_node stor sid st hfs p]
  cases findByPath st.nodes p with
  | none => rfl
  | some node =>
    cases node.node_data with
    | Group => rfl
    | Array meta mans => rfl

/-- Resolving a chunk through a single manifest reference is a coordinate
lookup in the referenced row range. -/
theorem get_old_chunk_single (ds : Dataset) (mref : ManifestRef) (c : ArrayIndices)
    (mt : ManifestTable) (hf : ds.storage.fetch_manifests mref.object_id = .ok mt) :
    ds.get_old_chunk [mref] c =
      (findByCoord ((mt.rows.take mref.location.2).drop mref.location.1) c).map
        ChunkInfo.payload := by
  unfold Dataset.get_old_chunk
  rw [hf]
  dsimp only
  unfold ManifestTable.get_chunk_info ManifestTable.iter
  simp only [Option.getD_some]
  cases hx : findByCoord ((mt.rows.take mref.location.2).drop mref.location.1) c with
  | none => rfl
  | some r => rfl

/-- The manifest-reference rewrite `Dataset::new_nodes` applies to each
session-created node. -/
def adjustNewNode (mid : ObjectId) (tracker : TableRegionTracker)
    (node : NodeStructure) : NodeStructure :=
  match node.node_data with
  | .Group => node
  | .Array meta _ =>
    let region := tracker.region node.id
    let new_manifests := region.map (fun r =>
      if r.1 = r.2 then []
      else [{ object_id := mid, location := r, flags := .mk, extents := [] }])
    { node with node_data := .Array meta (new_manifests.getD []) }

theorem new_nodes_def (ds : Dataset) (mid : ObjectId) (tracker : TableRegionTracker) :
    ds.new_nodes mid tracker =
      ds.change_set.new_nodes.filterMap (fun path =>
        (ds.get_new_node path).map (adjustNewNode mid tracker)) := rfl

theorem get_new_node_path (ds : Dataset) (p : Path) (n : NodeStructure)
    (h : ds.get_new_node p = some n) : n.path = p := by
  unfold Dataset.get_new_node at h
  cases hga : ds.get_new_array p with
  | some m =>
    rw [hga] at h
    injection h with h'
    subst h'
    unfold Dataset.get_new_array at hga
    cases him : ds.change_set.get_array p with
    | none => rw [him] at hga; cases hga
    | some im =>
      rw [him] at hga
      injection hga with h2
      rw [← h2]
  | none =>
    rw [hga] at h
    unfold Dataset.get_new_group at h
    cases him : ds.change_set.get_group p with
    | none => rw [him] at h; cases h
    | some nid =>
      rw [him] at h
      injection h with h2
      rw [← h2]

theorem get_new_node_mem_keys (ds : Dataset) (p : Path) (n : NodeStructure)
    (h : ds.get_new_node p = some n) : p ∈ ds.change_set.new_nodes := by
  unfold Dataset.get_new_node at h
  unfold ChangeSet.new_nodes
  cases hga : ds.get_new_array p with
  | some m =>
    unfold Dataset.get_new_array at hga
    cases him : ds.change_set.get_array p with
    | none => rw [him] at hga; cases hga
    | some im =>
      refine List.mem_append.mpr (Or.inr ?_)
      exact mem_keys_of_lookupA_eq_some _ _ _ him
  | none =>
    rw [hga] at h
    unfold Dataset.get_new_group at h
    cases him : ds.change_set.get_group p with
    | none => rw [him] at h; cases h
    | some nid =>
      refine List.mem_append.mpr (Or.inl ?_)
      exact mem_keys_of_lookupA_eq_some _ _ _ him

theorem adjustNewNode_path (mid : ObjectId) (tracker : TableRegionTracker)
    (node : NodeStructure) : (adjustNewNode mid tracker node).path = node.path := by
  obtain ⟨nid, npath, natts, ndata⟩ := node
  cases ndata <;> rfl

/-- Looking a path up among the flushed session-created nodes is the
manifest-rewritten overlay node. -/
theorem new_nodes_find (ds : Dataset) (mid : ObjectId) (tracker : TableRegionTracker)
    (p : Path) :
    findByPath (ds.new_nodes mid tracker) p =
      (ds.get_new_node p).map (adjustNewNode mid tracker) := by
  rw [new_nodes_def]
  refine findByPath_filterMap _ ?_ ds.change_set.new_nodes p ?_
  · intro q n hq
    cases hgn : ds.get_new_node q with
    | none => rw [hgn] at hq; cases hq
    | some m =>
      rw [hgn] at hq
      injection hq with h'
      subst h'
      rw [adjustNewNode_path]
      exact get_new_node_path ds q m hgn
  · intro n hn
    cases hgn : ds.get_new_node p with
    | none => rw [hgn] at hn; cases hn
    | some m => exact get_new_node_mem_keys ds p m hgn

theorem update_existing_node_path (ds : Dataset) (node : NodeStructure)
    (nm : Option (List ManifestRef)) : (ds.update_existing_node node nm).path = node.path := by
  obtain ⟨nid, npath, natts, ndata⟩ := node
  cases ndata <;> rfl

theorem strip_adjustNewNode (mid : ObjectId) (tracker : TableRegionTracker)
    (node : NodeStructure) :
    stripNode (adjustNewNode mid tracker node) = stripNode node := by
  obtain ⟨nid, npath, natts, ndata⟩ := node
  cases ndata <;> rfl

/-- Up to manifest references, the base-node rewrite performed by flush and
the read-side overlay of `get_existing_node` agree. -/
theorem strip_update_overlay (ds : Dataset) (node : NodeStructure)
    (nm : Option (List ManifestRef)) :
    stripNode (ds.update_existing_node node nm) =
      stripNode (overlayNode ds.change_set node.path node) := by
  obtain ⟨nid, npath, natts, ndata⟩ := node
  unfold Dataset.update_existing_node overlayNode ChangeSet.get_user_attributes
    ChangeSet.get_updated_zarr_metadata
  dsimp only
  cases ndata with
  | Group =>
    cases lookupA ds.change_set.updated_arrays npath <;> rfl
  | Array meta mans =>
    cases lookupA ds.change_set.updated_arrays npath <;> rfl

theorem update_existing_node_storage (ds : Dataset) (stor : Storage)
    (node : NodeStructure) (nm : Option (List ManifestRef)) :
    Dataset.update_existing_node { ds with storage := stor } node nm =
      ds.update_existing_node node nm := rfl

theorem new_nodes_storage (ds : Dataset) (stor : Storage) (mid : ObjectId)
    (tracker : TableRegionTracker) :
    Dataset.new_nodes { ds with storage := stor } mid tracker =
      ds.new_nodes mid tracker := rfl

end Icechunk

namespace Icechunk

/-- A payload-carrying overlay entry surfaces as the first row with its
coordinate among the tomb-filtered overlay chunks. -/
theorem findByCoord_skipTomb_some (nid : NodeId) (c : ArrayIndices) (pl : ChunkPayload) :
    ∀ h : List (ArrayIndices × Option ChunkPayload), lookupA h c = some (some pl) →
      findByCoord (h.filterMap (fun cp => cp.2.map
        (fun payload => ({ node := nid, coord := cp.1, payload := payload } : ChunkInfo)))) c =
        some { node := nid, coord := c, payload := pl } := by
  intro h
  induction h with
  | nil => intro hl; cases hl
  | cons cp rest ih =>
    intro hl
    rw [List.filterMap_cons]
    by_cases hd : cp.1 = c
    · unfold lookupA at hl
      rw [if_pos hd] at hl
      injection hl with hl'
      rw [hl']
      dsimp only [Option.map_some']
      unfold findByCoord
      rw [if_pos hd]
      rw [hd]
    · unfold lookupA at hl
      rw [if_neg hd] at hl
      cases hv : cp.2 with
      | none => exact ih hl
      | some x =>
        dsimp only [Option.map_some']
        unfold findByCoord
        rw [if_neg hd]
        exact ih hl

/-- A coordinate absent from the overlay map yields no tomb-filtered overlay
chunk. -/
theorem findByCoord_skipTomb_notmem (nid : NodeId) (c : ArrayIndices)
    (h : List (ArrayIndices × Option ChunkPayload)) (hc : ¬ c ∈ h.map Prod.fst) :
    findByCoord (h.filterMap (fun cp => cp.2.map
      (fun payload => ({ node := nid, coord := cp.1, payload := payload } : ChunkInfo)))) c =
      none := by
  rw [findByCoord_eq_none]
  intro r hr
  obtain ⟨cp, hcp, hmap⟩ := List.mem_filterMap.mp hr
  cases hv : cp.2 with
  | none => rw [hv] at hmap; cases hmap
  | some x =>
    rw [hv] at hmap
    injection hmap with hmap'
    subst hmap'
    dsimp only
    intro hh
    exact hc (hh ▸ List.mem_map.mpr ⟨cp, hcp, rfl⟩)

/-- A tombstoned coordinate yields no tomb-filtered overlay chunk, provided
the overlay map has pairwise-distinct coordinates. -/
theorem findByCoord_skipTomb_tomb (nid : NodeId) (c : ArrayIndices) :
    ∀ h : List (ArrayIndices × Option ChunkPayload), lookupA h c = some none →
      ((h.map Prod.fst).Nodup) →
      findByCoord (h.filterMap (fun cp => cp.2.map
        (fun payload => ({ node := nid, coord := cp.1, payload := payload } : ChunkInfo)))) c =
        none := by
  intro h
  induction h with
  | nil => intro hl _; cases hl
  | cons cp rest ih =>
    intro hl hnd
    simp only [List.map_cons, List.nodup_cons] at hnd
    rw [List.filterMap_cons]
    by_cases hd : cp.1 = c
    · unfold lookupA at hl
      rw [if_pos hd] at hl
      injection hl with hl'
      rw [hl']
      exact findByCoord_skipTomb_notmem nid c rest (hd ▸ hnd.1)
    · unfold lookupA at hl
      rw [if_neg hd] at hl
      cases hv : cp.2 with
      | none => exact ih hl hnd.2
      | some x =>
        dsimp only [Option.map_some']
        unfold findByCoord
        rw [if_neg hd]
        exact ih hl hnd.2

theorem findByCoord_cons (r : ChunkInfo) (l : List ChunkInfo) (c : ArrayIndices) :
    findByCoord (r :: l) c = if r.coord = c then some r else findByCoord l c := rfl

/-- `update_existing_chunks`, one chunk at a time. -/
theorem update_existing_chunks_cons (ds : Dataset) (p : Path) (r : ChunkInfo)
    (l : List ChunkInfo) :
    ds.update_existing_chunks p (r :: l) =
      match ds.change_set.get_chunk_ref p r.coord with
      | none => r :: ds.update_existing_chunks p l
      | some none => ds.update_existing_chunks p l
      | some (some pl) => { r with payload := pl } :: ds.update_existing_chunks p l := by
  unfold Dataset.update_existing_chunks
  rw [List.filterMap_cons]
  cases hg : ds.change_set.get_chunk_ref p r.coord with
  | none => rfl
  | some np => cases np <;> rfl

/-- At a coordinate the overlay does not touch, looking up among the
updated-and-filtered old rows is looking up among the raw old rows. -/
theorem findByCoord_update_none (ds : Dataset) (p : Path) (c : ArrayIndices)
    (idx : List ArrayIndices) (hnone : ds.change_set.get_chunk_ref p c = none)
    (hcidx : ¬ c ∈ idx) :
    ∀ l : List ChunkInfo,
      findByCoord (ds.update_existing_chunks p
        (l.filter (fun r => decide (¬ r.coord ∈ idx)))) c = findByCoord l c := by
  intro l
  induction l with
  | nil => rfl
  | cons r rest ih =>
    rw [List.filter_cons]
    by_cases hrc : r.coord = c
    · rw [if_pos (by rw [hrc]; exact decide_eq_true (by exact hcidx))]
      rw [update_existing_chunks_cons, hrc, hnone]
      dsimp only
      rw [findByCoord_cons, findByCoord_cons, if_pos hrc, if_pos hrc]
    · by_cases hin : r.coord ∈ idx
      · rw [if_neg (by simp [hin])]
        rw [findByCoord_cons, if_neg hrc]
        exact ih
      · rw [if_pos (by simp [hin])]
        rw [update_existing_chunks_cons]
        cases hg : ds.change_set.get_chunk_ref p r.coord with
        | none =>
          dsimp only
          rw [findByCoord_cons, findByCoord_cons, if_neg hrc, if_neg hrc]
          exact ih
        | some np =>
          cases np with
          | none =>
            dsimp only
            rw [findByCoord_cons, if_neg hrc]
            exact ih
          | some pl =>
            dsimp only
            rw [findByCoord_cons, findByCoord_cons]
            dsimp only
            rw [if_neg hrc, if_neg hrc]
            exact ih

theorem overlayNode_group (cs : ChangeSet) (p : Path) (node : NodeStructure)
    (h : node.node_data = .Group) : (overlayNode cs p node).node_data = .Group := by
  obtain ⟨nid, npath, natts, ndata⟩ := node
  dsimp only at h
  subst h
  unfold overlayNode
  cases lookupA cs.updated_arrays p <;> rfl

theorem overlayNode_array (cs : ChangeSet) (p : Path) (node : NodeStructure)
    (meta : ZarrArrayMetadata) (mans : List ManifestRef)
    (h : node.node_data = .Array meta mans) :
    (overlayNode cs p node).node_data =
      .Array ((lookupA cs.updated_arrays p).getD meta) mans := by
  obtain ⟨nid, npath, natts, ndata⟩ := node
  dsimp only at h
  subst h
  unfold overlayNode
  cases lookupA cs.updated_arrays p <;> rfl

theorem update_existing_node_group_data (ds : Dataset) (node : NodeStructure)
    (nm : Option (List ManifestRef)) (h : node.node_data = .Group) :
    (ds.update_existing_node node nm).node_data = .Group := by
  obtain ⟨nid, npath, natts, ndata⟩ := node
  dsimp only at h
  subst h
  rfl

theorem update_existing_node_array_data (ds : Dataset) (node : NodeStructure)
    (nm : Option (List ManifestRef)) (meta : ZarrArrayMetadata) (mans : List ManifestRef)
    (h : node.node_data = .Array meta mans) :
    (ds.update_existing_node node nm).node_data =
      .Array ((lookupA ds.change_set.updated_arrays node.path).getD meta) (nm.getD []) := by
  obtain ⟨nid, npath, natts, ndata⟩ := node
  dsimp only at h
  subst h
  unfold Dataset.update_existing_node ChangeSet.get_updated_zarr_metadata
  dsimp only

/-- Each element of a `mapOpt` input is paired with its output. -/
theorem mapOpt_mem_zip {α β : Type} (f : α → Option β) :
    ∀ (l : List α) (res : List β), mapOpt f l = some res →
      ∀ x ∈ l, ∃ y, (x, y) ∈ l.zip res ∧ f x = some y := by
  intro l
  induction l with
  | nil =>
    intro res _ x hx
    exact absurd hx (List.not_mem_nil x)
  | cons a rest ih =>
    intro res hm x hx
    unfold mapOpt at hm
    cases hfa : f a with
    | none => rw [hfa] at hm; cases hm
    | some b =>
      rw [hfa] at hm
      cases hrest : mapOpt f rest with
      | none => rw [hrest] at hm; cases hm
      | some bs =>
        rw [hrest] at hm
        dsimp only at hm
        injection hm with hm'
        subst hm'
        cases List.mem_cons.mp hx with
        | inl hh =>
          subst hh
          exact ⟨b, by simp [List.zip_cons_cons], hfa⟩
        | inr hh =>
          obtain ⟨y, hzip, hfy⟩ := ih bs hrest x hh
          exact ⟨y, by simp only [List.zip_cons_cons, List.mem_cons]; exact Or.inr hzip, hfy⟩

end Icechunk

namespace Icechunk

theorem fetch_structure_eq_ok (s : Storage) (id : ObjectId) (t : StructureTable)
    (hflag : s.fetch_structure_fails = false) (hl : lookupA s.structures id = some t) :
    s.fetch_structure id = .ok t := by
  unfold Storage.fetch_structure
  rw [if_neg (by simp [hflag]), hl]

theorem fetch_manifests_eq_ok (s : Storage) (id : ObjectId) (t : ManifestTable)
    (hflag : s.fetch_manifests_fails = false) (hl : lookupA s.manifests id = some t) :
    s.fetch_manifests id = .ok t := by
  unfold Storage.fetch_manifests
  rw [if_neg (by simp [hflag]), hl]

theorem region_mk (rs : List (NodeId × TableRegion)) (k : Nat) (n : NodeId) :
    TableRegionTracker.region ⟨rs, k⟩ n = lookupA rs n := rfl

theorem adjustNewNode_id (mid : ObjectId) (tracker : TableRegionTracker)
    (node : NodeStructure) : (adjustNewNode mid tracker node).id = node.id := by
  obtain ⟨nid, npath, natts, ndata⟩ := node
  cases ndata <;> rfl

theorem adjustNewNode_group_data (mid : ObjectId) (tracker : TableRegionTracker)
    (node : NodeStructure) (h : node.node_data = .Group) :
    adjustNewNode mid tracker node = node := by
  obtain ⟨nid, npath, natts, ndata⟩ := node
  dsimp only at h
  subst h
  rfl

theorem adjustNewNode_array_data (mid : ObjectId) (tracker : TableRegionTracker)
    (node : NodeStructure) (meta : ZarrArrayMetadata) (mans : List ManifestRef)
    (h : node.node_data = .Array meta mans) :
    (adjustNewNode mid tracker node).node_data =
      .Array meta (((tracker.region node.id).map (fun r =>
        if r.1 = r.2 then []
        else [{ object_id := mid, location := r, flags := Flags.mk, extents := [] }])).getD []) := by
  obtain ⟨nid, npath, natts, ndata⟩ := node
  dsimp only at h
  subst h
  rfl

theorem findByPath_append_some (l₁ l₂ : List NodeStructure) (p : Path) (n : NodeStructure)
    (h : findByPath l₁ p = some n) : findByPath (l₁ ++ l₂) p = some n := by
  rw [findByPath_append, h]

theorem findByPath_append_none (l₁ l₂ : List NodeStructure) (p : Path)
    (h : findByPath l₁ p = none) : findByPath (l₁ ++ l₂) p = findByPath l₂ p := by
  rw [findByPath_append, h]

theorem findByPath_mem (l : List NodeStructure) (p : Path) (n : NodeStructure)
    (h : findByPath l p = some n) : n ∈ l := by
  induction l with
  | nil => cases h
  | cons m rest ih =>
    unfold findByPath at h
    by_cases hm : m.path = p
    · rw [if_pos hm] at h
      injection h with h'
      rw [h']
      exact List.mem_cons_self _ _
    · rw [if_neg hm] at h
      exact List.mem_cons_of_mem _ (ih h)

/-- The node list a successful flush writes, in terms of the pre-flush
session: every base node through `update_existing_node` with its tracker
region, then the new nodes. -/
theorem flush_allNodes (ds : Dataset) (mid : ObjectId) (stor1 : Storage)
    (tracker : TableRegionTracker) (allNodes bns : List NodeStructure)
    (hbase : (ds.structure_id = none ∧ bns = []) ∨
      (∃ sid0 st, ds.structure_id = some sid0 ∧ ds.storage.fetch_structure sid0 = .ok st ∧
        bns = st.nodes))
    (hfs1 : ∀ i, Storage.fetch_structure stor1 i = ds.storage.fetch_structure i)
    (hn : Dataset.updated_nodes { ds with storage := stor1 } mid tracker = some allNodes) :
    allNodes = bns.map (fun node =>
        ds.update_existing_node node ((tracker.region node.id).map (fun r =>
          if r.1 = r.2 then []
          else [{ object_id := mid, location := r, flags := Flags.mk, extents := [] }])))
      ++ ds.new_nodes mid tracker := by
  obtain ⟨bns2, hbase2, hall⟩ := updated_nodes_eq _ mid tracker allNodes hn
  simp only [update_existing_node_storage, new_nodes_storage] at hall
  have hb2 : bns2 = bns := by
    cases hbase2 with
    | inl hb2 =>
      cases hbase with
      | inl hb =>
        rw [hb2.2, hb.2]
      | inr hb =>
        obtain ⟨sid0, st, hsid, _, _⟩ := hb
        have : ds.structure_id = none := hb2.1
        rw [hsid] at this
        cases this
    | inr hb2 =>
      obtain ⟨sid2, st2, hsid2, hfs2, hbns2⟩ := hb2
      cases hbase with
      | inl hb =>
        have : ds.structure_id = none := hb.1
        have hsid2b : ds.structure_id = some sid2 := hsid2
        rw [this] at hsid2b
        cases hsid2b
      | inr hb =>
        obtain ⟨sid0, st, hsid, hfs, hbns⟩ := hb
        have hsid2b : ds.structure_id = some sid2 := hsid2
        rw [hsid] at hsid2b
        injection hsid2b with hss
        subst hss
        rw [hfs1 sid0, hfs] at hfs2
        injection hfs2 with hst
        rw [hbns2, hbns, hst]
  rw [hb2] at hall
  exact hall

/-- Reading a region off the grouped stream: a node id whose block is empty
has no region; one with a non-empty block has exactly its block's slice. -/
theorem blocks_region_read (blocks : List (NodeId × List ChunkInfo))
    (hnd : (blocks.map Prod.fst).Nodup) (nid : NodeId) (b : List ChunkInfo)
    (hmem : (nid, b) ∈ blocks) :
    (b = [] → lookupA (blockRegions 0 blocks) nid = none) ∧
    (b ≠ [] → ∃ lo, lookupA (blockRegions 0 blocks) nid = some (lo, lo + b.length) ∧
      ((joinL (blocks.map Prod.snd)).take (lo + b.length)).drop lo = b) := by
  constructor
  · intro hb
    apply blockRegions_lookup_none
    intro b2 hb2
    rw [mem_unique_of_nodup_keys blocks hnd nid b2 b hb2 hmem]
    exact hb
  · intro hb
    have hs := blockRegions_slice blocks [] hnd nid b hmem hb
    simpa using hs

/-- What a coordinate lookup among one array's tomb-filtered overlay chunks
returns, by the overlay's verdict at that coordinate. -/
theorem find_newChunksOf (cs : ChangeSet) (p : Path) (nid : NodeId) (c : ArrayIndices)
    (hck : ∀ ph ∈ cs.set_chunks, (ph.2.map Prod.fst).Nodup) :
    findByCoord (newChunksOf cs p nid) c =
      match cs.get_chunk_ref p c with
      | some (some pl) => some { node := nid, coord := c, payload := pl }
      | some none => none
      | none => none := by
  unfold newChunksOf ChangeSet.array_chunks_iterator ChangeSet.get_chunk_ref
  cases hl : lookupA cs.set_chunks p with
  | none => rfl
  | some hmap =>
    show findByCoord (hmap.filterMap _) c =
      match lookupA hmap c with
      | some (some pl) => some { node := nid, coord := c, payload := pl }
      | some none => none
      | none => none
    cases hlc : lookupA hmap c with
    | none =>
      have hnm : ¬ c ∈ hmap.map Prod.fst := by
        intro hcm
        obtain ⟨v, hv⟩ := lookupA_mem_keys hmap c hcm
        rw [hv] at hlc
        cases hlc
      exact findByCoord_skipTomb_notmem nid c hmap hnm
    | some sc =>
      cases sc with
      | some pl => exact findByCoord_skipTomb_some nid c pl hmap hlc
      | none =>
        have hnd : (hmap.map Prod.fst).Nodup :=
          hck (p, hmap) (mem_of_lookupA_eq_some _ _ _ hl)
        exact findByCoord_skipTomb_tomb nid c hmap hlc hnd

/-- A chunk read on a session-created array equals the coordinate lookup in
that array's flushed block. -/
theorem overlay_read_eq_block (ds : Dataset) (p : Path) (nid : NodeId) (c : ArrayIndices)
    (hck : ∀ ph ∈ ds.change_set.set_chunks, (ph.2.map Prod.fst).Nodup) :
    (match ds.change_set.get_chunk_ref p c with
     | some sc => sc
     | none => ds.get_old_chunk [] c) =
      (findByCoord (newChunksOf ds.change_set p nid) c).map ChunkInfo.payload := by
  rw [find_newChunksOf ds.change_set p nid c hck]
  cases hcr : ds.change_set.get_chunk_ref p c with
  | none => rfl
  | some sc => cases sc <;> rfl

/-- If every overlay entry of one array is a tombstone, a chunk read on that
array through the overlay resolves to nothing or to a recorded deletion. -/
theorem overlay_tomb_only (cs : ChangeSet) (p : Path) (c : ArrayIndices)
    (hz : ∀ cp ∈ cs.array_chunks_iterator p, cp.2 = none) :
    cs.get_chunk_ref p c = none ∨ cs.get_chunk_ref p c = some none := by
  unfold ChangeSet.get_chunk_ref
  cases hl : lookupA cs.set_chunks p with
  | none => exact Or.inl rfl
  | some hmap =>
    show lookupA hmap c = none ∨ lookupA hmap c = some none
    cases hlc : lookupA hmap c with
    | none => exact Or.inl rfl
    | some v =>
      refine Or.inr ?_
      have hmem : (c, v) ∈ hmap := mem_of_lookupA_eq_some _ _ _ hlc
      have hmem2 : (c, v) ∈ cs.array_chunks_iterator p := by
        unfold ChangeSet.array_chunks_iterator
        rw [hl]
        exact hmem
      exact congrArg some (hz (c, v) hmem2)

/-- A chunk read on a single-reference base array equals the coordinate
lookup in the block that reference contributes to the flush stream. -/
theorem block_read_base (ds : Dataset) (p : Path) (nid : NodeId) (c : ArrayIndices)
    (mref0 : ManifestRef) (mt0 : ManifestTable)
    (hf : ds.storage.fetch_manifests mref0.object_id = .ok mt0)
    (part0 : List ChunkInfo)
    (hpart : refChunks ds p nid mref0 = some part0)
    (hck : ∀ ph ∈ ds.change_set.set_chunks, (ph.2.map Prod.fst).Nodup) :
    (findByCoord part0 c).map ChunkInfo.payload =
      match ds.change_set.get_chunk_ref p c with
      | some sc => sc
      | none => ds.get_old_chunk [mref0] c := by
  obtain ⟨mt1, hf1, hblk⟩ := refChunks_eq_some ds p nid mref0 part0 hpart
  rw [hf] at hf1
  injection hf1 with hmt
  subst hmt
  subst hblk
  rw [findByCoord_append, find_newChunksOf ds.change_set p nid c hck]
  cases hcr : ds.change_set.get_chunk_ref p c with
  | some sc =>
    cases sc with
    | some pl => rfl
    | none =>
      dsimp only
      have hcm : c ∈ (ds.change_set.array_chunks_iterator p).map Prod.fst := by
        unfold ChangeSet.get_chunk_ref at hcr
        cases hl : lookupA ds.change_set.set_chunks p with
        | none => rw [hl] at hcr; cases hcr
        | some hmap =>
          rw [hl] at hcr
          unfold ChangeSet.array_chunks_iterator
          rw [hl]
          exact List.mem_map.mpr ⟨(c, none), mem_of_lookupA_eq_some _ _ _ hcr, rfl⟩
      rw [(findByCoord_eq_none _ c).mpr ?hnc]
      case hnc =>
        intro r hr
        obtain ⟨c0, hc0, _, hco⟩ := mem_update_existing_chunks ds p _ r hr
        have hfil := (List.mem_filter.mp hc0).2
        simp only [decide_eq_true_eq] at hfil
        rw [hco]
        intro hh
        exact hfil (hh ▸ hcm)
      rfl
  | none =>
    dsimp only
    have hnc : ¬ c ∈ (ds.change_set.array_chunks_iterator p).map Prod.fst := by
      unfold ChangeSet.get_chunk_ref at hcr
      unfold ChangeSet.array_chunks_iterator
      cases hl : lookupA ds.change_set.set_chunks p with
      | none => simp [lookupA]
      | some hmap =>
        rw [hl] at hcr
        have hcr2 : lookupA hmap c = none := hcr
        intro hcm
        obtain ⟨v, hv⟩ := lookupA_mem_keys hmap c (by simpa using hcm)
        rw [hv] at hcr2
        cases hcr2
    rw [findByCoord_update_none ds p c _ hcr hnc
      (mt0.iter (some mref0.location.1) (some mref0.location.2))]
    rw [get_old_chunk_single ds mref0 c mt0 hf]
    unfold ManifestTable.iter
    simp only [Option.getD_some]

end Icechunk

namespace Icechunk

/-- Looking a path up in the flushed node list agrees with the pre-flush
session's `get_node`, up to manifest references, when session-created paths
are absent from the base. -/
theorem roundtrip_node_aux (ds : Dataset) (mid : ObjectId) (tracker : TableRegionTracker)
    (bns : List NodeStructure) (f : NodeStructure → NodeStructure)
    (hfpath : ∀ node, (f node).path = node.path)
    (hfstrip : ∀ node, stripNode (f node) =
      stripNode (overlayNode ds.change_set node.path node))
    (hbase : (ds.structure_id = none ∧ bns = []) ∨
      (∃ sid0 st, ds.structure_id = some sid0 ∧ ds.storage.fetch_structure sid0 = .ok st ∧
        bns = st.nodes))
    (hfresh : ∀ p ∈ ds.change_set.new_nodes, findByPath bns p = none)
    (p : Path) :
    (findByPath (bns.map f ++ ds.new_nodes mid tracker) p).map stripNode =
      (ds.get_node p).map stripNode := by
  cases hgn : ds.get_new_node p with
  | some n =>
    have hnode : ds.get_node p = some n := by
      unfold Dataset.get_node
      rw [hgn]
    have hbp : findByPath bns p = none := hfresh p (get_new_node_mem_keys ds p n hgn)
    have hbp2 : findByPath (bns.map f) p = none := by
      rw [findByPath_map f hfpath bns p, hbp]
      rfl
    rw [findByPath_append_none _ _ _ hbp2, new_nodes_find, hgn, hnode]
    simp only [Option.map_some', strip_adjustNewNode]
  | none =>
    have hnode : ds.get_node p = ds.get_existing_node p := by
      unfold Dataset.get_node
      rw [hgn]
    cases hbp : findByPath bns p with
    | none =>
      have hbp2 : findByPath (bns.map f) p = none := by
        rw [findByPath_map f hfpath bns p, hbp]
        rfl
      rw [findByPath_append_none _ _ _ hbp2, new_nodes_find, hgn]
      have hex : ds.get_existing_node p = none := by
        cases hbase with
        | inl hb =>
          unfold Dataset.get_existing_node
          rw [hb.1]
        | inr hb =>
          obtain ⟨sid0, st, hsid, hfs, hbns⟩ := hb
          refine get_existing_node_none ds p sid0 st hsid hfs ?_
          unfold StructureTable.get_node
          rw [← hbns]
          exact hbp
      rw [hnode, hex]
      rfl
    | some node0 =>
      have hpath : node0.path = p := findByPath_path bns p node0 hbp
      have hbp2 : findByPath (bns.map f) p = some (f node0) := by
        rw [findByPath_map f hfpath bns p, hbp]
        rfl
      rw [findByPath_append_some _ _ _ _ hbp2]
      cases hbase with
      | inl hb =>
        rw [hb.2] at hbp
        cases hbp
      | inr hb =>
        obtain ⟨sid0, st, hsid, hfs, hbns⟩ := hb
        have hst : st.get_node p = some node0 := by
          unfold StructureTable.get_node
          rw [← hbns]
          exact hbp
        have hex := get_existing_node_some ds p sid0 st node0 hsid hfs hst
        rw [hnode, hex]
        simp only [Option.map_some']
        rw [hfstrip node0, hpath]

end Icechunk

namespace Icechunk

/-- Chunk reads through the flushed node list and manifest agree with the
pre-flush session, for well-formed sessions over at-most-single-reference
bases whose reference-free arrays carry only tombstones. -/
theorem roundtrip_chunk_aux (ds : Dataset) (mid : ObjectId) (K : Nat) (ds2 : Dataset)
    (bns : List NodeStructure) (bs : List (List ChunkInfo)) (MT : ManifestTable)
    (hbase : (ds.structure_id = none ∧ bns = []) ∨
      (∃ sid0 st, ds.structure_id = some sid0 ∧ ds.storage.fetch_structure sid0 = .ok st ∧
        bns = st.nodes))
    (hbs : mapOpt ds.node_chunk_iterator bns = some bs)
    (hfm2 : ds2.storage.fetch_manifests mid = .ok MT)
    (hrows : MT.rows = joinL ((flushBlocks ds bns bs).map Prod.snd))
    (hnd : ((flushBlocks ds bns bs).map Prod.fst).Nodup)
    (hfresh : ∀ q ∈ ds.change_set.new_nodes, findByPath bns q = none)
    (hsingle : ∀ node ∈ bns, ∀ meta mans, node.node_data = .Array meta mans → mans.length ≤ 1)
    (hzero : ∀ node ∈ bns, ∀ meta, node.node_data = .Array meta [] →
      ∀ cp ∈ ds.change_set.array_chunks_iterator node.path, cp.2 = none)
    (hck : ∀ ph ∈ ds.change_set.set_chunks, (ph.2.map Prod.fst).Nodup)
    (p : Path) (c : ArrayIndices) :
    (match findByPath (bns.map (fun node =>
        ds.update_existing_node node
          ((TableRegionTracker.region ⟨blockRegions 0 (flushBlocks ds bns bs), K⟩ node.id).map
            (fun r => if r.1 = r.2 then []
              else [{ object_id := mid, location := r, flags := Flags.mk, extents := [] }])))
      ++ ds.new_nodes mid ⟨blockRegions 0 (flushBlocks ds bns bs), K⟩) p with
     | none => none
     | some node =>
       match node.node_data with
       | .Group => none
       | .Array _ mans => ds2.get_old_chunk mans c) = ds.get_chunk_ref p c := by
  have hfpath : ∀ node : NodeStructure,
      (ds.update_existing_node node
        ((TableRegionTracker.region ⟨blockRegions 0 (flushBlocks ds bns bs), K⟩ node.id).map
          (fun r => if r.1 = r.2 then []
            else [{ object_id := mid, location := r, flags := Flags.mk, extents := [] }]))).path
        = node.path :=
    fun node => update_existing_node_path ds node _
  cases hga : ds.get_new_array p with
  | some n =>
    have hgn : ds.get_new_node p = some n := by
      unfold Dataset.get_new_node
      rw [hga]
    have hnode : ds.get_node p = some n := by
      unfold Dataset.get_node
      rw [hgn]
    have hbp : findByPath bns p = none := hfresh p (get_new_node_mem_keys ds p n hgn)
    have hbp2 : findByPath (bns.map (fun node =>
        ds.update_existing_node node
          ((TableRegionTracker.region ⟨blockRegions 0 (flushBlocks ds bns bs), K⟩ node.id).map
            (fun r => if r.1 = r.2 then []
              else [{ object_id := mid, location := r, flags := Flags.mk, extents := [] }])))) p
        = none := by
      rw [findByPath_map _ hfpath bns p, hbp]
      rfl
    rw [findByPath_append_none _ _ _ hbp2, new_nodes_find, hgn]
    rw [get_new_array_eq] at hga
    cases him : lookupA ds.change_set.new_arrays p with
    | none =>
      rw [him] at hga
      cases hga
    | some im =>
      rw [him] at hga
      simp only [Option.map_some', Option.some.injEq] at hga
      subst hga
      simp only [Option.map_some']
      rw [adjustNewNode_array_data mid _ _
        ((lookupA ds.change_set.updated_arrays p).getD im.2) [] rfl]
      dsimp only
      have hrhs : ds.get_chunk_ref p c =
          match ds.change_set.get_chunk_ref p c with
          | some sc => sc
          | none => Dataset.get_old_chunk ds [] c := by
        unfold Dataset.get_chunk_ref
        rw [hnode]
      rw [hrhs, overlay_read_eq_block ds p im.1 c hck]
      have hmemblk : (im.1, newChunksOf ds.change_set p im.1) ∈ flushBlocks ds bns bs := by
        unfold flushBlocks newBlocks
        exact List.mem_append.mpr (Or.inr
          (List.mem_map.mpr ⟨(p, im), mem_of_lookupA_eq_some _ _ _ him, rfl⟩))
      obtain ⟨hregnil, hregcons⟩ := blocks_region_read (flushBlocks ds bns bs) hnd im.1
        (newChunksOf ds.change_set p im.1) hmemblk
      by_cases hblk : newChunksOf ds.change_set p im.1 = []
      · rw [region_mk, hregnil hblk, hblk]
        rfl
      · obtain ⟨lo, hlook, hslice⟩ := hregcons hblk
        rw [region_mk, hlook]
        simp only [Option.map_some', Option.getD_some]
        rw [if_neg (Nat.ne_of_lt (Nat.lt_add_of_pos_right (List.length_pos.mpr hblk)))]
        rw [get_old_chunk_single ds2 _ c MT hfm2]
        dsimp only
        rw [hrows, hslice]
  | none =>
    cases hgg : ds.get_new_group p with
    | some n =>
      have hgn : ds.get_new_node p = some n := by
        unfold Dataset.get_new_node
        rw [hga]
        exact hgg
      have hnode : ds.get_node p = some n := by
        unfold Dataset.get_node
        rw [hgn]
      have hbp : findByPath bns p = none := hfresh p (get_new_node_mem_keys ds p n hgn)
      have hbp2 : findByPath (bns.map (fun node =>
          ds.update_existing_node node
            ((TableRegionTracker.region ⟨blockRegions 0 (flushBlocks ds bns bs), K⟩ node.id).map
              (fun r => if r.1 = r.2 then []
                else [{ object_id := mid, location := r, flags := Flags.mk, extents := [] }])))) p
          = none := by
        rw [findByPath_map _ hfpath bns p, hbp]
        rfl
      rw [findByPath_append_none _ _ _ hbp2, new_nodes_find, hgn]
      rw [get_new_group_eq] at hgg
      cases him : lookupA ds.change_set.new_groups p with
      | none =>
        rw [him] at hgg
        cases hgg
      | some gid =>
        rw [him] at hgg
        simp only [Option.map_some', Option.some.injEq] at hgg
        subst hgg
        simp only [Option.map_some']
        rw [adjustNewNode_group_data mid _ _ rfl]
        have hrhs : ds.get_chunk_ref p c = none := by
          unfold Dataset.get_chunk_ref
          rw [hnode]
        rw [hrhs]
    | none =>
      have hgn : ds.get_new_node p = none := by
        unfold Dataset.get_new_node
        rw [hga]
        exact hgg
      have hnode : ds.get_node p = ds.get_existing_node p := by
        unfold Dataset.get_node
        rw [hgn]
      cases hbp : findByPath bns p with
      | none =>
        have hbp2 : findByPath (bns.map (fun node =>
            ds.update_existing_node node
              ((TableRegionTracker.region ⟨blockRegions 0 (flushBlocks ds bns bs), K⟩ node.id).map
                (fun r => if r.1 = r.2 then []
                  else [{ object_id := mid, location := r, flags := Flags.mk, extents := [] }])))) p
            = none := by
          rw [findByPath_map _ hfpath bns p, hbp]
          rfl
        rw [findByPath_append_none _ _ _ hbp2, new_nodes_find, hgn]
        have hex : ds.get_existing_node p = none := by
          cases hbase with
          | inl hb =>
            unfold Dataset.get_existing_node
            rw [hb.1]
          | inr hb =>
            obtain ⟨sid0, st, hsid, hfs, hbns⟩ := hb
            refine get_existing_node_none ds p sid0 st hsid hfs ?_
            unfold StructureTable.get_node
            rw [← hbns]
            exact hbp
        have hrhs : ds.get_chunk_ref p c = none := by
          unfold Dataset.get_chunk_ref
          rw [hnode, hex]
        rw [hrhs]
        rfl
      | some node0 =>
        have hmem0 : node0 ∈ bns := findByPath_mem bns p node0 hbp
        have hpath : node0.path = p := findByPath_path bns p node0 hbp
        have hbp2 : findByPath (bns.map (fun node =>
            ds.update_existing_node node
              ((TableRegionTracker.region ⟨blockRegions 0 (flushBlocks ds bns bs), K⟩ node.id).map
                (fun r => if r.1 = r.2 then []
                  else [{ object_id := mid, location := r, flags := Flags.mk, extents := [] }])))) p
            = some (ds.update_existing_node node0
              ((TableRegionTracker.region ⟨blockRegions 0 (flushBlocks ds bns bs), K⟩
                node0.id).map
                (fun r => if r.1 = r.2 then []
                  else [{ object_id := mid, location := r, flags := Flags.mk, extents := [] }]))) := by
          rw [findByPath_map _ hfpath bns p, hbp]
          rfl
        rw [findByPath_append_some _ _ _ _ hbp2]
        dsimp only
        cases hbase with
        | inl hb =>
          rw [hb.2] at hbp
          cases hbp
        | inr hb =>
          obtain ⟨sid0, st, hsid, hfs, hbns⟩ := hb
          have hst : st.get_node p = some node0 := by
            unfold StructureTable.get_node
            rw [← hbns]
            exact hbp
          have hex := get_existing_node_some ds p sid0 st node0 hsid hfs hst
          cases hnd0 : node0.node_data with
          | Group =>
            rw [update_existing_node_group_data ds node0 _ hnd0]
            have hrhs : ds.get_chunk_ref p c = none := by
              unfold Dataset.get_chunk_ref
              rw [hnode, hex]
              dsimp only
              rw [overlayNode_group ds.change_set p node0 hnd0]
            rw [hrhs]
          | Array meta0 mans0 =>
            obtain ⟨b, hzip, hnci⟩ := mapOpt_mem_zip _ bns bs hbs node0 hmem0
            have hmemblk : (node0.id, b) ∈ flushBlocks ds bns bs := by
              unfold flushBlocks
              exact List.mem_append.mpr (Or.inl (List.mem_map.mpr ⟨(node0, b), hzip, rfl⟩))
            obtain ⟨hregnil, hregcons⟩ :=
              blocks_region_read (flushBlocks ds bns bs) hnd node0.id b hmemblk
            rw [update_existing_node_array_data ds node0 _ meta0 mans0 hnd0]
            dsimp only
            have hova := overlayNode_array ds.change_set p node0 meta0 mans0 hnd0
            have hrhs : ds.get_chunk_ref p c =
                match ds.change_set.get_chunk_ref p c with
                | some sc => sc
                | none => ds.get_old_chunk mans0 c := by
              unfold Dataset.get_chunk_ref
              rw [hnode, hex]
              dsimp only
              rw [hova]
            rw [hrhs]
            have hlen1 := hsingle node0 hmem0 meta0 mans0 hnd0
            cases mans0 with
            | nil =>
              have hb0 : b = [] := by
                rw [node_chunk_iterator_eq, hnd0] at hnci
                dsimp only at hnci
                simp only [mapOpt, joinL, Option.map_some', Option.some.injEq] at hnci
                exact hnci.symm
              rw [region_mk, hregnil hb0]
              have hz2 : ∀ cp ∈ ds.change_set.array_chunks_iterator p, cp.2 = none := by
                rw [← hpath]
                exact hzero node0 hmem0 meta0 hnd0
              cases overlay_tomb_only ds.change_set p c hz2 with
              | inl hcr =>
                rw [hcr]
                rfl
              | inr hcr =>
                rw [hcr]
                rfl
            | cons mref0 rest =>
              cases rest with
              | cons m2 r2 =>
                exfalso
                simp only [List.length_cons] at hlen1
                omega
              | nil =>
                rw [node_chunk_iterator_eq, hnd0] at hnci
                dsimp only at hnci
                cases hmo : mapOpt (refChunks ds node0.path node0.id) [mref0] with
                | none =>
                  rw [hmo] at hnci
                  cases hnci
                | some parts =>
                  rw [hmo] at hnci
                  simp only [Option.map_some', Option.some.injEq] at hnci
                  obtain ⟨part0, rest2, hf0, hrest2, hparts⟩ :=
                    mapOpt_cons_eq_some _ mref0 [] parts hmo
                  have hr2 : rest2 = [] := by
                    simp only [mapOpt, Option.some.injEq] at hrest2
                    exact hrest2.symm
                  subst hr2
                  subst hparts
                  have hbp0 : b = part0 := by
                    rw [← hnci]
                    simp [joinL]
                  rw [hpath] at hf0
                  obtain ⟨mt0, hfm0, _⟩ := refChunks_eq_some ds p node0.id mref0 part0 hf0
                  rw [← block_read_base ds p node0.id c mref0 mt0 hfm0 part0 hf0 hck]
                  by_cases hb0 : b = []
                  · rw [region_mk, hregnil hb0]
                    rw [hbp0] at hb0
                    rw [hb0]
                    rfl
                  · obtain ⟨lo, hlook, hslice⟩ := hregcons hb0
                    rw [region_mk, hlook]
                    simp only [Option.map_some', Option.getD_some]
                    rw [if_neg (Nat.ne_of_lt (Nat.lt_add_of_pos_right
                      (List.length_pos.mpr hb0)))]
                    rw [get_old_chunk_single ds2 _ c MT hfm2]
                    dsimp only
                    rw [hrows, hslice, hbp0]

end Icechunk

namespace Icechunk

/-- C1 (amended): after a successful flush returning `sid`, a session opened
with `Session::update(storage, sid)` observes the same tree as the pre-flush
session up to manifest references — `get_node` agrees at every path once
manifest references are erased (they necessarily change: flush rewrites them
to the fresh manifest), and `get_chunk_ref` agrees at every `(p, c)` —
provided the session is well-formed: fetches succeed, base arrays are
id-aligned and carry at most one manifest reference each, node ids are
pairwise distinct, session-created paths are fresh, overlay maps have
distinct coordinates, and reference-free base arrays carry only tombstones
(the carve-out forced by the zero-reference chunk-loss bug). -/
theorem c1_roundtrip (ds : Dataset) (mid sid oid : ObjectId) (ds' : Dataset)
    (bns : List NodeStructure) (bs : List (List ChunkInfo))
    (hbase : (ds.structure_id = none ∧ bns = []) ∨
      (∃ sid0 st, ds.structure_id = some sid0 ∧ ds.storage.fetch_structure sid0 = .ok st ∧
        bns = st.nodes))
    (hbs : mapOpt ds.node_chunk_iterator bns = some bs)
    (h : ds.flush mid sid = some (.ok oid, ds'))
    (hfsf : ds.storage.fetch_structure_fails = false)
    (hfmf : ds.storage.fetch_manifests_fails = false)
    (hal : ∀ node ∈ bns, nodeAlignedB ds.storage node = true)
    (hnodup : (bns.map NodeStructure.id ++
      ds.change_set.new_arrays.map (fun pa => pa.2.1)).Nodup)
    (hfresh : ∀ q ∈ ds.change_set.new_nodes, findByPath bns q = none)
    (hsingle : ∀ node ∈ bns, ∀ meta mans, node.node_data = .Array meta mans → mans.length ≤ 1)
    (hzero : ∀ node ∈ bns, ∀ meta, node.node_data = .Array meta [] →
      ∀ cp ∈ ds.change_set.array_chunks_iterator node.path, cp.2 = none)
    (hck : ∀ ph ∈ ds.change_set.set_chunks, (ph.2.map Prod.fst).Nodup) :
    (∀ p, ((Dataset.update ds'.storage oid).get_node p).map stripNode =
      (ds.get_node p).map stripNode) ∧
    (∀ p c, (Dataset.update ds'.storage oid).get_chunk_ref p c = ds.get_chunk_ref p c) := by
  obtain ⟨ec, allNodes, storage1, storage2, hec, hoid, hwm, hn, hws, hds'⟩ :=
    flush_ok_elim ds mid sid oid ds' h
  obtain ⟨hwmf, hs1⟩ := write_manifests_ok_elim _ _ _ _ hwm
  obtain ⟨hwsf, hs2⟩ := write_structure_ok_elim _ _ _ _ hws
  subst hs1
  subst hs2
  subst hoid
  have hecj : ec = joinL bs := updated_chunk_iterator_joinL ds bns bs ec hbase hbs hec
  have hlen : bns.length = bs.length := (mapOpt_length _ bns bs hbs).symm
  have hnd : ((flushBlocks ds bns bs).map Prod.fst).Nodup := by
    rw [flushBlocks_fst ds bns bs hlen]
    exact hnodup
  have htr := flush_tracker_eq ds bns bs hbs hal hnodup
  rw [← hecj] at htr
  rw [htr] at hn
  have hallNodes := flush_allNodes ds mid _ _ allNodes bns hbase (fun i => rfl) hn
  have hfs2 : ds'.storage.fetch_structure oid = .ok (mk_structure_table allNodes) := by
    rw [hds']
    exact fetch_structure_eq_ok _ _ _ hfsf (lookupA_insertA_self _ _ _)
  have hfm2 : ds'.storage.fetch_manifests mid =
      .ok (mk_manifests_table (ec ++ ds.change_set.new_arrays_chunk_iterator)) := by
    rw [hds']
    exact fetch_manifests_eq_ok _ _ _ hfmf (lookupA_insertA_self _ _ _)
  have hrows : (mk_manifests_table (ec ++ ds.change_set.new_arrays_chunk_iterator)).rows =
      joinL ((flushBlocks ds bns bs).map Prod.snd) := by
    show ec ++ _ = _
    rw [flushBlocks_snd ds bns bs hlen, hecj]
  constructor
  · intro p
    rw [fresh_get_node ds'.storage oid (mk_structure_table allNodes) hfs2 p]
    rw [show (mk_structure_table allNodes).nodes = allNodes from rfl, hallNodes]
    exact roundtrip_node_aux ds mid _ bns _
      (fun node => update_existing_node_path ds node _)
      (fun node => strip_update_overlay ds node _) hbase hfresh p
  · intro p c
    rw [fresh_get_chunk_ref ds'.storage oid (mk_structure_table allNodes) hfs2 p c]
    rw [show (mk_structure_table allNodes).nodes = allNodes from rfl, hallNodes]
    exact roundtrip_chunk_aux ds mid _ (Dataset.update ds'.storage oid) bns bs
      (mk_manifests_table (ec ++ ds.change_set.new_arrays_chunk_iterator))
      hbase hbs hfm2 hrows hnd hfresh hsingle hzero hck p c

end Icechunk

namespace Icechunk

/-- Empty storage for the C1 counterexample. -/
def c1cBase : Storage := ⟨[], [], false, false, false, false⟩

/-- Session that creates an array and stages one chunk. -/
def c1cs : Dataset :=
  (((Dataset.create c1cBase).add_array 4 ⟨[2]⟩).2.set_chunk 4 [0] (some (.Inline [3]))).2

/-- The session state after flushing `c1cs`. -/
def c1cpost : Dataset :=
  match c1cs.flush 60 61 with
  | some pr => pr.2
  | none => c1cs

/-- C1 counterexample: the flush succeeds, yet a fresh session opened on the
written snapshot does not return the same node as the pre-flush session —
pre-flush the array carries no manifest references, post-flush it carries
the freshly written one, so the round trip only holds up to manifest
references. -/
theorem c1_counterexample :
    (c1cs.flush 60 61).map Prod.fst = some (.ok 61) ∧
    ¬ ((Dataset.update c1cpost.storage 61).get_node 4 = c1cs.get_node 4) :=
  ⟨rfl, by decide⟩

/-- Base snapshot for the C1 witness: one single-reference array. -/
def c1wBase : Storage :=
  ⟨[(50, ⟨[⟨7, 4, none, .Array ⟨[2]⟩ [⟨70, (0, 1), .mk, []⟩]⟩]⟩)],
   [(70, ⟨[⟨7, [0], .Inline [1]⟩]⟩)], false, false, false, false⟩

/-- Session over `c1wBase` staging one chunk at a fresh coordinate. -/
def c1ws : Dataset := ((Dataset.update c1wBase 50).set_chunk 4 [5] (some (.Inline [9]))).2

/-- The session state after flushing `c1ws`. -/
def c1wpost : Dataset :=
  match c1ws.flush 60 61 with
  | some pr => pr.2
  | none => c1ws

/-- The base nodes of `c1ws`. -/
def c1wnodes : List NodeStructure := [⟨7, 4, none, .Array ⟨[2]⟩ [⟨70, (0, 1), .mk, []⟩]⟩]

/-- The per-node chunk blocks of `c1ws`. -/
def c1wbs : List (List ChunkInfo) := (mapOpt c1ws.node_chunk_iterator c1wnodes).getD []

/-- C1 witness: on the single-reference fixture, the reopened session agrees
with the pre-flush session on the node at path 4 up to manifest references,
and on the chunk reads at the staged coordinate `[5]` and the inherited
coordinate `[0]`. -/
theorem c1_witness :
    ((Dataset.update c1wpost.storage 61).get_node 4).map stripNode =
      (c1ws.get_node 4).map stripNode ∧
    (Dataset.update c1wpost.storage 61).get_chunk_ref 4 [5] = c1ws.get_chunk_ref 4 [5] ∧
    (Dataset.update c1wpost.storage 61).get_chunk_ref 4 [0] = c1ws.get_chunk_ref 4 [0] := by
  have hsingle : ∀ node ∈ c1wnodes, ∀ meta mans,
      node.node_data = .Array meta mans → mans.length ≤ 1 := by
    intro node hn meta mans hd
    have hnode : node = ⟨7, 4, none, .Array ⟨[2]⟩ [⟨70, (0, 1), .mk, []⟩]⟩ := by
      simpa [c1wnodes] using hn
    subst hnode
    injection hd with h1 h2
    subst h2
    decide
  have hzero : ∀ node ∈ c1wnodes, ∀ meta, node.node_data = .Array meta [] →
      ∀ cp ∈ c1ws.change_set.array_chunks_iterator node.path, cp.2 = none := by
    intro node hn meta hd
    have hnode : node = ⟨7, 4, none, .Array ⟨[2]⟩ [⟨70, (0, 1), .mk, []⟩]⟩ := by
      simpa [c1wnodes] using hn
    subst hnode
    injection hd with h1 h2
    cases h2
  have hmain := c1_roundtrip c1ws 60 61 61 c1wpost c1wnodes c1wbs
    (Or.inr ⟨50, ⟨c1wnodes⟩, rfl, rfl, rfl⟩) rfl rfl rfl rfl (by decide) (by decide)
    (by decide) hsingle hzero (by decide)
  exact ⟨hmain.1 4, hmain.2 4 [5], hmain.2 4 [0]⟩

end Icechunk
